import Mathlib

/-!
# OpenVi: the delete engine (`common/delete.c`) and the event queue (`common/key.c`)

A shallow embedding of `del`, `v_event_push`, `v_event_append`, `QREM` and
`v_event_get`, with the properties of the design document checked against it.

Conventions.
* `size_t` is 64 bits wide; additions and subtractions on `size_t` values are
  written `szAdd` / `szSub` and wrap modulo `2 ^ 64`.
* `recno_t` line numbers are natural numbers; no loop of `del` decrements a line
  number below zero (line 0 never exists, so `db_delete` fails first).
* A C function that returns `0`/`1` and updates `*sp` is a function to
  `Option (Nat × State)`: `some (rval, s)` is a return of `rval` in state `s`,
  `none` is a `memcpy` that reads or writes outside its buffer (behaviour
  undefined in C).
* Memory allocation (`GET_SPACE_RET`, `ADD_SPACE_RET`, `BINC_RET`) succeeds.  A
  `GET_SPACE_RET` of 0 bytes allocates nothing and can leave `bp == NULL`; the
  one such request of `del` is modelled, see `GET_SPACE_RET`.
* The event array `gp->i_event` is a list with one element per slot; a pointer
  into it is the index of its slot.  Sums of slot counts stay far below `2 ^ 64`
  and are not reduced; the subtractions that could wrap are.
* `v_event_get` jumps backwards, so it runs under a step bound: one step is the
  code from one label to the next `goto`.
-/

namespace OpenVi

/-! ## Machine integers -/

/-- Value of `SIZE_MAX` for a 64-bit `size_t`. -/
def SIZE_MAX : Nat := 2 ^ 64 - 1

/-- Addition on `size_t`. -/
def szAdd (a b : Nat) : Nat := (a + b) % 2 ^ 64

/-- Subtraction on `size_t`. -/
def szSub (a b : Nat) : Nat := (a % 2 ^ 64 + 2 ^ 64 - b % 2 ^ 64) % 2 ^ 64

/-! ## The line store -/

/-- One line of the file: its bytes. -/
abbrev Line := List Nat

/-- A `MARK`: line number `lno` (1-based) and column `cno` (0-based). -/
structure MARK where
  lno : Nat
  cno : Nat
  deriving DecidableEq, Repr

/-- The part of `SCR` that `del` reads and writes: the lines of the file behind
`sp->ep`, the counter `sp->rptlines[L_DELETED]`, and the messages handed to
`msgq`.  The field `deleted` is a record kept for the proofs, not a C field: the
line numbers of the `db_delete` calls that succeeded, oldest first. -/
structure SCR where
  lines : List Line
  rptDeleted : Nat
  msgs : List String
  deleted : List Nat
  deriving DecidableEq, Repr

/-- The screen `sp` with the lines of its file replaced by `ls`. -/
def withLines (sp : SCR) (ls : List Line) : SCR := { sp with lines := ls }

/-- Modelled from the spec: `db_last` (the LineStore `last_line_number`), whose
code is not part of the sources at hand.  It is the number of lines. -/
def db_last (sp : SCR) : Option Nat := some sp.lines.length

/-- Modelled from the spec: `db_get` with `DBG_FATAL` (the LineStore `get`): the
bytes of line `lno`, 1-based; it fails for a line that does not exist. -/
def db_get (sp : SCR) (lno : Nat) : Option Line :=
  if lno = 0 then none else sp.lines.get? (lno - 1)

/-- Modelled from the spec: `db_set` (the LineStore `set`): replace the bytes of
line `lno`; it fails for a line that does not exist. -/
def db_set (sp : SCR) (lno : Nat) (bytes : Line) : Option SCR :=
  if lno = 0 ∨ sp.lines.length < lno then none
  else some (withLines sp (sp.lines.set (lno - 1) bytes))

/-- Modelled from the spec: `db_delete` (the LineStore `delete`): remove line
`lno`, the lines after it move up by one; it fails for a line that does not
exist. -/
def db_delete (sp : SCR) (lno : Nat) : Option SCR :=
  if lno = 0 ∨ sp.lines.length < lno then none
  else some { withLines sp (sp.lines.eraseIdx (lno - 1)) with deleted := sp.deleted ++ [lno] }

/-- The statement `++sp->rptlines[L_DELETED]`. -/
def bumpDeleted (sp : SCR) : SCR := { sp with rptDeleted := sp.rptDeleted + 1 }

/-- The call `msgq(sp, M_ERR, text)`. -/
def msgq (sp : SCR) (text : String) : SCR := { sp with msgs := sp.msgs ++ [text] }

/-- The bytes `memcpy` reads from `p + off`, `n` of them; `none` when the read
leaves the line buffer. -/
def memRead (p : Line) (off n : Nat) : Option Line :=
  if off + n ≤ p.length then some ((p.drop off).take n) else none

/-! ## `del` -/

/-- The loop `for (lno = tm->lno; lno >= fm->lno; --lno)` of case 1, entered at
`lno`.  `ic` is `INTERRUPT_CHECK`; `intr lno` is what `INTERRUPTED(sp)` answers
at the poll made after line `lno` was deleted.  The result is `(rval, sp)` where
`rval = 1` is the `return (1)` inside the loop and `rval = 0` is leaving the loop
(by its condition or by `break`). -/
def delLinesGe (ic : Nat) (intr : Nat → Bool) (lo : Nat) : Nat → SCR → Nat × SCR
  | 0, sp =>
    if 0 < lo then (0, sp)
    else
      -- db_delete(sp, 0) fails: line 0 never exists
      (1, sp)
  | n + 1, sp =>
    if n + 1 < lo then (0, sp)
    else
      match db_delete sp (n + 1) with
      | none => (1, sp)
      | some sp1 =>
        let sp2 := bumpDeleted sp1
        if (n + 1) % ic = 0 ∧ intr (n + 1) = true then (0, sp2)
        else delLinesGe ic intr lo n sp2

/-- The loop `for (lno = tm->lno; lno > fm->lno; --lno)` of cases 2 and 4,
entered at `lno`, with the same conventions as `delLinesGe`. -/
def delLinesGt (ic : Nat) (intr : Nat → Bool) (lo : Nat) : Nat → SCR → Nat × SCR
  | 0, sp => (0, sp)
  | n + 1, sp =>
    if n + 1 ≤ lo then (0, sp)
    else
      match db_delete sp (n + 1) with
      | none => (1, sp)
      | some sp1 =>
        let sp2 := bumpDeleted sp1
        if (n + 1) % ic = 0 ∧ intr (n + 1) = true then (0, sp2)
        else delLinesGt ic intr lo n sp2

/-- Modelled from the spec: whether `bp` is `NULL` after
`GET_SPACE_RET(sp, bp, blen, nlen)` (`mem.h` is not among the sources at hand).
A request of `nlen > 0` bytes is served, from the temporary buffer of `gp` or by
an allocation, which succeeds.  For `nlen = 0` nothing is allocated and `bp` is
the pointer the macro starts from: `NULL` when `tmpNull` holds, that is when the
temporary buffer is in use (`G_TMP_INUSE`) or was never allocated
(`gp->tmp_bp` is `NULL`). -/
def GET_SPACE_RET (tmpNull : Bool) (nlen : Nat) : Bool := decide (nlen = 0) && tmpNull

/-- Case 2 of `del` once `eof` is set: delete the lines after `fm->lno`, then
truncate line `fm->lno` to `fm->cno` bytes.  `tmpNull` is the state of the
temporary buffer on entry, see `GET_SPACE_RET`. -/
def delEof (ic : Nat) (intr : Nat → Bool) (tmpNull : Bool) (sp : SCR) (fm tm : MARK) :
    Option (Nat × SCR) :=
  match delLinesGt ic intr fm.lno tm.lno sp with
  | (0, sp1) =>
    match db_get sp1 fm.lno with
    | none => some (1, sp1)
    | some p =>
      -- GET_SPACE_RET(sp, bp, blen, fm->cno); if (bp == NULL) return (1);
      if GET_SPACE_RET tmpNull fm.cno then some (1, sp1)
      else
        -- memcpy(bp, p, fm->cno);
        match memRead p 0 fm.cno with
        | none => none
        | some bp =>
          match db_set sp1 fm.lno bp with
          | none => some (1, sp1)
          | some sp2 => some (0, sp2)
  | (r, sp1) => some (r, sp1)

/-- Case 3 of `del` for a line `p` that is not empty: splice the bytes
`fm->cno .. tm->cno` out of line `fm->lno`.  The buffer `bp` has `len` bytes. -/
def delSingle (sp : SCR) (fm tm : MARK) (p : Line) : Option (Nat × SCR) :=
  let len := p.length
  let t1 := szAdd tm.cno 1
  let n2 := szSub len t1
  -- if (fm->cno != 0) memcpy(bp, p, fm->cno);
  match (if fm.cno ≠ 0 then memRead p 0 fm.cno else some []) with
  | none => none
  | some head =>
    -- memcpy(bp + fm->cno, p + (tm->cno + 1), len - (tm->cno + 1));
    match memRead p t1 n2 with
    | none => none
    | some tail =>
      let nlen := szSub len (szAdd (szSub tm.cno fm.cno) 1)
      -- a write past the end of bp, or db_set handed bytes never written
      if len < fm.cno + n2 ∨ fm.cno + n2 < nlen then none
      else
        match db_set sp fm.lno ((head ++ tail).take nlen) with
        | none => some (1, sp)
        | some sp1 => some (0, sp1)

/-- Case 4 of `del`, from `/* Set the current line. */` on: `bp` holds the
`tlen` bytes of the new line. -/
def delMultiSet (ic : Nat) (intr : Nat → Bool) (sp : SCR) (fm tm : MARK) (bp : Line) :
    Option (Nat × SCR) :=
  match db_set sp fm.lno bp with
  | none => some (1, sp)
  | some sp1 => some (delLinesGt ic intr fm.lno tm.lno sp1)

/-- Case 4 of `del`, from `/* Copy the end partial line into place. */` on:
`bp` holds the first `tlen = fm->cno` bytes of the first line. -/
def delMultiTail (ic : Nat) (intr : Nat → Bool) (sp : SCR) (fm tm : MARK) (bp : Line) :
    Option (Nat × SCR) :=
  let tlen := fm.cno
  match db_get sp tm.lno with
  | none => some (1, sp)
  | some p =>
    let len := p.length
    if len ≠ 0 ∧ tm.cno ≠ len - 1 then
      let t1 := szAdd tm.cno 1
      if len < t1 ∨ szSub len t1 > SIZE_MAX - tlen then
        some (1, msgq sp "Line length overflow")
      else
        -- memcpy(bp + tlen, p + (tm->cno + 1), len - (tm->cno + 1));
        -- tlen += len - (tm->cno + 1);
        match memRead p t1 (szSub len t1) with
        | none => none
        | some tail => delMultiSet ic intr sp fm tm (bp ++ tail)
    else delMultiSet ic intr sp fm tm bp

/-- Case 4 of `del`: delete over several lines. -/
def delMulti (ic : Nat) (intr : Nat → Bool) (sp : SCR) (fm tm : MARK) : Option (Nat × SCR) :=
  if fm.cno ≠ 0 then
    match db_get sp fm.lno with
    | none => some (1, sp)
    | some p =>
      -- GET_SPACE_RET(sp, bp, blen, tlen + 256); memcpy(bp, p, tlen);
      if szAdd fm.cno 256 < fm.cno then none
      else
        match memRead p 0 fm.cno with
        | none => none
        | some bp => delMultiTail ic intr sp fm tm bp
  else delMultiTail ic intr sp fm tm []

/-- Cases 3 and 4 of `del`. -/
def delInner (ic : Nat) (intr : Nat → Bool) (sp : SCR) (fm tm : MARK) : Option (Nat × SCR) :=
  if tm.lno = fm.lno then
    match db_get sp fm.lno with
    | none => some (1, sp)
    | some p => if p.length ≠ 0 then delSingle sp fm tm p else delMulti ic intr sp fm tm
  else delMulti ic intr sp fm tm

/-- The value of the variable `eof` of `del` (`false` when `tm->lno` is before
the last line `lno`); `none` when the `db_get` of the last line fails. -/
def delIsEof (sp : SCR) (tm : MARK) (lno : Nat) : Option Bool :=
  if tm.lno ≥ lno then
    if tm.lno = lno then
      match db_get sp lno with
      | none => none
      | some p => some (decide (tm.cno ≠ SIZE_MAX ∧ tm.cno ≥ p.length))
    else some true
  else some false

/-- The function `del(sp, fm, tm, lmode)`: delete a range of text.  `tmpNull` is
the state of the temporary buffer on entry, see `GET_SPACE_RET`. -/
def del (ic : Nat) (intr : Nat → Bool) (tmpNull : Bool) (sp : SCR) (fm tm : MARK)
    (lmode : Int) : Option (Nat × SCR) :=
  if lmode ≠ 0 then some (delLinesGe ic intr fm.lno tm.lno sp)
  else
    match db_last sp with
    | none => some (1, sp)
    | some lno =>
      match delIsEof sp tm lno with
      | none => some (1, sp)
      | some true => delEof ic intr tmpNull sp fm tm
      | some false => delInner ic intr sp fm tm

/-- A store of lines with no messages and a zero counter. -/
def mkSCR (ls : List Line) : SCR := { lines := ls, rptDeleted := 0, msgs := [], deleted := [] }

/-- The interrupt flag is never raised. -/
def noIntr : Nat → Bool := fun _ => false

/-! ## Events and the event queue (`common/key.c`) -/

/-- The event types `e_event_t` named in `v_event_get` and `v_event_err`;
`E_NOTUSED` is the zero value of a cleared slot. -/
inductive e_event_t
  | E_NOTUSED | E_CHARACTER | E_EOF | E_ERR | E_INTERRUPT | E_QUIT | E_REPAINT
  | E_SIGHUP | E_SIGTERM | E_STRING | E_TIMEOUT | E_WRESIZE | E_WRITE
  deriving DecidableEq, Repr

/-- The key values `e_key_t` that `keylist` names; `K_NOTUSED` is zero. -/
inductive e_key_t
  | K_NOTUSED | K_BACKSLASH | K_CARAT | K_CNTRLD | K_CNTRLR | K_CNTRLT | K_CNTRLZ
  | K_COLON | K_CR | K_ESCAPE | K_FORMFEED | K_HEXCHAR | K_NL | K_RIGHTBRACE
  | K_RIGHTPAREN | K_TAB | K_VERASE | K_VKILL | K_VLNEXT | K_VWERASE | K_ZERO
  deriving DecidableEq, Repr

/-- The per-key flag bits `CH_ABBREVIATED`, `CH_MAPPED`, `CH_NOMAP`, `CH_QUOTED`
of an input character, one field per bit. -/
structure ChFlags where
  abbreviated : Bool
  mapped : Bool
  nomap : Bool
  quoted : Bool
  deriving DecidableEq, Repr

/-- The flag value 0. -/
def CH_NONE : ChFlags := ⟨false, false, false, false⟩

/-- The flag `CH_MAPPED`. -/
def CH_MAPPED : ChFlags := ⟨false, true, false, false⟩

/-- The flag `CH_NOMAP`. -/
def CH_NOMAP : ChFlags := ⟨false, false, true, false⟩

/-- The bitwise or of two flag values. -/
def ChFlags.or (a b : ChFlags) : ChFlags :=
  ⟨a.abbreviated || b.abbreviated, a.mapped || b.mapped, a.nomap || b.nomap,
   a.quoted || b.quoted⟩

/-- The macro `F_ISSET(p, mask)`: some bit of `mask` is set in `f`. -/
def F_ISSET (f mask : ChFlags) : Bool :=
  (f.abbreviated && mask.abbreviated) || (f.mapped && mask.mapped) ||
    (f.nomap && mask.nomap) || (f.quoted && mask.quoted)

/-- An `EVENT`: its type, the character fields `e_c`, `e_value`, `e_flags`, and
the characters `e_csp` (with `e_len` their number) of a string event. -/
structure EVENT where
  e_event : e_event_t
  e_c : Nat
  e_value : e_key_t
  e_flags : ChFlags
  e_csp : List Nat
  deriving DecidableEq, Repr

/-- A zero-filled slot of the event array. -/
def EVENT.zero : EVENT := ⟨.E_NOTUSED, 0, .K_NOTUSED, CH_NONE, []⟩

/-- The character event that the copy loops of `v_event_push` and
`v_event_append` store: `e_event = E_CHARACTER`, `e_c = c`,
`e_value = KEY_VAL(sp, c)`, flags as given. -/
def chEvent (kv : Nat → e_key_t) (flags : ChFlags) (c : Nat) : EVENT :=
  ⟨.E_CHARACTER, c, kv c, flags, []⟩

/-- The request flags `EC_*` passed to `v_event_get`, one field per bit. -/
structure ECFlags where
  interrupt : Bool
  mapcommand : Bool
  mapinput : Bool
  mapnodigit : Bool
  quoted : Bool
  raw : Bool
  timeout : Bool
  deriving DecidableEq, Repr

/-- The request flags `EC_INTERRUPT` alone. -/
def EC_INTERRUPT : ECFlags := ⟨true, false, false, false, false, false, false⟩

/-- The request flags `EC_MAPCOMMAND` alone. -/
def EC_MAPCOMMAND : ECFlags := ⟨false, true, false, false, false, false, false⟩

/-- The part of `GS` behind the event queue: the array `i_event` of `i_nelem`
slots (the empty list is the `NULL` pointer), the window `i_next`, `i_cnt`, and
the flag `G_INTERRUPTED`.  Two fields are records kept for the proofs: `scr_log`,
the flags and timeout of every `gp->scr_event` call so far, and `synced`, the
screens handed to `rcv_sync` with whether `RCV_EMAIL` was set. -/
structure GS where
  i_event : List EVENT
  i_nelem : Nat
  i_next : Nat
  i_cnt : Nat
  interrupted : Bool
  scr_log : List (ECFlags × Int)
  synced : List (Nat × Bool)
  deriving DecidableEq, Repr

/-- The queue seen as a list: the events at `i_next .. i_next + i_cnt - 1`. -/
def GS.view (gp : GS) : List EVENT := (gp.i_event.drop gp.i_next).take gp.i_cnt

/-- The function `v_event_grow(sp, add)`.  `BINC_RET` is not among the sources
at hand: it is taken to succeed and to extend the array to exactly the requested
`i_nelem + add` slots, the new ones zero-filled.  The real `binc` may round the
size up and leave a larger array; the least size is the case in which a store
comes closest to the end of the array. -/
def v_event_grow (gp : GS) (add : Nat) : GS :=
  { gp with i_event := gp.i_event ++ List.replicate add EVENT.zero,
            i_nelem := gp.i_nelem + add }

/-- Store the events `xs` in the slots `pos ..` of the array; `none` when a slot
lies outside the array. -/
def blit (arr : List EVENT) (pos : Nat) (xs : List EVENT) : Option (List EVENT) :=
  if pos + xs.length ≤ arr.length then
    some (arr.take pos ++ xs ++ arr.drop (pos + xs.length))
  else none

/-- The constant `TERM_PUSH_SHIFT`. -/
def TERM_PUSH_SHIFT : Nat := 30

/-- The part of `v_event_push` from the label `copy` on: `gp->i_cnt += nitems`,
then the items are stored from slot `i_next` on. -/
def v_event_push_copy (gp : GS) (items : List EVENT) : Option (Nat × GS) :=
  match blit gp.i_event gp.i_next items with
  | none => none
  | some arr => some (0, { gp with i_cnt := gp.i_cnt + items.length, i_event := arr })

/-- The events `v_event_push` stores: the events `p_evp` when that pointer is
not `NULL`, else one character event per character of `p_s`. -/
def pushItems (kv : Nat → e_key_t) (p_evp : Option (List EVENT)) (p_s : List Nat)
    (flags : ChFlags) : List EVENT :=
  match p_evp with
  | some evs => evs
  | none => p_s.map (chEvent kv flags)

/-- The function `v_event_push(sp, p_evp, p_s, nitems, flags)`: push events or
keys onto the front of the buffer.  `nitems` is the number of items given;
`kv` is the macro `KEY_VAL`.  The result is `(rval, gp)`, or `none` when a store
falls outside the array. -/
def v_event_push (kv : Nat → e_key_t) (gp : GS) (p_evp : Option (List EVENT)) (p_s : List Nat)
    (flags : ChFlags) : Option (Nat × GS) :=
  let items := pushItems kv p_evp p_s flags
  let nitems := items.length
  if nitems ≤ gp.i_next ∨ (gp.i_event ≠ [] ∧ gp.i_cnt = 0 ∧ nitems ≤ gp.i_nelem) then
    let gp1 := if gp.i_cnt ≠ 0 then { gp with i_next := gp.i_next - nitems } else gp
    v_event_push_copy gp1 items
  else
    let total := gp.i_cnt + gp.i_next + nitems + TERM_PUSH_SHIFT
    let gp1 := if total ≥ gp.i_nelem then v_event_grow gp (max total 64) else gp
    -- MEMMOVE(gp->i_event + TERM_PUSH_SHIFT + nitems, gp->i_event + gp->i_next, gp->i_cnt);
    let moved :=
      if gp1.i_cnt ≠ 0 then
        blit gp1.i_event (TERM_PUSH_SHIFT + nitems) ((gp1.i_event.drop gp1.i_next).take gp1.i_cnt)
      else some gp1.i_event
    match moved with
    | none => none
    | some arr => v_event_push_copy { gp1 with i_event := arr, i_next := TERM_PUSH_SHIFT } items

/-- The events `v_event_append` stores: one character event with flags 0 per
character of a string event, else the event itself. -/
def appendItems (kv : Nat → e_key_t) (argp : EVENT) : List EVENT :=
  if argp.e_event = .E_STRING then argp.e_csp.map (chEvent kv CH_NONE) else [argp]

/-- The function `v_event_append(sp, argp)`: append events onto the tail of the
buffer; a string event becomes one character event per character, flags 0. -/
def v_event_append (kv : Nat → e_key_t) (gp : GS) (argp : EVENT) : Option (Nat × GS) :=
  let nevents := if argp.e_event = .E_STRING then argp.e_csp.length else 1
  let gp1 :=
    if gp.i_event = [] ∨ nevents > szSub gp.i_nelem (gp.i_next + gp.i_cnt) then
      v_event_grow gp (max nevents 64)
    else gp
  match blit gp1.i_event (gp1.i_next + gp1.i_cnt) (appendItems kv argp) with
  | none => none
  | some arr => some (0, { gp1 with i_cnt := gp1.i_cnt + nevents, i_event := arr })

/-- The invariants of the event queue: the array has `i_nelem` slots, the window
lies inside it, and an empty queue starts at slot 0. -/
def GS.wf (gp : GS) : Prop :=
  gp.i_event.length = gp.i_nelem ∧ gp.i_next + gp.i_cnt ≤ gp.i_nelem ∧
    (gp.i_cnt = 0 → gp.i_next = 0)

/-- The empty queue before any event arrived: `i_event` is `NULL`. -/
def gs0 : GS := ⟨[], 0, 0, 0, false, [], []⟩

/-- The macro `QREM(len)`: remove `len` events from the front of the queue.  The
subtraction is on `size_t`. -/
def QREM (gp : GS) (len : Nat) : GS :=
  let cnt := szSub gp.i_cnt len
  if cnt = 0 then { gp with i_cnt := cnt, i_next := 0 }
  else { gp with i_cnt := cnt, i_next := gp.i_next + len }

/-! ## Sequence maps and `v_event_get` -/

/-- Sequence types (`common.h`). -/
inductive seq_t
  | SEQ_ABBREV | SEQ_COMMAND | SEQ_INPUT
  deriving DecidableEq, Repr

/-- A `SEQ` binding: its type, its input characters (`ilen` is their number)
and its output characters (`olen`), `none` for a `NULL` output. -/
structure SEQ where
  stype : seq_t
  input : List Nat
  output : Option (List Nat)
  deriving DecidableEq, Repr

/-- The longer of two candidate bindings, the earlier one on a tie. -/
def seqLonger (best : Option SEQ) (q : SEQ) : Option SEQ :=
  match best with
  | none => some q
  | some b => if b.input.length < q.input.length then some q else some b

/-- Modelled from the spec: `seq_find` as `v_event_get` calls it (`common/seq.c`
is not among the sources at hand).  Over the queued characters `evs` it returns
the longest binding of type `stype` whose input is a prefix of them; when there
is none, the second component says whether the queued characters are a proper
prefix of the input of some binding (a partial match). -/
def seq_find (seqq : List SEQ) (evs : List EVENT) (stype : seq_t) : Option SEQ × Bool :=
  let chars := evs.map EVENT.e_c
  let full := seqq.filter fun q =>
    decide (q.stype = stype) && !q.input.isEmpty && q.input.isPrefixOf chars
  match full.foldl seqLonger none with
  | some q => (some q, false)
  | none =>
    (none, seqq.any fun q =>
      decide (q.stype = stype) && chars.isPrefixOf q.input &&
        decide (chars.length < q.input.length))

/-- Modelled from the spec: `e_memcmp(p1, ep, n) == 0`, the first `n` characters
at `p1` equal the characters of the `n` events at `ep` (`e_memcmp` is not among
the sources at hand). -/
def e_memcmp_eq (p1 : List Nat) (ep : List EVENT) (n : Nat) : Bool :=
  decide (n ≤ p1.length ∧ n ≤ ep.length ∧ p1.take n = (ep.take n).map EVENT.e_c)

/-- The C library `isdigit` on a character code. -/
def isdigit (c : Nat) : Bool := decide (48 ≤ c ∧ c ≤ 57)

/-- Modelled from the spec: `CH_NOT_DIGIT`, the character of the not-a-digit
sentinel event (`key.h` is not among the sources at hand); the letter `a`. -/
def CH_NOT_DIGIT : Nat := 97

/-- What `v_event_get` takes from its surroundings: the macro `KEY_VAL`, the
bindings `gp->seqq`, the bitset `gp->seqb` with its size `MAX_BIT_SEQ`, the
options `O_REMAP`, `O_TIMEOUT`, `O_ESCAPETIME`, `O_KEYTIME`, the flag `G_SCRWIN`
with the value `sscr_input` returns, the raw-input function `gp->scr_event`
(`scr_event n flags timeout` is the answer to the call number `n`, `none` for a
non-zero return), and the screens on the lists `gp->dq` and `gp->hq`. -/
structure Env where
  key_val : Nat → e_key_t
  seqq : List SEQ
  seqb : Nat → Bool
  max_bit_seq : Nat
  o_remap : Bool
  o_timeout : Bool
  o_escapetime : Nat
  o_keytime : Nat
  g_scrwin : Bool
  sscr_input : Nat
  scr_event : Nat → ECFlags → Int → Option EVENT
  dq : List Nat
  hq : List Nat

/-- How a call of `v_event_get` ends: `ret rval argp gp` is a return of `rval`
with `*argp` and `*gp` as given; `undef` is a read or write through a pointer
that is `NULL`, dangling or outside the event array; `nofuel` is a run cut
short by the step bound. -/
inductive Outcome
  | ret (rval : Nat) (argp : EVENT) (gp : GS)
  | undef
  | nofuel
  deriving DecidableEq, Repr

/-- The labels of `v_event_get` that a `goto` reaches; `fetched` is the code
after the block that reads new events. -/
inductive Label
  | retry | loop | fetched | newmap
  deriving DecidableEq, Repr

/-- The local variables of `v_event_get` that live across a `goto`. -/
structure Locals where
  argp : EVENT
  timeout : Int
  istimeout : Bool
  remap_cnt : Nat
  deriving DecidableEq, Repr

/-- One step of `v_event_get`: it ends the call or goes to a label. -/
inductive Step
  | done (o : Outcome)
  | goto (l : Label) (loc : Locals) (gp : GS)

/-- The call `gp->scr_event(sp, _, flags, timeout)`: the answer and `gp` with the
call recorded. -/
def callScrEvent (env : Env) (gp : GS) (req : ECFlags) (timeout : Int) : Option EVENT × GS :=
  (env.scr_event gp.scr_log.length req timeout,
   { gp with scr_log := gp.scr_log ++ [(req, timeout)] })

/-- The function `v_sync(sp, flags)`: `rcv_sync` on every screen of `gp->dq`,
then of `gp->hq`; `email` says whether `RCV_EMAIL` is among the flags. -/
def v_sync (env : Env) (gp : GS) (email : Bool) : GS :=
  { gp with synced := gp.synced ++ env.dq.map (fun s => (s, email))
                        ++ env.hq.map (fun s => (s, email)) }

/-- The code at the label `not_digit`. -/
def v_event_get_not_digit (argp : EVENT) (gp : GS) : Outcome :=
  .ret 0 { argp with e_c := CH_NOT_DIGIT, e_value := .K_NOTUSED, e_event := .E_CHARACTER,
                     e_flags := CH_NONE } gp

/-- The code at the label `nomap`; `evp` is the index of the slot the pointer
`evp` addresses. -/
def v_event_get_nomap (flags : ECFlags) (argp : EVENT) (gp : GS) (evp : Nat) : Outcome :=
  match gp.i_event.get? evp with
  | none => .undef
  | some e =>
    if !isdigit e.e_c && flags.mapnodigit then v_event_get_not_digit argp gp
    else .ret 0 e (QREM gp 1)

/-- The label `append` of `v_event_get`: queue the event just read. -/
def v_event_get_append (env : Env) (loc : Locals) (gp : GS) : Step :=
  match v_event_append env.key_val gp loc.argp with
  | none => .done .undef
  | some (r, gp1) =>
    if r ≠ 0 then .done (.ret 1 loc.argp gp1) else .goto .fetched loc gp1

/-- The label `loop` of `v_event_get`: read an event from `gp->scr_event`. -/
def v_event_get_loop (env : Env) (flags : ECFlags) (loc : Locals) (gp : GS) : Step :=
  -- LF_ISSET(EC_INTERRUPT | EC_QUOTED | EC_RAW)
  let req : ECFlags := ⟨flags.interrupt, false, false, false, flags.quoted, flags.raw, false⟩
  match callScrEvent env gp req loc.timeout with
  | (none, gp1) => .done (.ret 1 loc.argp gp1)
  | (some e, gp1) =>
    let loc1 := { loc with argp := e }
    match e.e_event with
    | .E_ERR => .done (.ret 1 e (v_sync env gp1 true))
    | .E_SIGHUP => .done (.ret 1 e (v_sync env gp1 true))
    | .E_SIGTERM => .done (.ret 1 e (v_sync env gp1 false))
    | .E_TIMEOUT => .goto .fetched { loc1 with istimeout := true } gp1
    | .E_INTERRUPT =>
      let gp2 := { gp1 with interrupted := true }
      if flags.interrupt then .done (.ret 0 e gp2) else v_event_get_append env loc1 gp2
    | _ => v_event_get_append env loc1 gp1

/-- The part of `v_event_get` after a binding `qp` with output `out` was found
and its input removed from the queue: expand it.  `evp` is the slot the pointer
`evp` was set to at `newmap`; `init_nomap` is the result of the comparison of
the output with the matched input. -/
def v_event_get_expand (env : Env) (flags : ECFlags) (loc : Locals) (gp : GS) (qp : SEQ)
    (out : List Nat) (init_nomap : Bool) (evp : Nat) : Step :=
  let kv := env.key_val
  if env.o_remap then
    let cnt := loc.remap_cnt + 1
    let loc1 := { loc with remap_cnt := cnt }
    let poll : Bool × GS :=
      if cnt = 1 ∨ cnt % 10 = 0 then
        match callScrEvent env gp EC_INTERRUPT 0 with
        | (none, gp1) => (true, gp1)
        | (some ev, gp1) => (decide (ev.e_event = .E_INTERRUPT), gp1)
      else (false, gp)
    if poll.1 then
      .done (.ret 0 { loc.argp with e_event := .E_INTERRUPT }
        { poll.2 with interrupted := true })
    else if init_nomap then
      match v_event_push kv poll.2 none (out.drop qp.input.length) CH_MAPPED with
      | none => .done .undef
      | some (r1, gp2) =>
        if r1 ≠ 0 then .done (.ret 1 loc.argp gp2)
        else
          match v_event_push kv gp2 none (out.take qp.input.length) (CH_NOMAP.or CH_MAPPED) with
          | none => .done .undef
          | some (r2, gp3) =>
            if r2 ≠ 0 then .done (.ret 1 loc.argp gp3)
            else
              -- evp = &gp->i_event[gp->i_next]; goto nomap;
              .done (v_event_get_nomap flags loc.argp gp3 gp3.i_next)
    else
      match v_event_push kv poll.2 none out CH_MAPPED with
      | none => .done .undef
      | some (r1, gp2) =>
        if r1 ≠ 0 then .done (.ret 1 loc.argp gp2) else .goto .newmap loc1 gp2
  else
    match v_event_push kv gp none out (CH_MAPPED.or CH_NOMAP) with
    | none => .done .undef
    | some (r1, gp2) =>
      if r1 ≠ 0 then .done (.ret 1 loc.argp gp2)
      else if gp2.i_nelem ≠ gp.i_nelem then
        -- the array was reallocated; evp still points into the old one
        .done .undef
      else
        -- goto nomap; evp is still the pointer taken at newmap
        .done (v_event_get_nomap flags loc.argp gp2 evp)

/-- The label `newmap` of `v_event_get`: look at the head of the queue and map
it. -/
def v_event_get_newmap (env : Env) (flags : ECFlags) (loc : Locals) (gp : GS) : Step :=
  let evp := gp.i_next
  match gp.i_event.get? evp with
  | none => .done .undef
  | some e =>
    if e.e_event ≠ .E_CHARACTER then .done (.ret 0 e (QREM gp 1))
    else if loc.istimeout || F_ISSET e.e_flags CH_NOMAP ||
        !(flags.mapcommand || flags.mapinput) ||
        (decide (e.e_c < env.max_bit_seq) && !env.seqb e.e_c) then
      .done (v_event_get_nomap flags loc.argp gp evp)
    else
      match seq_find env.seqq gp.view (if flags.mapcommand then .SEQ_COMMAND else .SEQ_INPUT) with
      | (_, true) =>
        let timeout : Int :=
          if env.o_timeout then
            ((if e.e_value = .K_ESCAPE then env.o_escapetime else env.o_keytime : Nat) : Int) * 100
          else 0
        .goto .loop { loc with timeout := timeout } gp
      | (none, false) => .done (v_event_get_nomap flags loc.argp gp evp)
      | (some qp, false) =>
        if flags.mapnodigit && qp.output.isSome && !isdigit ((qp.output.getD []).getD 0 0) then
          .done (v_event_get_not_digit loc.argp gp)
        else
          let init_nomap := e_memcmp_eq (qp.output.getD []) (gp.i_event.drop gp.i_next)
            qp.input.length
          let gp1 := QREM gp qp.input.length
          match qp.output with
          | none => .goto .retry loc gp1
          | some out => v_event_get_expand env flags loc gp1 qp out init_nomap evp

/-- The label `retry` of `v_event_get`, up to the block that reads events. -/
def v_event_get_retry (env : Env) (flags : ECFlags) (loc : Locals) (gp : GS) : Step :=
  let loc1 := { loc with istimeout := false, remap_cnt := 0 }
  if gp.i_cnt ≠ 0 ∧ flags.timeout = true then .done (.ret 0 loc.argp gp)
  else if gp.i_cnt = 0 ∨ flags.interrupt = true ∨ flags.timeout = true then
    if env.g_scrwin = true ∧ env.sscr_input ≠ 0 then .done (.ret 1 loc.argp gp)
    else .goto .loop loc1 gp
  else .goto .fetched loc1 gp

/-- The code of `v_event_get` between the block that reads events and the
label `newmap`. -/
def v_event_get_fetched (flags : ECFlags) (loc : Locals) (gp : GS) : Step :=
  if flags.interrupt || flags.timeout then .done (.ret 0 loc.argp gp)
  else .goto .newmap loc gp

/-- One step of `v_event_get` from a label. -/
def v_event_get_step (env : Env) (flags : ECFlags) : Label → Locals → GS → Step
  | .retry, loc, gp => v_event_get_retry env flags loc gp
  | .loop, loc, gp => v_event_get_loop env flags loc gp
  | .fetched, loc, gp => v_event_get_fetched flags loc gp
  | .newmap, loc, gp => v_event_get_newmap env flags loc gp

/-- The run of `v_event_get` from a label, at most `fuel` steps long. -/
def v_event_get_run (env : Env) (flags : ECFlags) : Nat → Label → Locals → GS → Outcome
  | 0, _, _, _ => .nofuel
  | fuel + 1, l, loc, gp =>
    match v_event_get_step env flags l loc gp with
    | .done o => o
    | .goto l1 loc1 gp1 => v_event_get_run env flags fuel l1 loc1 gp1

/-- The function `v_event_get(sp, argp, timeout, flags)`: return the next event.
`argp` is the event the caller's buffer holds on entry. -/
def v_event_get (env : Env) (fuel : Nat) (gp : GS) (argp : EVENT) (timeout : Int)
    (flags : ECFlags) : Outcome :=
  v_event_get_run env flags fuel .retry ⟨argp, timeout, false, 0⟩ gp

/-! ## Fixtures for the worked examples -/

/-- A `KEY_VAL` for which no character is special. -/
def noKeys : Nat → e_key_t := fun _ => .K_NOTUSED

/-- The string event that carries the characters `s`. -/
def strEvent (s : List Nat) : EVENT := ⟨.E_STRING, 0, .K_NOTUSED, CH_NONE, s⟩

/-- The timeout event: what `gp->scr_event` answers when nothing is pending. -/
def timeoutEvent : EVENT := ⟨.E_TIMEOUT, 0, .K_NOTUSED, CH_NONE, []⟩

/-- Surroundings with the bindings `seqq`, the bit of `gp->seqb` set for every
first character of a binding (as `seq_set` does), `MAX_BIT_SEQ = 128`, the
option `remap` as given, no key timeout, no scripting window, and no input
pending. -/
def mapEnv (seqq : List SEQ) (remap : Bool) : Env :=
  { key_val := noKeys,
    seqq := seqq,
    seqb := fun c => seqq.any fun q => q.input.head? == some c,
    max_bit_seq := 128,
    o_remap := remap,
    o_timeout := false,
    o_escapetime := 1,
    o_keytime := 6,
    g_scrwin := false,
    sscr_input := 0,
    scr_event := fun _ _ _ => some timeoutEvent,
    dq := [],
    hq := [] }

/-- The queue after the characters `a`, `b`, `c` arrived on the empty queue: a
64-slot array holding them in slots 0 to 2. -/
def qabc : GS :=
  { gs0 with i_event := [chEvent noKeys CH_NONE 97, chEvent noKeys CH_NONE 98,
                         chEvent noKeys CH_NONE 99] ++ List.replicate 61 EVENT.zero,
             i_nelem := 64,
             i_cnt := 3 }

/-- The queue after the characters `x`, `b` arrived on the empty queue. -/
def qxb : GS :=
  { gs0 with i_event := [chEvent noKeys CH_NONE 120, chEvent noKeys CH_NONE 98]
                          ++ List.replicate 62 EVENT.zero,
             i_nelem := 64,
             i_cnt := 2 }

/-- The event a call returned, if it returned. -/
def Outcome.event? : Outcome → Option EVENT
  | .ret _ e _ => some e
  | _ => none

/-- The queue a call left as a list of characters, if it returned. -/
def Outcome.chars? : Outcome → Option (List Nat)
  | .ret _ _ gp => some (gp.view.map EVENT.e_c)
  | _ => none

/-- The state a call left, `gs0` if it did not return. -/
def Outcome.gs : Outcome → GS
  | .ret _ _ gp => gp
  | _ => gs0

/-- A file of 250 lines, line `i` holding the single byte `i`. -/
def store250 : SCR := mkSCR ((List.range' 1 250).map fun i => [i])

/-- An interrupt that arrives while `del` is between its polls at lines 200 and
100: the poll at line `m` finds the flag raised when `m ≤ 150`. -/
def lateIntr : Nat → Bool := fun m => decide (m ≤ 150)

/-- The test at the head of `newmap` that sends a key to `nomap` without a search
of the map, the timeout apart: the key carries `CH_NOMAP`, or neither
`EC_MAPCOMMAND` nor `EC_MAPINPUT` is requested, or the key is below
`MAX_BIT_SEQ` and its bit in `gp->seqb` is clear. -/
def mapSkipped (env : Env) (flags : ECFlags) (e : EVENT) : Bool :=
  F_ISSET e.e_flags CH_NOMAP || !(flags.mapcommand || flags.mapinput) ||
    (decide (e.e_c < env.max_bit_seq) && !env.seqb e.e_c)

/-- The sequence type `v_event_get` searches: `SEQ_COMMAND` under `EC_MAPCOMMAND`,
else `SEQ_INPUT`. -/
def mapType (flags : ECFlags) : seq_t :=
  if flags.mapcommand then .SEQ_COMMAND else .SEQ_INPUT

/-- The end-of-file event. -/
def eofEvent : EVENT := ⟨.E_EOF, 0, .K_NOTUSED, CH_NONE, []⟩

/-- A queue whose head is the end-of-file event, with the character `a` behind
it. -/
def qeof : GS :=
  { gs0 with i_event := [eofEvent, chEvent noKeys CH_NONE 97] ++ List.replicate 62 EVENT.zero,
             i_nelem := 64,
             i_cnt := 2 }

/-- The request flags `EC_MAPCOMMAND | EC_MAPNODIGIT`. -/
def EC_MAPCOMMAND_NODIGIT : ECFlags := ⟨false, true, false, true, false, false, false⟩

/-- The queue holding the single character `g`. -/
def qg : GS :=
  { gs0 with i_event := [chEvent noKeys CH_NONE 103] ++ List.replicate 63 EVENT.zero,
             i_nelem := 64,
             i_cnt := 1 }

/-- The timeout `v_event_get` sets before it reads more characters for a partial
match on the head key `e`. -/
def mapTimeout (env : Env) (e : EVENT) : Int :=
  if env.o_timeout then
    ((if e.e_value = .K_ESCAPE then env.o_escapetime else env.o_keytime : Nat) : Int) * 100
  else 0

/-- The flags `v_event_get` hands to `gp->scr_event`:
`LF_ISSET(EC_INTERRUPT | EC_QUOTED | EC_RAW)`. -/
def readFlags (flags : ECFlags) : ECFlags :=
  ⟨flags.interrupt, false, false, false, flags.quoted, flags.raw, false⟩

/-- The state `gp` with one more call of `gp->scr_event` recorded. -/
def logRead (gp : GS) (req : ECFlags) (timeout : Int) : GS :=
  { gp with scr_log := gp.scr_log ++ [(req, timeout)] }

/-- The queue after the characters `d`, `2`, `g` arrived on the empty queue. -/
def qd2g : GS :=
  { gs0 with i_event := [chEvent noKeys CH_NONE 100, chEvent noKeys CH_NONE 50,
                         chEvent noKeys CH_NONE 103] ++ List.replicate 61 EVENT.zero,
             i_nelem := 64,
             i_cnt := 3 }

/-- The surroundings of the example `:map g 1G`, remap on. -/
def envG1G : Env := mapEnv [⟨.SEQ_COMMAND, [103], some [49, 71]⟩] true

/-! ## Key names (`v_key_name`) -/

/-- The options and C library predicates `v_key_name` reads: the strings
`O_STR(sp, O_PRINT)` and `O_STR(sp, O_NOPRINT)` (`none` for `NULL`), the options
`O_ALTNOTATION` and `O_OCTAL`, and `isprint`, `iscntrl` of the current locale. -/
structure KeyOpts where
  o_print : Option (List Nat)
  o_noprint : Option (List Nat)
  o_altnotation : Bool
  o_octal : Bool
  isprint : Nat → Bool
  iscntrl : Nat → Bool

/-- The loop `for (; *chp != 0; ++chp) if (*chp == ch)` over an option string:
whether `ch` occurs before the terminating NUL; `false` for a `NULL` string. -/
def cstrHas (s : Option (List Nat)) (ch : Nat) : Bool :=
  match s with
  | none => false
  | some l => (l.takeWhile fun c => c ≠ 0).contains ch

/-- Modelled from the spec: the number of bits of a `CHAR_T`, `sizeof(CHAR_T) * 8`
(`key.h` is not among the sources at hand); characters are 8 bits wide. -/
def BITS : Nat := 8

/-- The macro `SHIFT`, `BITS - BITS % 3`. -/
def SHIFT : Nat := BITS - BITS % 3

/-- The macro `TOPMASK`, `(BITS % 3 == 2 ? 3 : 1) << (BITS - BITS % 3)`. -/
def TOPMASK : Nat := (if BITS % 3 = 2 then 3 else 1) <<< (BITS - BITS % 3)

/-- The character `octdigit[i]` of the string `01234567`; the terminating NUL
for `i = 8`. -/
def octdigit (i : Nat) : Nat := if i < 8 then 48 + i else 0

/-- The character `hexdigit[i]` of the string `0123456789abcdef`. -/
def hexdigit (i : Nat) : Nat := if i < 10 then 48 + i else if i < 16 then 87 + i else 0

/-- The five characters `<C-c>`. -/
def ctlName (c : Char) : List Nat := ['<', 'C', '-', c, '>'].map Char.toNat

/-- The branches `ch == 0x00 .. ch == 0x7F` taken under `O_ALTNOTATION`, in the
order of the source: the code point and the characters stored in `sp->cname`.
There is no branch for `0x09`. -/
def altTable : List (Nat × List Nat) :=
  [(0x00, ctlName '@'), (0x01, ctlName 'a'), (0x02, ctlName 'b'), (0x03, ctlName 'c'),
   (0x04, ctlName 'd'), (0x05, ctlName 'e'), (0x06, ctlName 'f'), (0x07, ctlName 'g'),
   (0x08, ctlName 'h'), (0x0A, ['<', 'N', 'L', '>'].map Char.toNat),
   (0x0B, ctlName 'k'), (0x0C, ctlName 'l'),
   (0x0D, ['<', 'R', 'e', 't', '>'].map Char.toNat),
   (0x0E, ctlName 'n'), (0x0F, ctlName 'o'), (0x10, ctlName 'p'), (0x11, ctlName 'q'),
   (0x12, ctlName 'r'), (0x13, ctlName 's'), (0x14, ctlName 't'), (0x15, ctlName 'u'),
   (0x16, ctlName 'v'), (0x17, ctlName 'w'), (0x18, ctlName 'x'), (0x19, ctlName 'y'),
   (0x1A, ctlName 'z'), (0x1B, ['<', 'E', 's', 'c', '>'].map Char.toNat),
   (0x1C, [60, 67, 45, 92, 62]), (0x1D, ctlName ']'), (0x1E, ctlName '^'),
   (0x1F, ctlName '_'), (0x7F, ['<', 'D', 'e', 'l', '>'].map Char.toNat)]

/-- The historical notation: `^` followed by `?` for `0x7f`, else by the
character `'@' + ch` (stored in a `CHAR_T`). -/
def caretName (ch : Nat) : List Nat :=
  [94, if ch = 0x7f then 63 else (64 + ch) % 2 ^ BITS]

/-- The name of a control character: the branch of `altTable` under
`O_ALTNOTATION` when there is one, else the historical notation. -/
def ctrlName (alt : Bool) (ch : Nat) : List Nat :=
  if alt then
    match altTable.lookup ch with
    | some s => s
    | none => caretName ch
  else caretName ch

/-- The loop of the octal branch: `cnt` digits, `mask` and `shift` moving down by
three bits each time. -/
def octLoop (ch : Nat) : Nat → Nat → Nat → List Nat
  | 0, _, _ => []
  | cnt + 1, mask, shift =>
    octdigit ((ch &&& mask) >>> shift) :: octLoop ch cnt (mask >>> 3) (shift - 3)

/-- The octal branch: a backslash, the top digit, then `BITS / 3` digits. -/
def octName (ch : Nat) : List Nat :=
  92 :: octdigit ((ch &&& TOPMASK) >>> SHIFT) :: octLoop ch (BITS / 3) (7 <<< (SHIFT - 3))
    (SHIFT - 3)

/-- The hexadecimal branch: a backslash, `x`, and two digits for the one byte of
a `CHAR_T`. -/
def hexName (ch : Nat) : List Nat :=
  [92, 120, hexdigit ((ch &&& 0xf0) >>> 4), hexdigit (ch &&& 0x0f)]

/-- The code of `v_key_name` from the label `nopr` on. -/
def v_key_name_nopr (o : KeyOpts) (ch : Nat) : List Nat :=
  if o.iscntrl ch && (decide (ch < 0x20) || decide (ch = 0x7f)) then ctrlName o.o_altnotation ch
  else if o.o_octal then octName ch
  else hexName ch

/-- The function `v_key_name(sp, ch)`: the `sp->clen` characters it leaves in
`sp->cname` (a NUL follows them). -/
def v_key_name (o : KeyOpts) (ch : Nat) : List Nat :=
  if cstrHas o.o_print ch then [ch]
  else if cstrHas o.o_noprint ch then v_key_name_nopr o ch
  else if o.isprint ch then [ch]
  else v_key_name_nopr o ch

/-- The function `v_key_len(sp, ch)`: `sp->clen` after `v_key_name(sp, ch)`. -/
def v_key_len (o : KeyOpts) (ch : Nat) : Nat := (v_key_name o ch).length

/-- The `isprint` of the C locale on ASCII codes. -/
def asciiIsprint (c : Nat) : Bool := decide (0x20 ≤ c ∧ c ≤ 0x7e)

/-- The `iscntrl` of the C locale on ASCII codes. -/
def asciiIscntrl (c : Nat) : Bool := decide (c < 0x20 ∨ c = 0x7f)

/-- No explicit lists, the C locale, notation and octal options as given. -/
def keyOpts (alt octal : Bool) : KeyOpts :=
  { o_print := none,
    o_noprint := none,
    o_altnotation := alt,
    o_octal := octal,
    isprint := asciiIsprint,
    iscntrl := asciiIscntrl }

/-! ## Cut buffers (`common/cut.h`, `ex/ex_display.c`) -/

/-- A `TEXT`: the `len` bytes of the line in `lb`. -/
structure TEXT where
  lb : List Nat
  deriving DecidableEq, Repr

/-- A cut buffer `CB`: its name, the lines `textq`, the total length `len` and
the flag `CB_LMODE`. -/
structure CB where
  name : Nat
  textq : List TEXT
  len : Nat
  lmode : Bool
  deriving DecidableEq, Repr

/-- The loop `LIST_FOREACH(cbp, &gp->cutq, q) if (cbp->name == L__name) break;`:
the buffer `cbp` is left at, `none` for `NULL`. -/
def cbFind (name : Nat) : List CB → Option CB
  | [] => none
  | cbp :: rest => if cbp.name = name then some cbp else cbFind name rest

/-- The macro `CBNAME(sp, cbp, nch)`: the value it leaves in `cbp`.  `isupper` and
`tolower` are those of the C library. -/
def CBNAME (isupper : Nat → Bool) (tolower : Nat → Nat) (cutq : List CB) (nch : Nat) :
    Option CB :=
  let L__name := if isupper nch then tolower nch else nch
  cbFind L__name cutq

/-- The `isupper` of the C locale on ASCII codes. -/
def asciiIsupper (c : Nat) : Bool := decide (65 ≤ c ∧ c ≤ 90)

/-- The `tolower` of the C locale on ASCII codes. -/
def asciiTolower (c : Nat) : Nat := if 65 ≤ c ∧ c ≤ 90 then c + 32 else c

/-- What `db` writes: the header line of a buffer (with the text
`default buffer` in place of its name when `isDefault`), the name of one
character of a line, or the newline that ends a line. -/
inductive DispItem
  | header (cb : CB) (isDefault : Bool)
  | key (c : Nat)
  | newline
  deriving DecidableEq, Repr

/-- The output of `:display buffers` so far, the number of polls of
`INTERRUPTED(sp)` made, and the messages handed to `msgq`. -/
structure Disp where
  out : List DispItem
  polls : Nat
  msgs : List String
  deriving DecidableEq, Repr

/-- The inner loop of `db` over the characters of one line: `ex_puts` of the name
of each, then a poll; `true` in the first component when a poll found an
interrupt (`db` returns at once). -/
def dbChars (intr : Nat → Bool) : List Nat → Disp → Bool × Disp
  | [], d => (false, d)
  | c :: rest, d =>
    let d1 : Disp := { d with out := d.out ++ [.key c] }
    let d2 : Disp := { d1 with polls := d1.polls + 1 }
    if intr d1.polls then (true, d2) else dbChars intr rest d2

/-- The loop `TAILQ_FOREACH(tp, &cbp->textq, q)` of `db`. -/
def dbLines (intr : Nat → Bool) : List TEXT → Disp → Disp
  | [], d => d
  | tp :: rest, d =>
    match dbChars intr tp.lb d with
    | (true, d1) => d1
    | (false, d1) => dbLines intr rest { d1 with out := d1.out ++ [.newline] }

/-- The function `db(sp, cbp, name)`: display a buffer; `isDefault` says that
`name` is the text `default buffer` rather than `NULL`. -/
def db (intr : Nat → Bool) (d : Disp) (cbp : CB) (isDefault : Bool) : Disp :=
  dbLines intr cbp.textq { d with out := d.out ++ [.header cbp isDefault] }

/-- One of the two loops of `bdisplay` over `gp->cutq`: the first skips the
buffers with a digit name (`digits = false`), the second the others.  `true` in
the first component is the `return (0)` after a poll that found an interrupt. -/
def bdisplayLoop (intr : Nat → Bool) (digits : Bool) : List CB → Disp → Bool × Disp
  | [], d => (false, d)
  | cbp :: rest, d =>
    if isdigit cbp.name ≠ digits then bdisplayLoop intr digits rest d
    else
      let d1 := if cbp.textq ≠ [] then db intr d cbp false else d
      let d2 : Disp := { d1 with polls := d1.polls + 1 }
      if intr d1.polls then (true, d2) else bdisplayLoop intr digits rest d2

/-- The function `bdisplay(sp)`: display the cut buffers `gp->cutq` and the
default buffer `gp->dcbp`.  The result is the return value and the output. -/
def bdisplay (intr : Nat → Bool) (cutq : List CB) (dcbp : Option CB) (d : Disp) : Nat × Disp :=
  if cutq = [] ∧ dcbp = none then
    (0, { d with msgs := d.msgs ++ ["No cut buffers to display"] })
  else
    match bdisplayLoop intr false cutq d with
    | (true, d1) => (0, d1)
    | (false, d1) =>
      match bdisplayLoop intr true cutq d1 with
      | (true, d2) => (0, d2)
      | (false, d2) =>
        match dcbp with
        | some cbp => (0, db intr d2 cbp true)
        | none => (0, d2)

/-- What `db` writes for a buffer when no poll finds an interrupt. -/
def dbOut (cbp : CB) (isDefault : Bool) : List DispItem :=
  .header cbp isDefault ::
    cbp.textq.flatMap fun tp => tp.lb.map DispItem.key ++ [DispItem.newline]

/-- The buffers of a list that `bdisplay` shows in one pass: those with text
whose name is a digit (`digits = true`) or is not (`digits = false`). -/
def shownIn (digits : Bool) (cutq : List CB) : List CB :=
  cutq.filter fun cbp => decide (isdigit cbp.name = digits) && decide (cbp.textq ≠ [])

/-- The headers among the output, in order. -/
def headersOf (out : List DispItem) : List (CB × Bool) :=
  out.filterMap fun
    | .header cb b => some (cb, b)
    | _ => none

/-! ## The special key table (`common/key.c`) -/

/-- An entry `KEYLIST` of the special key table: the key value and the raw
character. -/
structure KEYLIST where
  value : e_key_t
  ch : Nat
  deriving DecidableEq, Repr

/-- The initial contents of the array `keylist[]`: the 21 historical bindings and
`ADDITIONAL_CHARACTERS` = 4 open slots `{K_NOTUSED, 0}`. -/
def keylist : List KEYLIST :=
  [⟨.K_BACKSLASH, 92⟩, ⟨.K_CARAT, 94⟩, ⟨.K_CNTRLD, 4⟩, ⟨.K_CNTRLR, 18⟩, ⟨.K_CNTRLT, 20⟩,
   ⟨.K_CNTRLZ, 26⟩, ⟨.K_COLON, 58⟩, ⟨.K_CR, 13⟩, ⟨.K_ESCAPE, 27⟩, ⟨.K_FORMFEED, 12⟩,
   ⟨.K_HEXCHAR, 24⟩, ⟨.K_NL, 10⟩, ⟨.K_RIGHTBRACE, 125⟩, ⟨.K_RIGHTPAREN, 41⟩, ⟨.K_TAB, 9⟩,
   ⟨.K_VERASE, 8⟩, ⟨.K_VKILL, 21⟩, ⟨.K_VLNEXT, 17⟩, ⟨.K_VLNEXT, 22⟩, ⟨.K_VWERASE, 23⟩,
   ⟨.K_ZERO, 48⟩,
   ⟨.K_NOTUSED, 0⟩, ⟨.K_NOTUSED, 0⟩, ⟨.K_NOTUSED, 0⟩, ⟨.K_NOTUSED, 0⟩]

/-- The constant `ADDITIONAL_CHARACTERS`. -/
def ADDITIONAL_CHARACTERS : Nat := 4

/-- The initial value of the static `nkeylist`:
`sizeof(keylist) / sizeof(keylist[0]) - ADDITIONAL_CHARACTERS`. -/
def nkeylist : Nat := keylist.length - ADDITIONAL_CHARACTERS

/-- The file-static state of the special key table: the array `keylist[]` and the
count `nkeylist` of entries in use. -/
structure KeyTab where
  keylist : List KEYLIST
  nkeylist : Nat
  deriving DecidableEq, Repr

/-- The table as the program starts. -/
def keyTab0 : KeyTab := ⟨keylist, nkeylist⟩

/-- The names `scr_keyval_t` of the terminal's special characters. -/
inductive scr_keyval_t
  | KEY_VEOF | KEY_VERASE | KEY_VKILL | KEY_VWERASE
  deriving DecidableEq, Repr

/-- What the duplication loop of `v_keyval` ends with: an entry with the
character was found and its value reset (`dup`, with the new array), the loop
stopped at an entry with value `K_NOTUSED` (`free`), or it ran past the end of
the array without meeting one (`overrun`). -/
inductive KeyScan
  | dup (l : List KEYLIST)
  | free
  | overrun
  deriving DecidableEq, Repr

/-- The loop `for (kp = keylist; kp->value != K_NOTUSED; ++kp) if (kp->ch == ch)
{ kp->value = val; return; }` of `v_keyval`. -/
def v_keyval_scan (val : e_key_t) (ch : Nat) : List KEYLIST → KeyScan
  | [] => .overrun
  | kp :: rest =>
    if kp.value = .K_NOTUSED then .free
    else if kp.ch = ch then .dup (⟨val, kp.ch⟩ :: rest)
    else
      match v_keyval_scan val ch rest with
      | .dup l => .dup (kp :: l)
      | r => r

/-- The function `v_keyval(sp, val, name)`.  `scr_keyval name` is the answer of
`gp->scr_keyval`: `none` when the call fails or reports that the character does
not exist (`dne`), else the character.  The result is `none` when the loop or
the store at `keylist[nkeylist]` leaves the array. -/
def v_keyval (scr_keyval : scr_keyval_t → Option Nat) (t : KeyTab) (val : e_key_t)
    (name : scr_keyval_t) : Option KeyTab :=
  match scr_keyval name with
  | none => some t
  | some ch =>
    match v_keyval_scan val ch t.keylist with
    | .overrun => none
    | .dup l => some ⟨l, t.nkeylist⟩
    | .free =>
      if t.nkeylist < t.keylist.length then
        some ⟨t.keylist.set t.nkeylist ⟨val, ch⟩, t.nkeylist + 1⟩
      else none

/-- The comparison `v_key_cmp(ap, bp)`: `ap->ch - bp->ch`. -/
def v_key_cmp (ap bp : KEYLIST) : Int := (ap.ch : Int) - (bp.ch : Int)

/-- The order `v_key_cmp(a, b) <= 0` that `qsort` sorts by. -/
def keyLe (a b : KEYLIST) : Prop := v_key_cmp a b ≤ 0

instance keyLe_decidable : DecidableRel keyLe := fun a b => Int.decLe (v_key_cmp a b) 0

/-- The call `qsort(keylist, nmemb, sizeof(keylist[0]), v_key_cmp)` of the C
library: the first `nmemb` members are put in ascending order of `v_key_cmp`, the
others stay.  The order `qsort` gives to members that compare equal is not
specified; here it is that of an insertion sort. -/
def qsort (base : List KEYLIST) (nmemb : Nat) : List KEYLIST :=
  (base.take nmemb).insertionSort keyLe ++ base.drop nmemb

/-- The loop of the C library's `bsearch`: binary search for `key` among the `lim`
members from index `base`.  The first argument bounds the number of rounds; one
more than `lim` is always enough. -/
def bsearchLoop (key : KEYLIST) (arr : List KEYLIST) : Nat → Nat → Nat → Option KEYLIST
  | 0, _, _ => none
  | fuel + 1, base, lim =>
    if lim = 0 then none
    else
      match arr.get? (base + lim / 2) with
      | none => none
      | some p =>
        if v_key_cmp key p = 0 then some p
        else if v_key_cmp key p > 0 then
          bsearchLoop key arr fuel (base + lim / 2 + 1) ((lim - 1) / 2)
        else bsearchLoop key arr fuel base (lim / 2)

/-- The call `bsearch(&k, keylist, nmemb, sizeof(keylist[0]), v_key_cmp)`:
a member that compares equal to the key, `none` for `NULL`. -/
def bsearch (key : KEYLIST) (base : List KEYLIST) (nmemb : Nat) : Option KEYLIST :=
  bsearchLoop key base (nmemb + 1) 0 nmemb

/-- The function `v_key_val(sp, ch)`.  Only the field `ch` of the key `k` is set
and read. -/
def v_key_val (t : KeyTab) (ch : Nat) : e_key_t :=
  match bsearch ⟨.K_NOTUSED, ch⟩ t.keylist t.nkeylist with
  | none => .K_NOTUSED
  | some kp => kp.value

/-- The function `v_key_ilookup(sp)`: the names of the characters
`0 .. MAX_FAST_KEY`, as stored in `gp->cname`. -/
def v_key_ilookup (o : KeyOpts) (MAX_FAST_KEY : Nat) : List (List Nat) :=
  (List.range (MAX_FAST_KEY + 1)).map (v_key_name o)

/-- What `v_key_init` reads besides the table: the answers of `gp->scr_keyval`,
the constants `MAX_FAST_KEY` and `MAX_CHAR_T`, the numeric values `keyNum` of the
enumeration `e_key_t`, and the options and locale. -/
structure KeyEnv where
  scr_keyval : scr_keyval_t → Option Nat
  MAX_FAST_KEY : Nat
  MAX_CHAR_T : Nat
  keyNum : e_key_t → Nat
  opts : KeyOpts

/-- The fields of `GS` that `v_key_init` writes: the name table `cname`, the fast
table `special_key`, `max_special`, `noprint`, and the messages given to `msgq`. -/
structure KeyGS where
  cname : List (List Nat)
  special_key : List e_key_t
  max_special : Nat
  noprint : Nat
  msgs : List String

/-- The loop of `v_key_init` that fills the fast lookup table from the `cnt`
entries at `kp`. -/
def v_key_init_fast (env : KeyEnv) : List KEYLIST → KeyGS → KeyGS
  | [], g => g
  | kp :: rest, g =>
    let g1 : KeyGS :=
      if g.max_special < env.keyNum kp.value then { g with max_special := env.keyNum kp.value }
      else g
    let g2 : KeyGS :=
      if kp.ch ≤ env.MAX_FAST_KEY then { g1 with special_key := g1.special_key.set kp.ch kp.value }
      else g1
    v_key_init_fast env rest g2

/-- The function `v_key_init(sp)`: the return value, the table and the fields of
`GS` it leaves; `none` when a call of `v_keyval` leaves the array. -/
def v_key_init (env : KeyEnv) (t : KeyTab) (g : KeyGS) : Option (Nat × KeyTab × KeyGS) :=
  let g0 : KeyGS := { g with cname := v_key_ilookup env.opts env.MAX_FAST_KEY }
  match v_keyval env.scr_keyval t .K_CNTRLD .KEY_VEOF with
  | none => none
  | some t1 =>
  match v_keyval env.scr_keyval t1 .K_VERASE .KEY_VERASE with
  | none => none
  | some t2 =>
  match v_keyval env.scr_keyval t2 .K_VKILL .KEY_VKILL with
  | none => none
  | some t3 =>
  match v_keyval env.scr_keyval t3 .K_VWERASE .KEY_VWERASE with
  | none => none
  | some t4 =>
    let t5 : KeyTab := ⟨qsort t4.keylist t4.nkeylist, t4.nkeylist⟩
    let g1 := v_key_init_fast env (t5.keylist.take t5.nkeylist) { g0 with max_special := 0 }
    match (List.range' 1 env.MAX_CHAR_T).find? fun ch => !env.opts.isprint ch with
    | some ch => some (0, t5, { g1 with noprint := ch })
    | none =>
      if env.MAX_CHAR_T + 1 ≠ g1.noprint then
        some (1, t5, { g1 with msgs := g1.msgs ++ ["No non-printable character found"] })
      else some (0, t5, g1)

/-- The characters the terminal reports, as entries in the order `v_key_init`
registers them. -/
def registrations (scr_keyval : scr_keyval_t → Option Nat) : List KEYLIST :=
  [(e_key_t.K_CNTRLD, scr_keyval_t.KEY_VEOF), (e_key_t.K_VERASE, scr_keyval_t.KEY_VERASE),
   (e_key_t.K_VKILL, scr_keyval_t.KEY_VKILL), (e_key_t.K_VWERASE, scr_keyval_t.KEY_VWERASE)].filterMap
    fun p => (scr_keyval p.2).map fun ch => ⟨p.1, ch⟩

/-- The value bound to `ch` by a list of bindings in which a later one overrides
an earlier one; `K_NOTUSED` when none has that character. -/
def lastBinding (l : List KEYLIST) (ch : Nat) : e_key_t :=
  match l.reverse.find? fun e => decide (e.ch = ch) with
  | some e => e.value
  | none => .K_NOTUSED

/-- A terminal whose end-of-file character is `^D`, erase `DEL`, kill `^H` and
word erase `^W`. -/
def termKeys : scr_keyval_t → Option Nat
  | .KEY_VEOF => some 4
  | .KEY_VERASE => some 127
  | .KEY_VKILL => some 8
  | .KEY_VWERASE => some 23

/-- The environment of `v_key_init` with the terminal `termKeys`, 8-bit
characters, the key values numbered in the order of the enumeration, and the C
locale. -/
def keyEnv0 : KeyEnv := ⟨termKeys, 254, 255, e_key_t.toCtorIdx, keyOpts false false⟩

/-- Zeroed fields of `GS`. -/
def keyGS0 : KeyGS := ⟨[], List.replicate 255 .K_NOTUSED, 0, 0, []⟩

instance keyLe_total : IsTotal KEYLIST keyLe :=
  ⟨fun a b => by unfold keyLe v_key_cmp; omega⟩

instance keyLe_trans : IsTrans KEYLIST keyLe :=
  ⟨fun a b c => by unfold keyLe v_key_cmp; omega⟩

/-- The state of the key table in which `v_keyval` can register `free` more
characters: after the `nkeylist` entries in use there are at least `free` slots,
the entries in use have a value other than `K_NOTUSED` and pairwise distinct
characters, and every slot after them has the value `K_NOTUSED`. -/
def KeyTab.wf (t : KeyTab) (free : Nat) : Prop :=
  t.nkeylist + free ≤ t.keylist.length ∧
  (∀ e ∈ t.keylist.take t.nkeylist, e.value ≠ .K_NOTUSED) ∧
  (∀ e ∈ t.keylist.drop t.nkeylist, e.value = .K_NOTUSED) ∧
  ((t.keylist.take t.nkeylist).map KEYLIST.ch).Nodup

instance KeyTab.wf_decidable (t : KeyTab) (free : Nat) : Decidable (t.wf free) :=
  inferInstanceAs (Decidable (_ ∧ _ ∧ _ ∧ _))

/-! ## Fatal events and `v_event_flush` -/

/-- The hangup event. -/
def sighupEvent : EVENT := ⟨.E_SIGHUP, 0, .K_NOTUSED, CH_NONE, []⟩

/-- Surroundings in which `gp->scr_event` answers every call with the hangup
event; the screens 1 and 2 are displayed, the screen 3 is hidden. -/
def hupEnv : Env :=
  { key_val := noKeys,
    seqq := [⟨.SEQ_COMMAND, [97], some [120, 121]⟩],
    seqb := fun c => decide (c = 97),
    max_bit_seq := 128,
    o_remap := true,
    o_timeout := false,
    o_escapetime := 1,
    o_keytime := 6,
    g_scrwin := false,
    sscr_input := 0,
    scr_event := fun _ _ _ => some sighupEvent,
    dq := [1, 2],
    hq := [3] }

/-- The loop of `v_event_flush`: while the queue is not empty and the head event
carries one of the flags, `QREM(1)` with `rval = 1`.  Each round lowers `i_cnt` by
one, so the bound `fuel` is not reached when it starts above `i_cnt`; `none` is a
read outside the event array. -/
def v_event_flush_loop (flags : ChFlags) : Nat → Nat → GS → Option (Nat × GS)
  | 0, _, _ => none
  | fuel + 1, rval, gp =>
    if gp.i_cnt ≠ 0 then
      match gp.i_event.get? gp.i_next with
      | none => none
      | some e =>
        if F_ISSET e.e_flags flags then v_event_flush_loop flags fuel 1 (QREM gp 1)
        else some (rval, gp)
    else some (rval, gp)

/-- The function `v_event_flush(sp, flags)`: flush any flagged keys, returning
whether any keys were flushed. -/
def v_event_flush (gp : GS) (flags : ChFlags) : Option (Nat × GS) :=
  v_event_flush_loop flags (gp.i_cnt + 1) 0 gp

/-- The queue holding `x`, `y` with the flag `CH_MAPPED`, then `b` and `z`, the
last again with `CH_MAPPED`. -/
def qflush : GS :=
  { gs0 with i_event := [chEvent noKeys CH_MAPPED 120, chEvent noKeys CH_MAPPED 121,
                         chEvent noKeys CH_NONE 98, chEvent noKeys CH_MAPPED 122]
                          ++ List.replicate 60 EVENT.zero,
             i_nelem := 64,
             i_cnt := 4 }

/-! ## `v_at` (`vi/v_at.c`) -/

/-- The fields of `VICMD` that `v_at` reads: `buffer` is `vp->buffer` when
`VC_BUFFER` is set, `count` is `vp->count` when `VC_C1SET` is set. -/
structure VICMD where
  buffer : Option Nat
  count : Option Nat
  deriving DecidableEq, Repr

/-- The message identifiers `v_at` hands to `ex_emsg`. -/
inductive exm_t
  | EXM_EMPTYBUF | EXM_NOPREVBUF
  deriving DecidableEq, Repr

/-- The fields of `SCR` that `v_at` reads and writes: the flag `SC_AT_SET`, the
name `at_lbuf` of the buffer executed last, and the calls of `ex_emsg` (the
character whose `KEY_NAME` is the argument, `none` for `NULL`, and the message). -/
structure SCR_at where
  sc_at_set : Bool
  at_lbuf : Nat
  emsgs : List (Option Nat × exm_t)
  deriving DecidableEq, Repr

/-- The C library call `snprintf(nbuf, size, "%lu", n)`: the characters stored in
`nbuf` before the terminating NUL, at most `size - 1` of them, and the return
value, the number of digits of `n`. -/
def snprintf_lu (size : Nat) (n : Nat) : List Nat × Nat :=
  let s := (Nat.toDigits 10 n).map Char.toNat
  (s.take (size - 1), s.length)

/-- The loop `TAILQ_FOREACH_REVERSE(tp, &cbp->textq, _texth, q)` of `v_at`, over
the lines in the order it visits them (last line first); `hasNext` is whether
`TAILQ_NEXT(tp, q)` is not `NULL` for the first of them.  A newline is pushed
before the line when the buffer is in line mode or the line has a successor. -/
def v_at_lines (kv : Nat → e_key_t) (lmode : Bool) : List TEXT → Bool → GS → Option (Nat × GS)
  | [], _, gp => some (0, gp)
  | tp :: rest, hasNext, gp =>
    match (if lmode || hasNext then v_event_push kv gp none [10] CH_NONE else some (0, gp)) with
    | none => none
    | some (r1, gp1) =>
      if r1 ≠ 0 then some (1, gp1)
      else
        match v_event_push kv gp1 none tp.lb CH_NONE with
        | none => none
        | some (r2, gp2) =>
          if r2 ≠ 0 then some (1, gp2) else v_at_lines kv lmode rest true gp2

/-- The part of `v_at` after the buffer `cbp` was found and `sp->at_lbuf` set:
push the lines, then the count. -/
def v_at_push (kv : Nat → e_key_t) (cbp : CB) (sp : SCR_at) (gp : GS) (vp : VICMD) :
    Option (Nat × SCR_at × GS) :=
  match v_at_lines kv cbp.lmode cbp.textq.reverse false gp with
  | none => none
  | some (r, gp1) =>
    if r ≠ 0 then some (1, sp, gp1)
    else
      match vp.count with
      | none => some (0, sp, gp1)
      | some count =>
        -- len = snprintf(nbuf, sizeof(nbuf), "%lu", vp->count); char nbuf[20];
        let nbuf := (snprintf_lu 20 count).1
        let len := if (snprintf_lu 20 count).2 ≥ 20 then 20 - 1 else (snprintf_lu 20 count).2
        match v_event_push kv gp1 none (nbuf.take len) CH_NONE with
        | none => none
        | some (r2, gp2) => if r2 ≠ 0 then some (1, sp, gp2) else some (0, sp, gp2)

/-- The function `v_at(sp, vp)`: execute a buffer.  `cutq` is the list
`gp->cutq`; the result is the return value, the fields of `sp` and the event
queue. -/
def v_at (kv : Nat → e_key_t) (isupper : Nat → Bool) (tolower : Nat → Nat) (cutq : List CB)
    (sp : SCR_at) (gp : GS) (vp : VICMD) : Option (Nat × SCR_at × GS) :=
  let name0 : Nat :=
    match vp.buffer with
    | some b => b
    | none => 64
  if (name0 = 64 ∨ name0 = 42) ∧ sp.sc_at_set = false then
    some (1, { sp with emsgs := sp.emsgs ++ [(none, .EXM_NOPREVBUF)] }, gp)
  else
    let name := if name0 = 64 ∨ name0 = 42 then sp.at_lbuf else name0
    let sp1 : SCR_at := { sp with sc_at_set := true }
    match CBNAME isupper tolower cutq name with
    | none => some (1, { sp1 with emsgs := sp1.emsgs ++ [(some name, .EXM_EMPTYBUF)] }, gp)
    | some cbp => v_at_push kv cbp { sp1 with at_lbuf := name } gp vp

/-- The characters the loop of `v_at` leaves at the front of the queue for the
lines it visits in the order `rs` (last line first). -/
def v_at_text (lmode : Bool) : List TEXT → Bool → List Nat
  | [], _ => []
  | tp :: rest, hasNext =>
    v_at_text lmode rest true ++ (tp.lb ++ if lmode || hasNext then [10] else [])

/-- The register `a` holding the lines `dd` and `x`, cut in character mode. -/
def cbA : CB := ⟨97, [⟨[100, 100]⟩, ⟨[120]⟩], 3, false⟩

/-- A screen on which no buffer was executed yet. -/
def scrAt0 : SCR_at := ⟨false, 0, []⟩

/-! ## `ex_abbr` (`ex/ex_abbrev.c`) -/

/-- The messages `ex_abbr` hands to `msgq`: `No abbreviations to display`,
`Abbreviations must end with a "word" character`, `Abbreviations may not contain
tabs or spaces`, and `Abbreviations may not mix word/non-word characters, except
at the end`. -/
inductive abbr_msg
  | NONE_TO_DISPLAY | END_WORD | NO_BLANKS | NO_MIX
  deriving DecidableEq, Repr

/-- What `ex_abbr` reads and writes: the flag `G_ABBREV` of `gp`, the messages
given to `msgq`, and a record of the calls of `seq_set` (the key and the
replacement of each). -/
structure SCR_abbr where
  g_abbrev : Bool
  msgs : List abbr_msg
  seq_calls : List (List Nat × List Nat)
  deriving DecidableEq, Repr

/-- The loop `for (p = bp, len = argv[0]->len - 2; len; --len, ++p)` of `ex_abbr`:
whether `inword(p[0]) != inword(p[1])` holds at one of its `len` rounds. -/
def abbrMixed (inword : Nat → Bool) : List Nat → Nat → Bool
  | _, 0 => false
  | a :: b :: rest, n + 1 =>
    if inword a != inword b then true else abbrMixed inword (b :: rest) n
  | _, _ + 1 => false

/-- The function `ex_abbr(sp, cmdp)` on the arguments `cmdp->argv` (each the
`len` characters at `bp`, followed by a NUL).  `inword` is the macro of `vi.h`,
`isblank` the C library's; `seq_dump` is the return value of `seq_dump`, and
`seq_set key val` that of the call of `seq_set`.  `none` is `abort()` or a read
before the start of the key. -/
def ex_abbr (inword isblank : Nat → Bool) (seq_dump : Nat) (seq_set : List Nat → List Nat → Nat)
    (sp : SCR_abbr) (argv : List (List Nat)) : Option (Nat × SCR_abbr) :=
  match argv with
  | [] =>
    some (0, if seq_dump = 0 then { sp with msgs := sp.msgs ++ [.NONE_TO_DISPLAY] } else sp)
  | [key, val] =>
    match key.getLast? with
    | none => none
    | some c =>
      if !inword c then some (1, { sp with msgs := sp.msgs ++ [.END_WORD] })
      else if (key.takeWhile fun x => x ≠ 0).any isblank then
        some (1, { sp with msgs := sp.msgs ++ [.NO_BLANKS] })
      else if key.length > 2 ∧ abbrMixed inword key (key.length - 2) = true then
        some (1, { sp with msgs := sp.msgs ++ [.NO_MIX] })
      else
        let sp1 : SCR_abbr := { sp with seq_calls := sp.seq_calls ++ [(key, val)] }
        if seq_set key val ≠ 0 then some (1, sp1)
        else some (0, { sp1 with g_abbrev := true })
  | _ => none

/-- The macro `inword` on ASCII codes: a letter, a digit or the underscore. -/
def asciiInword (c : Nat) : Bool :=
  decide ((48 ≤ c ∧ c ≤ 57) ∨ (65 ≤ c ∧ c ≤ 90) ∨ (97 ≤ c ∧ c ≤ 122) ∨ c = 95)

/-- The `isblank` of the C locale: space or tab. -/
def asciiIsblank (c : Nat) : Bool := decide (c = 32 ∨ c = 9)

/-- No abbreviation defined, no message. -/
def scrAbbr0 : SCR_abbr := ⟨false, [], []⟩

/-! ## Properties of `del` stated in the words of the design -/

/-- The end-of-file test as the design document words it: `tm` is strictly beyond
the last line, or on the last line at or after that line's final column (the
column of its last byte). -/
def delIsEof_spec (sp : SCR) (tm : MARK) : Bool :=
  decide (sp.lines.length < tm.lno ∨
    (tm.lno = sp.lines.length ∧ (sp.lines.getD (tm.lno - 1) []).length - 1 ≤ tm.cno))

/-- The end-of-file test of the code in closed form: `tm` is beyond the last
line, or on the last line with `tm->cno` not `(size_t)-1` and at least the length
of that line. -/
def delEofCond (sp : SCR) (tm : MARK) : Prop :=
  sp.lines.length < tm.lno ∨
    (tm.lno = sp.lines.length ∧ tm.cno ≠ SIZE_MAX ∧
      (sp.lines.getD (tm.lno - 1) []).length ≤ tm.cno)

instance delEofCond_decidable (sp : SCR) (tm : MARK) : Decidable (delEofCond sp tm) :=
  inferInstanceAs (Decidable (_ ∨ _))

/-- No line was removed between `sp` and `sp1`: the number of lines, the record of
`db_delete` calls and the counter `rptlines[L_DELETED]` are the same. -/
def delSameLines (sp sp1 : SCR) : Prop :=
  sp1.lines.length = sp.lines.length ∧ sp1.deleted = sp.deleted ∧
    sp1.rptDeleted = sp.rptDeleted

/-- Between `sp` and `sp1` the counter `rptlines[L_DELETED]` rose by the number of
lines removed, which is also the number of `db_delete` calls that succeeded. -/
def delCounted (sp sp1 : SCR) : Prop :=
  sp1.lines.length ≤ sp.lines.length ∧
    sp1.rptDeleted = sp.rptDeleted + (sp.lines.length - sp1.lines.length) ∧
    sp1.deleted.length = sp.deleted.length + (sp.lines.length - sp1.lines.length)

/-! ## Fixtures for the eligibility gate and the interrupt poll -/

/-- The surroundings `env` with the bindings `gp->seqq` replaced. -/
def Env.withSeqq (env : Env) (seqq : List SEQ) : Env := { env with seqq := seqq }

/-- The queue holding `a` flagged `CH_NOMAP` and then `b`. -/
def qnomap : GS :=
  { gs0 with i_event := [chEvent noKeys CH_NOMAP 97, chEvent noKeys CH_NONE 98]
                          ++ List.replicate 62 EVENT.zero,
             i_nelem := 64,
             i_cnt := 2 }

/-- The log of `gp->scr_event` calls in the state an outcome carries. -/
def Outcome.log? : Outcome → Option (List (ECFlags × Int))
  | .ret _ _ gp => some gp.scr_log
  | _ => none

/-- The log of `gp->scr_event` calls in the state a step ends with. -/
def Step.log? : Step → Option (List (ECFlags × Int))
  | .done o => o.log?
  | .goto _ _ gp => some gp.scr_log

/-- The interrupt event. -/
def interruptEvent : EVENT := ⟨.E_INTERRUPT, 0, .K_NOTUSED, CH_NONE, []⟩

/-- The surroundings of the example `:map a xy` with remap on, in which
`gp->scr_event` answers every call with the interrupt event. -/
def intrEnv : Env :=
  { key_val := noKeys,
    seqq := [⟨.SEQ_COMMAND, [97], some [120, 121]⟩],
    seqb := fun c => decide (c = 97),
    max_bit_seq := 128,
    o_remap := true,
    o_timeout := false,
    o_escapetime := 1,
    o_keytime := 6,
    g_scrwin := false,
    sscr_input := 0,
    scr_event := fun _ _ _ => some interruptEvent,
    dq := [],
    hq := [] }

/-- The part of `v_event_get` under `O_REMAP` after the interrupt poll: push the
output (in two parts when its initial segment is the matched input) and go to
`nomap` or `newmap`. -/
def v_event_get_remap_push (env : Env) (flags : ECFlags) (loc : Locals) (gp : GS) (qp : SEQ)
    (out : List Nat) (init_nomap : Bool) : Step :=
  if init_nomap then
    match v_event_push env.key_val gp none (out.drop qp.input.length) CH_MAPPED with
    | none => .done .undef
    | some (r1, gp2) =>
      if r1 ≠ 0 then .done (.ret 1 loc.argp gp2)
      else
        match v_event_push env.key_val gp2 none (out.take qp.input.length)
            (CH_NOMAP.or CH_MAPPED) with
        | none => .done .undef
        | some (r2, gp3) =>
          if r2 ≠ 0 then .done (.ret 1 loc.argp gp3)
          else .done (v_event_get_nomap flags loc.argp gp3 gp3.i_next)
  else
    match v_event_push env.key_val gp none out CH_MAPPED with
    | none => .done .undef
    | some (r1, gp2) =>
      if r1 ≠ 0 then .done (.ret 1 loc.argp gp2)
      else .goto .newmap { loc with remap_cnt := loc.remap_cnt + 1 } gp2

/-- The return of `v_event_get` after a poll that failed or found an interrupt:
`G_INTERRUPTED` set, `argp->e_event = E_INTERRUPT`, `return (0)`.  `gp` is the
state before the poll. -/
def v_event_get_interrupted (loc : Locals) (gp : GS) : Outcome :=
  .ret 0 { loc.argp with e_event := .E_INTERRUPT }
    { logRead gp EC_INTERRUPT 0 with interrupted := true }

/-- Surroundings without bindings in which `gp->scr_event` answers every call
with the character `z`. -/
def zEnv : Env :=
  { key_val := noKeys,
    seqq := [],
    seqb := fun _ => false,
    max_bit_seq := 128,
    o_remap := true,
    o_timeout := false,
    o_escapetime := 1,
    o_keytime := 6,
    g_scrwin := false,
    sscr_input := 0,
    scr_event := fun _ _ _ => some (chEvent noKeys CH_NONE 122),
    dq := [],
    hq := [] }

/-- The request flags `EC_TIMEOUT` alone. -/
def EC_TIMEOUT : ECFlags := ⟨false, false, false, false, false, false, true⟩

/-- The queue states the program reaches from the empty queue by `v_event_push`,
`v_event_append`, `v_event_flush` and `QREM(len)` with `len <= i_cnt`.  The size
`i_nelem` is a `size_t`: a step that would take it beyond `SIZE_MAX` is not a
step of the program. -/
inductive QReach (kv : Nat → e_key_t) : GS → Prop
  | empty : QReach kv gs0
  | push {gp gp1 : GS} {r : Nat} (p_evp : Option (List EVENT)) (p_s : List Nat)
      (flags : ChFlags) : QReach kv gp → v_event_push kv gp p_evp p_s flags = some (r, gp1) →
      gp1.i_nelem ≤ SIZE_MAX → QReach kv gp1
  | append {gp gp1 : GS} {r : Nat} (argp : EVENT) : QReach kv gp →
      v_event_append kv gp argp = some (r, gp1) → gp1.i_nelem ≤ SIZE_MAX → QReach kv gp1
  | flush {gp gp1 : GS} {r : Nat} (flags : ChFlags) : QReach kv gp →
      v_event_flush gp flags = some (r, gp1) → QReach kv gp1
  | qrem {gp : GS} (len : Nat) : QReach kv gp → len ≤ gp.i_cnt → QReach kv (QREM gp len)

/-- The array `sp->cname` after `v_key_name(sp, ch)`, up to the element written
last: the `sp->clen` characters of the name and the NUL stored by
`sp->cname[sp->clen = len] = '\0'`. -/
def v_key_cname (o : KeyOpts) (ch : Nat) : List Nat := v_key_name o ch ++ [0]

/-- The C library function `strlen` on an array of characters: the number of
characters before the first NUL. -/
def strlen (s : List Nat) : Nat := (s.takeWhile fun c => c ≠ 0).length

/-! ## The ex output buffer (`ex_print.c`) -/

/-- An access outside an array: a store or a load at the given index. -/
inductive Fault where
  | store (index : Nat)
  | load (index : Nat)
  deriving DecidableEq, Repr

/-- Modelled from the spec: the fields of `EX_PRIVATE` used by `ex_print.c`
(`ex.h` is not among the sources at hand): the array `obp`, whose length stands
for `sizeof(exp->obp)`, and `obp_len`.  The field `out` records the texts handed
to `gp->scr_msg`. -/
structure EX_PRIVATE where
  obp : List Nat
  obp_len : Nat
  out : List (List Nat)
  deriving DecidableEq, Repr

/-- The store `a[i] = c`; a fault when `i` is not an index of the array. -/
def storeAt (a : List Nat) (i c : Nat) : Except Fault (List Nat) :=
  if i < a.length then .ok (a.set i c) else .error (.store i)

/-- The stores `a[i] = c0`, `a[i + 1] = c1`, and so on. -/
def storeAll : List Nat → Nat → List Nat → Except Fault (List Nat)
  | a, _, [] => .ok a
  | a, i, c :: cs =>
    match storeAt a i c with
    | .ok a1 => storeAll a1 (i + 1) cs
    | .error f => .error f

/-- Modelled from the spec: the C library call `vsnprintf(a + i, size, fmt, ap)`
whose formatted text is `txt`: nothing is stored for `size = 0`, else at most
`size - 1` characters of the text and a NUL. -/
def vsnprintf (a : List Nat) (i size : Nat) (txt : List Nat) : Except Fault (List Nat) :=
  if size = 0 then .ok a else storeAll a i (txt.take (size - 1) ++ [0])

/-- The function `ex_fflush`: a non-empty buffer is handed to `gp->scr_msg` with
its length, and the length is reset. -/
def ex_fflush (exp : EX_PRIVATE) : Except Fault (Nat × EX_PRIVATE) :=
  if exp.obp_len ≠ 0 then
    if exp.obp_len ≤ exp.obp.length then
      .ok (0, { exp with out := exp.out ++ [exp.obp.take exp.obp_len], obp_len := 0 })
    else .error (.load exp.obp.length)
  else .ok (0, exp)

/-- The loop of `ex_puts` over the characters of `str` up to its NUL, with the
locals `doflush` and `n`: a flush when `obp_len > sizeof(exp->obp)`, then the
store `exp->obp[exp->obp_len++] = *str++`. -/
def ex_puts_loop : List Nat → EX_PRIVATE → Bool → Nat → Except Fault (Bool × Nat × EX_PRIVATE)
  | [], exp, doflush, n => .ok (doflush, n, exp)
  | c :: str, exp, doflush, n =>
    if c = 0 then .ok (doflush, n, exp)
    else
      match (if exp.obp_len > exp.obp.length then ex_fflush exp else .ok (0, exp)) with
      | .error f => .error f
      | .ok (_, exp1) =>
        match storeAt exp1.obp exp1.obp_len c with
        | .error f => .error f
        | .ok a =>
          ex_puts_loop str ⟨a, szAdd exp1.obp_len 1, exp1.out⟩ (doflush || c == 10) (n + 1)

/-- The function `ex_puts(sp, str)`: the loop, then a flush when a newline was
stored; the result is `n`. -/
def ex_puts (exp : EX_PRIVATE) (str : List Nat) : Except Fault (Nat × EX_PRIVATE) :=
  match ex_puts_loop str exp false 0 with
  | .error f => .error f
  | .ok (doflush, n, exp1) =>
    if doflush then
      match ex_fflush exp1 with
      | .error f => .error f
      | .ok (_, exp2) => .ok (n, exp2)
    else .ok (n, exp1)

/-- The function `ex_printf(sp, fmt, ...)` whose formatted text is `txt`: the
text is formatted behind the buffered characters, `n` is cut to the room left,
and the buffer is flushed after a newline or beyond half of its size. -/
def ex_printf (exp : EX_PRIVATE) (txt : List Nat) : Except Fault (Nat × EX_PRIVATE) :=
  let size := szSub exp.obp.length exp.obp_len
  match vsnprintf exp.obp exp.obp_len size txt with
  | .error f => .error f
  | .ok a =>
    let n := if txt.length ≥ size then szSub size 1 else txt.length
    let len1 := szAdd exp.obp_len n
    if szSub len1 1 < a.length then
      if a.getD (szSub len1 1) 0 = 10 ∨ len1 > a.length / 2 then
        match ex_fflush ⟨a, len1, exp.out⟩ with
        | .error f => .error f
        | .ok (_, exp2) => .ok (n, exp2)
      else .ok (n, ⟨a, len1, exp.out⟩)
    else .error (.load (szSub len1 1))

/-- A call of `ex_puts` or of `ex_printf`, with the string or the formatted
text. -/
inductive ExCall where
  | puts (str : List Nat)
  | printf (txt : List Nat)

/-- A sequence of calls, one after the other on the same `EX_PRIVATE`. -/
def exRun : List ExCall → EX_PRIVATE → Except Fault EX_PRIVATE
  | [], exp => .ok exp
  | .puts str :: cs, exp =>
    match ex_puts exp str with
    | .error f => .error f
    | .ok (_, exp1) => exRun cs exp1
  | .printf txt :: cs, exp =>
    match ex_printf exp txt with
    | .error f => .error f
    | .ok (_, exp1) => exRun cs exp1

/-- The empty output buffer with an array of `cap` characters. -/
def exp0 (cap : Nat) : EX_PRIVATE := ⟨List.replicate cap 0, 0, []⟩

/-- The screens handed to `rcv_sync` in the state a step ends with. -/
def Step.synced? : Step → Option (List (Nat × Bool))
  | .done (.ret _ _ gp) => some gp.synced
  | .done _ => none
  | .goto _ _ gp => some gp.synced

/-- A run of `n` expansions in a row: `n` steps from the label `newmap`, each of
which ends with `goto newmap` (only the expansion of a binding under `O_REMAP`
does).  The result is the locals and the queue on arrival at `newmap` after the
last of them; `none` when one of the steps ends otherwise. -/
def expandChain (env : Env) (flags : ECFlags) : Nat → Locals → GS → Option (Locals × GS)
  | 0, loc, gp => some (loc, gp)
  | n + 1, loc, gp =>
    match expandChain env flags n loc gp with
    | none => none
    | some (loc1, gp1) =>
      match v_event_get_step env flags .newmap loc1 gp1 with
      | .goto .newmap loc2 gp2 => some (loc2, gp2)
      | _ => none

/-- The polls of the expansions `first .. first + n - 1`, counted as `remap_cnt`
counts them: one call of `gp->scr_event` with `EC_INTERRUPT` and timeout 0 for
the number 1 and for every multiple of 10. -/
def pollLog (first n : Nat) : List (ECFlags × Int) :=
  ((List.range' first n).filter fun k => decide (k = 1 ∨ k % 10 = 0)).map
    fun _ => (EC_INTERRUPT, 0)

/-- The bindings `a -> b`, `b -> ` nothing and `c -> d` with remap on;
`gp->scr_event` answers every call with a timeout event. -/
def vanishEnv : Env :=
  mapEnv [⟨.SEQ_COMMAND, [97], some [98]⟩, ⟨.SEQ_COMMAND, [98], none⟩,
    ⟨.SEQ_COMMAND, [99], some [100]⟩] true

/-- The queue after the characters `a`, `c` arrived on the empty queue. -/
def qac : GS :=
  { gs0 with i_event := [chEvent noKeys CH_NONE 97, chEvent noKeys CH_NONE 99]
                          ++ List.replicate 62 EVENT.zero,
             i_nelem := 64,
             i_cnt := 2 }

/-- The bindings `a -> b` and `b -> a` with remap on: an expansion without end.
`gp->scr_event` answers its first call with a timeout event and every later
call with the interrupt event. -/
def cycleEnv : Env :=
  { key_val := noKeys,
    seqq := [⟨.SEQ_COMMAND, [97], some [98]⟩, ⟨.SEQ_COMMAND, [98], some [97]⟩],
    seqb := fun c => decide (c = 97 ∨ c = 98),
    max_bit_seq := 128,
    o_remap := true,
    o_timeout := false,
    o_escapetime := 1,
    o_keytime := 6,
    g_scrwin := false,
    sscr_input := 0,
    scr_event := fun n _ _ => if n = 0 then some timeoutEvent else some interruptEvent,
    dq := [],
    hq := [] }

/-- The queue holding the single character `a`. -/
def qa : GS :=
  { gs0 with i_event := [chEvent noKeys CH_NONE 97] ++ List.replicate 63 EVENT.zero,
             i_nelem := 64,
             i_cnt := 1 }

/-! ## Arithmetic and store lemmas -/

theorem szAdd_eq {a b : Nat} (h : a + b ≤ SIZE_MAX) : szAdd a b = a + b := by
  unfold szAdd SIZE_MAX at *
  exact Nat.mod_eq_of_lt (by omega)

theorem szSub_eq {a b : Nat} (hb : b ≤ a) (ha : a ≤ SIZE_MAX) : szSub a b = a - b := by
  unfold szSub SIZE_MAX at *
  have h1 : a % 2 ^ 64 = a := Nat.mod_eq_of_lt (by omega)
  have h2 : b % 2 ^ 64 = b := Nat.mod_eq_of_lt (by omega)
  rw [h1, h2]
  have h3 : a + 2 ^ 64 - b = (a - b) + 2 ^ 64 := by omega
  rw [h3, Nat.add_mod_right]
  exact Nat.mod_eq_of_lt (by omega)

theorem db_get_eq_some {sp : SCR} {lno : Nat} {L : Line} (h : db_get sp lno = some L) :
    0 < lno ∧ lno ≤ sp.lines.length ∧ sp.lines.get? (lno - 1) = some L := by
  unfold db_get at h
  split at h
  · simp at h
  · refine ⟨by omega, ?_, h⟩
    have := List.get?_eq_some.1 h
    obtain ⟨hlt, _⟩ := this
    omega

theorem memRead_eq {p : Line} {off n : Nat} (h : off + n ≤ p.length) :
    memRead p off n = some ((p.drop off).take n) := by
  simp [memRead, h]

theorem db_set_eq {sp : SCR} {lno : Nat} (b : Line) (h0 : 0 < lno)
    (h1 : lno ≤ sp.lines.length) :
    db_set sp lno b = some (withLines sp (sp.lines.set (lno - 1) b)) := by
  unfold db_set
  rw [if_neg (by omega)]

theorem delSingle_spec (sp : SCR) (fm tm : MARK) (L : Line)
    (hget : db_get sp fm.lno = some L)
    (hcol : fm.cno ≤ tm.cno) (hto : tm.cno < L.length) (hsz : L.length ≤ SIZE_MAX) :
    delSingle sp fm tm L = some (0, withLines sp
      (sp.lines.set (fm.lno - 1) (L.take fm.cno ++ L.drop (tm.cno + 1)))) := by
  obtain ⟨h0, h1, _⟩ := db_get_eq_some hget
  have e1 : szAdd tm.cno 1 = tm.cno + 1 := szAdd_eq (by omega)
  have e2 : szSub L.length (tm.cno + 1) = L.length - (tm.cno + 1) := szSub_eq (by omega) hsz
  have e3 : szSub tm.cno fm.cno = tm.cno - fm.cno := szSub_eq hcol (by omega)
  have e4 : szAdd (tm.cno - fm.cno) 1 = tm.cno - fm.cno + 1 := szAdd_eq (by omega)
  have e5 : szSub L.length (tm.cno - fm.cno + 1) = L.length - (tm.cno - fm.cno + 1) :=
    szSub_eq (by omega) hsz
  have hhead : (if fm.cno ≠ 0 then memRead L 0 fm.cno else some []) = some (L.take fm.cno) := by
    by_cases hc : fm.cno = 0
    · simp [hc]
    · rw [if_pos hc, memRead_eq (by omega)]; simp
  unfold delSingle
  simp only [e1, e2, e3, e4, e5, hhead]
  rw [memRead_eq (by omega)]
  simp only
  rw [if_neg (by omega), db_set_eq _ h0 h1]
  have : List.take (L.length - (tm.cno - fm.cno + 1))
      (List.take fm.cno L ++ List.take (L.length - (tm.cno + 1)) (List.drop (tm.cno + 1) L))
      = List.take fm.cno L ++ List.drop (tm.cno + 1) L := by
    rw [List.take_of_length_le (by simp; omega)]
    congr 1
    exact List.take_of_length_le (by simp)
  rw [this]

theorem delIsEof_inside {sp : SCR} {tm : MARK} {L : Line}
    (hget : db_get sp tm.lno = some L) (hto : tm.cno < L.length ∨ tm.cno = SIZE_MAX) :
    delIsEof sp tm sp.lines.length = some false := by
  obtain ⟨_, h1, _⟩ := db_get_eq_some hget
  unfold delIsEof
  by_cases h : tm.lno = sp.lines.length
  · rw [if_pos (by omega), if_pos h, ← h, hget]
    simp only [Option.some.injEq, decide_eq_false_iff_not]
    omega
  · rw [if_neg (by omega)]

theorem db_get_withLines_set (sp : SCR) (k lno : Nat) (b : Line) (hk : k ≠ lno) (h0 : 0 < lno) :
    db_get (withLines sp (sp.lines.set (lno - 1) b)) k = db_get sp k := by
  unfold db_get withLines
  by_cases hk0 : k = 0
  · simp [hk0]
  · simp only [hk0, if_false]
    rw [List.get?_eq_getElem?, List.get?_eq_getElem?, List.getElem?_set_ne (by omega)]

theorem db_get_withLines_set_same (sp : SCR) (lno : Nat) (b : Line) (h0 : 0 < lno)
    (h1 : lno ≤ sp.lines.length) :
    db_get (withLines sp (sp.lines.set (lno - 1) b)) lno = some b := by
  unfold db_get withLines
  rw [if_neg (by omega), List.get?_eq_getElem?]
  simp only
  rw [List.getElem?_set_self (by omega)]

/-- C1: in character mode, for a range inside one line `L` (`fm.cno ≤ tm.cno <
length L`), `del` succeeds, line `fm.lno` becomes the first `fm.cno` bytes of `L`
followed by the bytes of `L` from index `tm.cno + 1` on, and the number of lines
and every other line are unchanged. -/
theorem del_single_line_splice (ic : Nat) (intr : Nat → Bool) (tmpNull : Bool) (sp : SCR) (fm tm : MARK)
    (L : Line) (hline : tm.lno = fm.lno) (hget : db_get sp fm.lno = some L)
    (hcol : fm.cno ≤ tm.cno) (hto : tm.cno < L.length) (hsz : L.length ≤ SIZE_MAX) :
    ∃ sp1, del ic intr tmpNull sp fm tm 0 = some (0, sp1) ∧
      db_get sp1 fm.lno = some (L.take fm.cno ++ L.drop (tm.cno + 1)) ∧
      sp1.lines.length = sp.lines.length ∧
      ∀ k, k ≠ fm.lno → db_get sp1 k = db_get sp k := by
  obtain ⟨h0, h1, _⟩ := db_get_eq_some hget
  refine ⟨withLines sp (sp.lines.set (fm.lno - 1) (L.take fm.cno ++ L.drop (tm.cno + 1))),
    ?_, db_get_withLines_set_same sp _ _ h0 h1, by simp [withLines],
    fun k hk => db_get_withLines_set sp k _ _ hk h0⟩
  have hget2 : db_get sp tm.lno = some L := by rw [hline]; exact hget
  unfold del
  rw [if_neg (by simp)]
  simp only [db_last, delIsEof_inside hget2 (Or.inl hto)]
  unfold delInner
  rw [if_pos hline, hget]
  simp only
  rw [if_pos (by omega)]
  exact delSingle_spec sp fm tm L hget hcol hto hsz

theorem del_single_line_splice_witness :
    ∃ sp1, del 100 noIntr false (mkSCR [[1, 2, 3, 4, 5], [6, 7, 8]]) ⟨1, 1⟩ ⟨1, 2⟩ 0 = some (0, sp1) ∧
      db_get sp1 1 = some ([1, 2, 3, 4, 5].take 1 ++ [1, 2, 3, 4, 5].drop (2 + 1)) ∧
      sp1.lines.length = (mkSCR [[1, 2, 3, 4, 5], [6, 7, 8]]).lines.length ∧
      ∀ k, k ≠ 1 → db_get sp1 k = db_get (mkSCR [[1, 2, 3, 4, 5], [6, 7, 8]]) k :=
  del_single_line_splice 100 noIntr false (mkSCR [[1, 2, 3, 4, 5], [6, 7, 8]]) ⟨1, 1⟩ ⟨1, 2⟩
    [1, 2, 3, 4, 5] rfl rfl (by decide) (by decide) (by decide)


theorem eraseIdx_take_drop (l : List Line) (k n : Nat) (hk : k ≤ n) (hn : n < l.length) :
    List.take k (l.eraseIdx n) ++ List.drop n (l.eraseIdx n)
      = List.take k l ++ List.drop (n + 1) l := by
  rw [List.eraseIdx_eq_take_drop_succ]
  have hlen : (List.take n l).length = n := by simp; omega
  congr 1
  · rw [List.take_append_of_le_length (by omega), List.take_take]
    congr 1
    omega
  · rw [List.drop_append_of_le_length (by omega), List.drop_of_length_le (by omega)]
    simp

/-- The loop `lno > lo` entered at `hi` deletes the lines `hi, hi - 1, .., k + 1`
and stops, where `k` is `lo` or the line below the first poll that finds the
interrupt raised. -/
theorem delLinesGt_run (ic : Nat) (intr : Nat → Bool) (lo k : Nat) :
    ∀ (hi : Nat) (sp : SCR), lo ≤ k → k ≤ hi → hi ≤ sp.lines.length →
      (∀ m, k + 1 < m → m ≤ hi → ¬ (m % ic = 0 ∧ intr m = true)) →
      (k = lo ∨ (k < hi ∧ (k + 1) % ic = 0 ∧ intr (k + 1) = true)) →
      delLinesGt ic intr lo hi sp =
        (0, { lines := sp.lines.take k ++ sp.lines.drop hi,
              rptDeleted := sp.rptDeleted + (hi - k),
              msgs := sp.msgs,
              deleted := sp.deleted ++ (List.range' (k + 1) (hi - k)).reverse }) := by
  intro hi
  induction hi with
  | zero =>
    intro sp _ hk _ _ _
    have : k = 0 := by omega
    subst this
    simp [delLinesGt]
  | succ n ih =>
    intro sp hlo hk hlen hno hstop
    unfold delLinesGt
    by_cases h1 : n + 1 ≤ lo
    · have : k = n + 1 := by omega
      subst this
      simp [h1]
    · rw [if_neg h1]
      have hdel : db_delete sp (n + 1) = some { withLines sp (sp.lines.eraseIdx n) with
          deleted := sp.deleted ++ [n + 1] } := by
        unfold db_delete
        rw [if_neg (by omega)]
        simp
      rw [hdel]
      simp only
      have hrange : ∀ j, j ≤ n → (List.range' (j + 1) (n + 1 - j)).reverse
          = (n + 1) :: (List.range' (j + 1) (n - j)).reverse := by
        intro j hj
        have : n + 1 - j = (n - j) + 1 := by omega
        rw [this, List.range'_concat, List.reverse_append]
        simp
        omega
      by_cases h2 : (n + 1) % ic = 0 ∧ intr (n + 1) = true
      · rw [if_pos h2]
        have hk2 : k = n := by
          by_contra hne
          rcases hstop with h | ⟨h, _⟩
          · exact hno (n + 1) (by omega) (by omega) h2
          · exact hno (n + 1) (by omega) (by omega) h2
        subst hk2
        simp only [bumpDeleted, withLines, Prod.mk.injEq, true_and]
        have e := eraseIdx_take_drop sp.lines k k (le_refl _) (by omega)
        rw [List.eraseIdx_eq_take_drop_succ]
        simp
      · rw [if_neg h2]
        have hkn : k ≤ n := by
          rcases hstop with h | ⟨h, _⟩ <;> omega
        have hstop2 : k = lo ∨ (k < n ∧ (k + 1) % ic = 0 ∧ intr (k + 1) = true) := by
          rcases hstop with h | ⟨h, h3⟩
          · exact Or.inl h
          · by_cases hkn2 : k = n
            · subst hkn2; exact absurd h3 h2
            · exact Or.inr ⟨by omega, h3⟩
        rw [ih (bumpDeleted { withLines sp (sp.lines.eraseIdx n) with
          deleted := sp.deleted ++ [n + 1] }) hlo hkn
          (by
            have : n < sp.lines.length := by omega
            simp [bumpDeleted, withLines, List.length_eraseIdx, this]; omega)
          (fun m hm1 hm2 => hno m hm1 (by omega)) hstop2]
        simp only [bumpDeleted, withLines, Prod.mk.injEq, true_and]
        have e := eraseIdx_take_drop sp.lines k n hkn (by omega)
        rw [e, hrange k hkn]
        simp
        omega


theorem delLinesGe_eq_Gt (ic : Nat) (intr : Nat → Bool) (lo : Nat) (hlo : 1 ≤ lo) :
    ∀ (hi : Nat) (sp : SCR), delLinesGe ic intr lo hi sp = delLinesGt ic intr (lo - 1) hi sp := by
  intro hi
  induction hi with
  | zero =>
    intro sp
    simp [delLinesGe, delLinesGt]
    omega
  | succ n ih =>
    intro sp
    unfold delLinesGe delLinesGt
    by_cases h : n + 1 < lo
    · rw [if_pos h, if_pos (by omega)]
    · rw [if_neg h, if_neg (by omega)]
      cases hd : db_delete sp (n + 1) with
      | none => rfl
      | some sp1 =>
        simp only
        split
        · rfl
        · exact ih _

/-- C5: in line mode, for `1 ≤ fm.lno ≤ tm.lno ≤ last line` and no interrupt
found at a poll, `del` succeeds whatever the columns are, calls `db_delete` on
`tm.lno, tm.lno - 1, .., fm.lno` in that order, and leaves the lines before
`fm.lno` followed by the lines after `tm.lno`, unchanged and in order; the line
count drops by `tm.lno - fm.lno + 1`. -/
theorem del_line_mode_removes_range (ic : Nat) (intr : Nat → Bool) (tmpNull : Bool) (sp : SCR) (fm tm : MARK)
    (lmode : Int) (hmode : lmode ≠ 0) (h1 : 1 ≤ fm.lno) (h2 : fm.lno ≤ tm.lno)
    (h3 : tm.lno ≤ sp.lines.length)
    (hno : ∀ m, fm.lno ≤ m → m ≤ tm.lno → ¬ (m % ic = 0 ∧ intr m = true)) :
    ∃ sp1, del ic intr tmpNull sp fm tm lmode = some (0, sp1) ∧
      sp1.lines = sp.lines.take (fm.lno - 1) ++ sp.lines.drop tm.lno ∧
      sp1.lines.length + (tm.lno - fm.lno + 1) = sp.lines.length ∧
      sp1.deleted = sp.deleted ++ (List.range' fm.lno (tm.lno - fm.lno + 1)).reverse := by
  have hrun := delLinesGt_run ic intr (fm.lno - 1) (fm.lno - 1) tm.lno sp (le_refl _) (by omega) h3
    (fun m hm1 hm2 => hno m (by omega) hm2) (Or.inl rfl)
  have e1 : fm.lno - 1 + 1 = fm.lno := by omega
  have e2 : tm.lno - (fm.lno - 1) = tm.lno - fm.lno + 1 := by omega
  rw [e1, e2] at hrun
  have hdel : del ic intr tmpNull sp fm tm lmode = some (delLinesGt ic intr (fm.lno - 1) tm.lno sp) := by
    unfold del
    rw [if_pos hmode, delLinesGe_eq_Gt ic intr fm.lno h1]
  rw [hdel, hrun]
  refine ⟨_, rfl, rfl, ?_, rfl⟩
  simp only [List.length_append, List.length_take, List.length_drop]
  omega

theorem del_line_mode_removes_range_witness :
    ∃ sp1, del 100 noIntr false (mkSCR [[1], [2], [3], [4]]) ⟨2, 7⟩ ⟨3, 9⟩ 1 = some (0, sp1) ∧
      sp1.lines = (mkSCR [[1], [2], [3], [4]]).lines.take (2 - 1)
        ++ (mkSCR [[1], [2], [3], [4]]).lines.drop 3 ∧
      sp1.lines.length + (3 - 2 + 1) = (mkSCR [[1], [2], [3], [4]]).lines.length ∧
      sp1.deleted = (mkSCR [[1], [2], [3], [4]]).deleted ++ (List.range' 2 (3 - 2 + 1)).reverse :=
  del_line_mode_removes_range 100 noIntr false (mkSCR [[1], [2], [3], [4]]) ⟨2, 7⟩ ⟨3, 9⟩ 1
    (by decide) (by decide) (by decide) (by decide) (by simp [noIntr])


set_option maxRecDepth 100000 in
/-- C6, as stated, fails: with `INTERRUPT_CHECK = 100`, range 1..250 and the flag
raised between the polls at lines 200 and 100, `del` returns 0 having deleted
lines 100..250, although the largest multiple of 100 in the range is 200. -/
theorem del_line_mode_interrupt_counterexample :
    (200 % 100 = 0 ∧ ∀ m, 200 < m → m ≤ 250 → m % 100 ≠ 0) ∧
    ∃ sp1, del 100 lateIntr false store250 ⟨1, 0⟩ ⟨250, 0⟩ 1 = some (0, sp1) ∧
      sp1.lines = store250.lines.take 99 ∧
      sp1.lines ≠ store250.lines.take 199 ++ store250.lines.drop 250 := by
  refine ⟨⟨by decide, fun m h1 h2 => by omega⟩, ?_⟩
  have hrun := delLinesGt_run 100 lateIntr 0 99 250 store250 (by omega) (by omega)
    (by simp [store250, mkSCR])
    (fun m hm1 hm2 => by
      simp only [lateIntr, decide_eq_true_eq]
      omega)
    (Or.inr ⟨by omega, by decide, by decide⟩)
  have hdel : del 100 lateIntr false store250 ⟨1, 0⟩ ⟨250, 0⟩ 1
      = some (delLinesGt 100 lateIntr 0 250 store250) := by
    unfold del
    rw [if_pos (by decide), delLinesGe_eq_Gt 100 lateIntr 1 (le_refl _)]
  have hlen : store250.lines.length = 250 := by simp [store250, mkSCR]
  rw [hdel, hrun]
  refine ⟨_, rfl, ?_, ?_⟩
  · simp only
    rw [List.drop_of_length_le (by omega), List.append_nil]
  · intro h
    have := congrArg List.length h
    simp only [List.length_append, List.length_take, List.length_drop, hlen] at this
    omega


/-- C6 (amended): in line mode, when `k` is the largest multiple of
`INTERRUPT_CHECK` in `[fm.lno, tm.lno]` at which the poll finds the interrupt flag
raised, `del` returns 0 having deleted exactly the lines `k .. tm.lno` (from
`tm.lno` down to `k`); the lines below `k` and the lines after `tm.lno` are
unchanged. -/
theorem del_line_mode_interrupted (ic : Nat) (intr : Nat → Bool) (tmpNull : Bool) (sp : SCR) (fm tm : MARK)
    (lmode : Int) (k : Nat) (hmode : lmode ≠ 0) (h1 : 1 ≤ fm.lno) (hk1 : fm.lno ≤ k)
    (hk2 : k ≤ tm.lno) (h3 : tm.lno ≤ sp.lines.length)
    (hk : k % ic = 0 ∧ intr k = true)
    (hno : ∀ m, k < m → m ≤ tm.lno → ¬ (m % ic = 0 ∧ intr m = true)) :
    ∃ sp1, del ic intr tmpNull sp fm tm lmode = some (0, sp1) ∧
      sp1.lines = sp.lines.take (k - 1) ++ sp.lines.drop tm.lno ∧
      sp1.deleted = sp.deleted ++ (List.range' k (tm.lno - k + 1)).reverse := by
  have e1 : k - 1 + 1 = k := by omega
  have e2 : tm.lno - (k - 1) = tm.lno - k + 1 := by omega
  have hrun := delLinesGt_run ic intr (fm.lno - 1) (k - 1) tm.lno sp (by omega) (by omega) h3
    (fun m hm1 hm2 => hno m (by omega) hm2)
    (Or.inr ⟨by omega, by rw [e1]; exact hk⟩)
  rw [e1, e2] at hrun
  have hdel : del ic intr tmpNull sp fm tm lmode = some (delLinesGt ic intr (fm.lno - 1) tm.lno sp) := by
    unfold del
    rw [if_pos hmode, delLinesGe_eq_Gt ic intr fm.lno h1]
  rw [hdel, hrun]
  exact ⟨_, rfl, rfl, rfl⟩

theorem del_line_mode_interrupted_witness :
    ∃ sp1, del 100 lateIntr false store250 ⟨1, 0⟩ ⟨250, 0⟩ 1 = some (0, sp1) ∧
      sp1.lines = store250.lines.take (100 - 1) ++ store250.lines.drop 250 ∧
      sp1.deleted = store250.deleted ++ (List.range' 100 (250 - 100 + 1)).reverse :=
  del_line_mode_interrupted 100 lateIntr false store250 ⟨1, 0⟩ ⟨250, 0⟩ 1 100 (by decide)
    (by decide) (by decide) (by decide) (by simp [store250, mkSCR]) (by decide)
    (fun m hm1 hm2 => by
      simp only [lateIntr, decide_eq_true_eq]
      omega)


theorem set_take_drop (l : List Line) (f t : Nat) (b : Line) (hf : 1 ≤ f) (hft : f ≤ t)
    (ht : t ≤ l.length) :
    List.take f (l.set (f - 1) b) ++ List.drop t (l.set (f - 1) b)
      = l.take (f - 1) ++ b :: l.drop t := by
  rw [List.drop_set_of_lt b l (by omega), List.set_eq_take_cons_drop b (by omega)]
  have hlen : (List.take (f - 1) l).length = f - 1 := by simp; omega
  have e : f = (List.take (f - 1) l).length + 1 := by omega
  have e2 : f - 1 + 1 = f := by omega
  rw [e2]
  nth_rewrite 1 [e]
  rw [List.take_append, List.take_succ_cons, List.take_zero, List.append_assoc]
  rfl

/-- Case 4 from the `db_set` on, when it succeeds and no poll finds an
interrupt: the new line `bp` replaces lines `fm.lno .. tm.lno`. -/
theorem delMultiSet_run (ic : Nat) (intr : Nat → Bool) (sp : SCR) (fm tm : MARK) (bp : Line)
    (h1 : 1 ≤ fm.lno) (h2 : fm.lno ≤ tm.lno) (h3 : tm.lno ≤ sp.lines.length)
    (hno : ∀ m, fm.lno < m → m ≤ tm.lno → ¬ (m % ic = 0 ∧ intr m = true)) :
    delMultiSet ic intr sp fm tm bp =
      some (0, { lines := sp.lines.take (fm.lno - 1) ++ bp :: sp.lines.drop tm.lno,
                 rptDeleted := sp.rptDeleted + (tm.lno - fm.lno),
                 msgs := sp.msgs,
                 deleted := sp.deleted ++ (List.range' (fm.lno + 1) (tm.lno - fm.lno)).reverse }) := by
  unfold delMultiSet
  rw [db_set_eq bp (by omega) (by omega)]
  simp only
  rw [delLinesGt_run ic intr fm.lno fm.lno tm.lno _ (le_refl _) h2 (by simpa [withLines] using h3)
    (fun m hm1 hm2 => hno m (by omega) hm2) (Or.inl rfl)]
  simp only [withLines]
  rw [set_take_drop sp.lines fm.lno tm.lno bp h1 h2 h3]


/-- A successful case 4 has copied the first `fm.cno` bytes of the first line. -/
theorem delMulti_head (ic : Nat) (intr : Nat → Bool) (sp sp1 : SCR) (fm tm : MARK) (F : Line)
    (hF : db_get sp fm.lno = some F)
    (h : delMulti ic intr sp fm tm = some (0, sp1)) :
    delMultiTail ic intr sp fm tm (F.take fm.cno) = some (0, sp1) := by
  unfold delMulti at h
  by_cases hc : fm.cno = 0
  · rw [if_neg (by simpa using hc)] at h
    simpa [hc] using h
  · rw [if_pos hc, hF] at h
    simp only at h
    split at h
    · exact absurd h (by simp)
    · by_cases hlen : fm.cno ≤ F.length
      · rw [memRead_eq (by omega)] at h
        simpa using h
      · simp [memRead, hlen] at h

/-- A successful case 4 whose end column lies inside the last line `T` (or whose
last line is empty) has appended the bytes of `T` after `tm.cno`. -/
theorem delMultiTail_inside (ic : Nat) (intr : Nat → Bool) (sp sp1 : SCR) (fm tm : MARK)
    (T bp : Line) (hT : db_get sp tm.lno = some T) (hTsz : T.length ≤ SIZE_MAX)
    (hto : tm.cno < T.length ∨ T = [])
    (h : delMultiTail ic intr sp fm tm bp = some (0, sp1)) :
    delMultiSet ic intr sp fm tm (bp ++ T.drop (tm.cno + 1)) = some (0, sp1) := by
  unfold delMultiTail at h
  rw [hT] at h
  simp only at h
  by_cases hc : T.length ≠ 0 ∧ tm.cno ≠ T.length - 1
  · rw [if_pos hc] at h
    have hlt : tm.cno < T.length := by
      rcases hto with h1 | h1
      · exact h1
      · exact absurd (by simp [h1]) hc.1
    have e1 : szAdd tm.cno 1 = tm.cno + 1 := szAdd_eq (by omega)
    have e2 : szSub T.length (tm.cno + 1) = T.length - (tm.cno + 1) := szSub_eq (by omega) hTsz
    rw [e1, e2] at h
    split at h
    · exact absurd h (by simp)
    · rw [memRead_eq (by omega)] at h
      simp only at h
      rw [List.take_of_length_le (by simp)] at h
      exact h
  · rw [if_neg hc] at h
    have hd : T.drop (tm.cno + 1) = [] := by
      apply List.drop_of_length_le
      by_cases h0 : T.length = 0
      · omega
      · have : tm.cno = T.length - 1 := by
          by_contra hne
          exact hc ⟨h0, hne⟩
        omega
    rw [hd, List.append_nil]
    exact h

/-- C2: in character mode, for `fm.lno < tm.lno`, the end not treated as
end-of-file and `tm.cno` inside the last line `T` (or `T` empty), a del that
returns 0 with no interrupt found leaves: the lines before `fm.lno` unchanged,
then the first `fm.cno` bytes of the first line `F` followed by the bytes of `T`
after `tm.cno`, then the lines after `tm.lno` unchanged; the lines
`fm.lno + 1 .. tm.lno` were deleted, from `tm.lno` down. -/
theorem del_multi_line_join (ic : Nat) (intr : Nat → Bool) (tmpNull : Bool) (sp sp1 : SCR) (fm tm : MARK)
    (F T : Line) (hlt : fm.lno < tm.lno)
    (hF : db_get sp fm.lno = some F) (hT : db_get sp tm.lno = some T)
    (hTsz : T.length ≤ SIZE_MAX)
    (hneof : delIsEof sp tm sp.lines.length = some false)
    (hto : tm.cno < T.length ∨ T = [])
    (hno : ∀ m, fm.lno < m → m ≤ tm.lno → ¬ (m % ic = 0 ∧ intr m = true))
    (hok : del ic intr tmpNull sp fm tm 0 = some (0, sp1)) :
    sp1.lines = sp.lines.take (fm.lno - 1)
        ++ (F.take fm.cno ++ T.drop (tm.cno + 1)) :: sp.lines.drop tm.lno ∧
      sp1.deleted = sp.deleted ++ (List.range' (fm.lno + 1) (tm.lno - fm.lno)).reverse := by
  obtain ⟨hf0, _, _⟩ := db_get_eq_some hF
  obtain ⟨_, ht1, _⟩ := db_get_eq_some hT
  unfold del at hok
  rw [if_neg (by simp)] at hok
  simp only [db_last, hneof] at hok
  unfold delInner at hok
  rw [if_neg (by omega)] at hok
  have h1 := delMultiTail_inside ic intr sp sp1 fm tm T _ hT hTsz hto
    (delMulti_head ic intr sp sp1 fm tm F hF hok)
  rw [delMultiSet_run ic intr sp fm tm _ (by omega) (by omega) ht1 hno] at h1
  simp only [Option.some.injEq, Prod.mk.injEq, true_and] at h1
  subst h1
  exact ⟨rfl, rfl⟩

theorem del_multi_line_join_witness :
    (del 100 noIntr false (mkSCR [[1, 2, 3, 4, 5], [6, 7, 8], [9, 10, 11], [12]]) ⟨1, 2⟩ ⟨3, 0⟩ 0
        = some (0, ⟨[[1, 2, 10, 11], [12]], 2, [], [3, 2]⟩)) ∧
      [[1, 2, 10, 11], [12]] =
        (mkSCR [[1, 2, 3, 4, 5], [6, 7, 8], [9, 10, 11], [12]]).lines.take (1 - 1)
          ++ ([1, 2, 3, 4, 5].take 2 ++ [9, 10, 11].drop (0 + 1))
            :: (mkSCR [[1, 2, 3, 4, 5], [6, 7, 8], [9, 10, 11], [12]]).lines.drop 3 ∧
      [3, 2] = (mkSCR [[1, 2, 3, 4, 5], [6, 7, 8], [9, 10, 11], [12]]).deleted
        ++ (List.range' (1 + 1) (3 - 1)).reverse :=
  ⟨by decide, del_multi_line_join 100 noIntr false
    (mkSCR [[1, 2, 3, 4, 5], [6, 7, 8], [9, 10, 11], [12]]) ⟨[[1, 2, 10, 11], [12]], 2, [], [3, 2]⟩
    ⟨1, 2⟩ ⟨3, 0⟩ [1, 2, 3, 4, 5] [9, 10, 11] (by decide) (by decide) (by decide) (by decide)
    (by decide) (by decide) (by simp [noIntr]) (by decide)⟩


theorem take_drop_set (l : List Line) (f t : Nat) (b : Line) (hf : 1 ≤ f) (hft : f ≤ t)
    (ht : t ≤ l.length) :
    (List.take f l ++ List.drop t l).set (f - 1) b = l.take (f - 1) ++ b :: l.drop t := by
  have hlen : (List.take f l).length = f := by simp; omega
  rw [List.set_append_left _ _ (by omega), List.set_eq_take_cons_drop b (by omega),
    List.take_take, List.append_assoc]
  have e2 : f - 1 + 1 = f := by omega
  rw [e2, List.drop_of_length_le (by omega), Nat.min_eq_left (by omega)]
  rfl

theorem take_drop_get (l : List Line) (f t : Nat) (hf : 1 ≤ f) (ht : f ≤ l.length) :
    (List.take f l ++ List.drop t l).get? (f - 1) = l.get? (f - 1) := by
  have hlen : (List.take f l).length = f := by simp; omega
  rw [List.get?_eq_getElem?, List.get?_eq_getElem?, List.getElem?_append_left (by omega),
    List.getElem?_take_of_lt (by omega)]

/-- A successful delete-to-end-of-file with no interrupt found: the lines after
`fm.lno` up to `tm.lno` are gone and line `fm.lno` is cut to `fm.cno` bytes. -/
theorem delEof_success (ic : Nat) (intr : Nat → Bool) (tmpNull : Bool) (sp sp1 : SCR) (fm tm : MARK)
    (h2 : fm.lno ≤ tm.lno) (h3 : tm.lno ≤ sp.lines.length)
    (hno : ∀ m, fm.lno < m → m ≤ tm.lno → ¬ (m % ic = 0 ∧ intr m = true))
    (h : delEof ic intr tmpNull sp fm tm = some (0, sp1)) :
    ∃ F, db_get sp fm.lno = some F ∧ fm.cno ≤ F.length ∧
      sp1 = { lines := sp.lines.take (fm.lno - 1) ++ F.take fm.cno :: sp.lines.drop tm.lno,
              rptDeleted := sp.rptDeleted + (tm.lno - fm.lno),
              msgs := sp.msgs,
              deleted := sp.deleted ++ (List.range' (fm.lno + 1) (tm.lno - fm.lno)).reverse } := by
  unfold delEof at h
  rw [delLinesGt_run ic intr fm.lno fm.lno tm.lno sp (le_refl _) h2 h3
    (fun m hm1 hm2 => hno m (by omega) hm2) (Or.inl rfl)] at h
  simp only at h
  by_cases hf0 : fm.lno = 0
  · simp [db_get, hf0] at h
  · have hget : ∀ (r : Nat) (ms : List String) (ds : List Nat),
        db_get { lines := sp.lines.take fm.lno ++ sp.lines.drop tm.lno, rptDeleted := r,
                 msgs := ms, deleted := ds } fm.lno = db_get sp fm.lno := by
      intro r ms ds
      unfold db_get
      rw [if_neg hf0, if_neg hf0]
      exact take_drop_get sp.lines fm.lno tm.lno (by omega) (by omega)
    rw [hget] at h
    cases hF : db_get sp fm.lno with
    | none => rw [hF] at h; simp at h
    | some F =>
      rw [hF] at h
      simp only at h
      by_cases hg : GET_SPACE_RET tmpNull fm.cno = true
      · rw [if_pos hg] at h
        simp at h
      rw [if_neg hg] at h
      by_cases hlen : fm.cno ≤ F.length
      · rw [memRead_eq (by omega)] at h
        simp only [List.drop_zero] at h
        rw [db_set_eq _ (by omega) (by simp; omega)] at h
        simp only [Option.some.injEq, Prod.mk.injEq, true_and, withLines] at h
        rw [take_drop_set sp.lines fm.lno tm.lno _ (by omega) h2 h3] at h
        exact ⟨F, rfl, hlen, h.symm⟩
      · simp [memRead, hlen] at h


theorem delMultiTail_success_set (ic : Nat) (intr : Nat → Bool) (sp sp1 : SCR) (fm tm : MARK)
    (bp : Line) (h : delMultiTail ic intr sp fm tm bp = some (0, sp1)) :
    ∃ bp1, delMultiSet ic intr sp fm tm bp1 = some (0, sp1) := by
  unfold delMultiTail at h
  split at h
  · exact absurd h (by simp)
  · simp only at h
    split at h
    · split at h
      · exact absurd h (by simp)
      · split at h
        · exact absurd h (by simp)
        · exact ⟨_, h⟩
    · exact ⟨_, h⟩

theorem delMulti_success_set (ic : Nat) (intr : Nat → Bool) (sp sp1 : SCR) (fm tm : MARK)
    (h : delMulti ic intr sp fm tm = some (0, sp1)) :
    ∃ bp1, delMultiSet ic intr sp fm tm bp1 = some (0, sp1) := by
  unfold delMulti at h
  split at h
  · split at h
    · exact absurd h (by simp)
    · split at h
      · exact absurd h (by simp)
      · split at h
        · exact absurd h (by simp)
        · exact delMultiTail_success_set ic intr sp sp1 fm tm _ h
  · exact delMultiTail_success_set ic intr sp sp1 fm tm _ h

theorem delMultiSet_success_pos (ic : Nat) (intr : Nat → Bool) (sp sp1 : SCR) (fm tm : MARK)
    (bp : Line) (h : delMultiSet ic intr sp fm tm bp = some (0, sp1)) : 1 ≤ fm.lno := by
  by_contra hf
  have hf0 : fm.lno = 0 := by omega
  simp [delMultiSet, db_set, hf0] at h

/-- C3: in character mode, for `fm.lno < tm.lno ≤ last line`, a del that returns
0 with no interrupt found leaves `original_count - (tm.lno - fm.lno)` lines, on
the delete-to-end-of-file path and on the multi-line path alike. -/
theorem del_multi_line_count (ic : Nat) (intr : Nat → Bool) (tmpNull : Bool) (sp sp1 : SCR) (fm tm : MARK)
    (hlt : fm.lno < tm.lno) (h3 : tm.lno ≤ sp.lines.length)
    (hno : ∀ m, fm.lno < m → m ≤ tm.lno → ¬ (m % ic = 0 ∧ intr m = true))
    (hok : del ic intr tmpNull sp fm tm 0 = some (0, sp1)) :
    sp1.lines.length + (tm.lno - fm.lno) = sp.lines.length := by
  unfold del at hok
  rw [if_neg (by simp)] at hok
  simp only [db_last] at hok
  split at hok
  · exact absurd hok (by simp)
  · obtain ⟨F, hF, _, hsp⟩ := delEof_success ic intr tmpNull sp sp1 fm tm (by omega) h3 hno hok
    obtain ⟨hf0, _, _⟩ := db_get_eq_some hF
    subst hsp
    simp only [List.length_append, List.length_take, List.length_cons, List.length_drop]
    omega
  · unfold delInner at hok
    rw [if_neg (by omega)] at hok
    obtain ⟨bp, hbp⟩ := delMulti_success_set ic intr sp sp1 fm tm hok
    have hf0 := delMultiSet_success_pos ic intr sp sp1 fm tm bp hbp
    rw [delMultiSet_run ic intr sp fm tm bp hf0 (by omega) h3 hno] at hbp
    simp only [Option.some.injEq, Prod.mk.injEq, true_and] at hbp
    subst hbp
    simp only [List.length_append, List.length_take, List.length_cons, List.length_drop]
    omega

theorem del_multi_line_count_witness :
    (del 100 noIntr false (mkSCR [[1, 2, 3], [4, 5], [6, 7], [8]]) ⟨1, 1⟩ ⟨3, 0⟩ 0
        = some (0, ⟨[[1, 7], [8]], 2, [], [3, 2]⟩) ∧
      [[1, 7], [8]].length + (3 - 1) = (mkSCR [[1, 2, 3], [4, 5], [6, 7], [8]]).lines.length) ∧
    (del 100 noIntr false (mkSCR [[1, 2, 3], [4, 5], [6, 7], [8]]) ⟨2, 1⟩ ⟨4, 1⟩ 0
        = some (0, ⟨[[1, 2, 3], [4]], 2, [], [4, 3]⟩) ∧
      [[1, 2, 3], [4]].length + (4 - 2) = (mkSCR [[1, 2, 3], [4, 5], [6, 7], [8]]).lines.length) :=
  ⟨⟨by decide, del_multi_line_count 100 noIntr false (mkSCR [[1, 2, 3], [4, 5], [6, 7], [8]])
      ⟨[[1, 7], [8]], 2, [], [3, 2]⟩ ⟨1, 1⟩ ⟨3, 0⟩ (by decide) (by decide)
      (by simp [noIntr]) (by decide)⟩,
   ⟨by decide, del_multi_line_count 100 noIntr false (mkSCR [[1, 2, 3], [4, 5], [6, 7], [8]])
      ⟨[[1, 2, 3], [4]], 2, [], [4, 3]⟩ ⟨2, 1⟩ ⟨4, 1⟩ (by decide) (by decide)
      (by simp [noIntr]) (by decide)⟩⟩

theorem delLinesGt_past_end (ic : Nat) (intr : Nat → Bool) (lo hi : Nat) (sp : SCR)
    (h1 : lo < hi) (h2 : sp.lines.length < hi) : delLinesGt ic intr lo hi sp = (1, sp) := by
  cases hi with
  | zero => omega
  | succ n =>
    unfold delLinesGt
    rw [if_neg (by omega)]
    simp [db_delete, h2]

/-- C4, as stated, fails for `tm.cno = (size_t)-1`: that column is at least the
length of the last line, yet `del` does not take the end-of-file path and, with
`fm.cno = 0`, returns 0 leaving the line as it was. -/
theorem del_to_eof_counterexample :
    [1, 2, 3].length ≤ SIZE_MAX ∧
    del 100 noIntr false (mkSCR [[1, 2, 3]]) ⟨1, 0⟩ ⟨1, SIZE_MAX⟩ 0 = some (0, mkSCR [[1, 2, 3]]) ∧
    db_get (mkSCR [[1, 2, 3]]) 1 ≠ some ([1, 2, 3].take 0) := by
  decide

/-- C4 (amended): in character mode, when the end of the range is at or past the
end of the file (`tm.lno` is the last line with `tm.cno` at least its length and
not `(size_t)-1`, or `tm.lno` is beyond the last line), a del that returns 0 with
no interrupt found leaves `fm.lno` as the last line, holding exactly the first
`fm.cno` bytes of the original line `F`. -/
theorem del_to_eof_truncates (ic : Nat) (intr : Nat → Bool) (tmpNull : Bool) (sp sp1 : SCR) (fm tm : MARK)
    (F : Line) (hF : db_get sp fm.lno = some F)
    (heof : (tm.lno = sp.lines.length ∧
              ∃ T, db_get sp tm.lno = some T ∧ T.length ≤ tm.cno ∧ tm.cno ≠ SIZE_MAX) ∨
            sp.lines.length < tm.lno)
    (hno : ∀ m, fm.lno < m → m ≤ tm.lno → ¬ (m % ic = 0 ∧ intr m = true))
    (hok : del ic intr tmpNull sp fm tm 0 = some (0, sp1)) :
    sp1.lines.length = fm.lno ∧ db_get sp1 fm.lno = some (F.take fm.cno) ∧
      fm.cno ≤ F.length := by
  obtain ⟨hf0, hf1, _⟩ := db_get_eq_some hF
  unfold del at hok
  rw [if_neg (by simp)] at hok
  simp only [db_last] at hok
  rcases heof with ⟨hlast, T, hT, hcol, hsent⟩ | hbeyond
  · have he : delIsEof sp tm sp.lines.length = some true := by
      unfold delIsEof
      rw [if_pos (by omega), if_pos hlast, ← hlast, hT]
      simp only [Option.some.injEq, decide_eq_true_eq]
      exact ⟨hsent, hcol⟩
    rw [he] at hok
    simp only at hok
    obtain ⟨F1, hF1, hlen, hsp⟩ := delEof_success ic intr tmpNull sp sp1 fm tm (by omega) (by omega) hno hok
    rw [hF] at hF1
    cases hF1
    subst hsp
    have htake : (List.take (fm.lno - 1) sp.lines).length = fm.lno - 1 := by simp; omega
    refine ⟨?_, ?_, hlen⟩
    · simp only [List.length_append, List.length_cons, List.length_drop, htake]
      omega
    · unfold db_get
      rw [if_neg (by omega), List.get?_eq_getElem?]
      simp only
      rw [List.getElem?_append_right (by omega), htake]
      simp
  · have he : delIsEof sp tm sp.lines.length = some true := by
      unfold delIsEof
      rw [if_pos (by omega), if_neg (by omega)]
    rw [he] at hok
    simp only at hok
    unfold delEof at hok
    rw [delLinesGt_past_end ic intr fm.lno tm.lno sp (by omega) hbeyond] at hok
    simp at hok

theorem del_to_eof_truncates_witness :
    del 100 noIntr false (mkSCR [[1, 2, 3], [4, 5], [6, 7]]) ⟨1, 2⟩ ⟨3, 2⟩ 0
        = some (0, ⟨[[1, 2]], 2, [], [3, 2]⟩) ∧
      ([[1, 2]].length = 1 ∧
        db_get ⟨[[1, 2]], 2, [], [3, 2]⟩ 1 = some ([1, 2, 3].take 2) ∧ 2 ≤ [1, 2, 3].length) :=
  ⟨by decide, del_to_eof_truncates 100 noIntr false (mkSCR [[1, 2, 3], [4, 5], [6, 7]])
    ⟨[[1, 2]], 2, [], [3, 2]⟩ ⟨1, 2⟩ ⟨3, 2⟩ [1, 2, 3] (by decide)
    (Or.inl ⟨by decide, [6, 7], by decide, by decide, by decide⟩)
    (by simp [noIntr]) (by decide)⟩


/-- C7, as stated, fails: the line-length check and a failing LineStore
operation make `del` return the same value 1 (first two parts; in the second,
`db_delete` fails on line 5 of a 3-line file); and with an empty last line
`tm.cno + 1` exceeds its length, yet `del` returns 0 (third part). -/
theorem del_overflow_counterexample :
    del 100 noIntr false (mkSCR [[1, 2, 3], [4, 5], [6]]) ⟨1, 0⟩ ⟨2, 5⟩ 0
      = some (1, ⟨[[1, 2, 3], [4, 5], [6]], 0, ["Line length overflow"], []⟩) ∧
    del 100 noIntr false (mkSCR [[1, 2, 3], [4, 5], [6]]) ⟨1, 0⟩ ⟨5, 0⟩ 0
      = some (1, mkSCR [[1, 2, 3], [4, 5], [6]]) ∧
    del 100 noIntr false (mkSCR [[1, 2, 3], [], [6]]) ⟨1, 1⟩ ⟨2, 0⟩ 0
      = some (0, ⟨[[1], [6]], 1, [], [2]⟩) := by
  decide

/-- C7 (amended): in a character-mode del over several lines that is not a
delete to end-of-file and has copied its first partial line, when
`tm.cno + 1` exceeds the length of the non-empty last line `T`, or the kept
suffix of `T` is longer than `SIZE_MAX - fm.cno`, `del` queues the message
"Line length overflow" and returns 1 (the value it also returns when a
LineStore operation fails), leaving the lines and the counter untouched. -/
theorem del_overflow_fails (ic : Nat) (intr : Nat → Bool) (tmpNull : Bool) (sp : SCR) (fm tm : MARK) (T : Line)
    (hlt : fm.lno < tm.lno) (hT : db_get sp tm.lno = some T) (hTsz : T.length ≤ SIZE_MAX)
    (hcno : tm.cno < SIZE_MAX)
    (hneof : delIsEof sp tm sp.lines.length = some false)
    (hhead : fm.cno = 0 ∨
      ∃ F, db_get sp fm.lno = some F ∧ fm.cno ≤ F.length ∧ fm.cno + 256 ≤ SIZE_MAX)
    (hov : (T ≠ [] ∧ T.length < tm.cno + 1) ∨ T.length - (tm.cno + 1) > SIZE_MAX - fm.cno) :
    del ic intr tmpNull sp fm tm 0 = some (1, msgq sp "Line length overflow") := by
  have e1 : szAdd tm.cno 1 = tm.cno + 1 := szAdd_eq (by omega)
  have hlen : T.length ≠ 0 := by
    rcases hov with ⟨h, _⟩ | h
    · simpa using h
    · omega
  have hne : tm.cno ≠ T.length - 1 := by
    rcases hov with ⟨_, h⟩ | h <;> omega
  have htail : ∀ bp, delMultiTail ic intr sp fm tm bp
      = some (1, msgq sp "Line length overflow") := by
    intro bp
    unfold delMultiTail
    rw [hT]
    simp only
    rw [if_pos ⟨hlen, hne⟩, e1, if_pos]
    rcases hov with ⟨_, h⟩ | h
    · exact Or.inl h
    · by_cases hle : T.length < tm.cno + 1
      · exact Or.inl hle
      · right
        rw [szSub_eq (by omega) hTsz]
        exact h
  unfold del
  rw [if_neg (by simp)]
  simp only [db_last, hneof]
  unfold delInner
  rw [if_neg (by omega)]
  unfold delMulti
  rcases hhead with h0 | ⟨F, hF, hFlen, hcap⟩
  · rw [if_neg (by simpa using h0)]
    exact htail _
  · by_cases h0 : fm.cno = 0
    · rw [if_neg (by simpa using h0)]
      exact htail _
    · rw [if_pos h0, hF]
      simp only
      rw [szAdd_eq hcap, if_neg (by omega), memRead_eq (by omega)]
      exact htail _

theorem del_overflow_fails_witness :
    del 100 noIntr false (mkSCR [[1, 2, 3], [4, 5], [6]]) ⟨1, 2⟩ ⟨2, 5⟩ 0
      = some (1, msgq (mkSCR [[1, 2, 3], [4, 5], [6]]) "Line length overflow") :=
  del_overflow_fails 100 noIntr false (mkSCR [[1, 2, 3], [4, 5], [6]]) ⟨1, 2⟩ ⟨2, 5⟩ [4, 5]
    (by decide) (by decide) (by decide) (by decide) (by decide)
    (Or.inr ⟨[1, 2, 3], by decide, by decide, by decide⟩)
    (Or.inl ⟨by decide, by decide⟩)


/-! ## The event queue as a list -/

theorem blit_eq {arr : List EVENT} {pos : Nat} {xs : List EVENT}
    (h : pos + xs.length ≤ arr.length) :
    blit arr pos xs = some (arr.take pos ++ xs ++ arr.drop (pos + xs.length)) := by
  simp [blit, h]

theorem blit_length {arr : List EVENT} {pos : Nat} {xs : List EVENT}
    (h : pos + xs.length ≤ arr.length) :
    (arr.take pos ++ xs ++ arr.drop (pos + xs.length)).length = arr.length := by
  simp only [List.length_append, List.length_take, List.length_drop]
  omega

theorem drop_take_append (arr ys : List EVENT) (pos : Nat) (h : pos ≤ arr.length) :
    List.drop pos (arr.take pos ++ ys) = ys := by
  have hlen : (arr.take pos).length = pos := by simp; omega
  rw [List.drop_append_of_le_length (by omega), List.drop_of_length_le (by omega)]
  rfl

theorem take_len_append (xs ys : List EVENT) (k : Nat) :
    List.take (xs.length + k) (xs ++ ys) = xs ++ List.take k ys := by
  rw [List.take_append]

theorem view_length {gp : GS} (h : gp.wf) : gp.view.length = gp.i_cnt := by
  obtain ⟨h1, h2, _⟩ := h
  simp only [GS.view, List.length_take, List.length_drop]
  omega

/-- Storing `xs` at slot `pos` and reading `xs.length + k` events from there
gives `xs` followed by the `k` events that were behind them. -/
theorem view_after_blit (arr xs : List EVENT) (pos k : Nat)
    (h : pos + xs.length ≤ arr.length) :
    List.take (xs.length + k)
        (List.drop pos (arr.take pos ++ xs ++ arr.drop (pos + xs.length)))
      = xs ++ List.take k (arr.drop (pos + xs.length)) := by
  rw [List.append_assoc, drop_take_append arr _ pos (by omega), take_len_append]

theorem v_event_push_copy_view (gp : GS) (items : List EVENT)
    (hlen : gp.i_event.length = gp.i_nelem)
    (h : gp.i_next + items.length + gp.i_cnt ≤ gp.i_nelem) :
    ∃ gp1, v_event_push_copy gp items = some (0, gp1) ∧
      gp1.view = items ++ List.take gp.i_cnt (gp.i_event.drop (gp.i_next + items.length)) ∧
      gp1.i_event.length = gp1.i_nelem ∧ gp1.i_nelem = gp.i_nelem ∧
      gp1.i_next = gp.i_next ∧ gp1.i_cnt = gp.i_cnt + items.length ∧
      gp1.interrupted = gp.interrupted ∧ gp1.scr_log = gp.scr_log ∧
      gp1.synced = gp.synced := by
  have hb : gp.i_next + items.length ≤ gp.i_event.length := by omega
  unfold v_event_push_copy
  rw [blit_eq hb]
  refine ⟨_, rfl, ?_, ?_, rfl, rfl, rfl, rfl, rfl, rfl⟩
  · simp only [GS.view]
    rw [Nat.add_comm gp.i_cnt items.length]
    exact view_after_blit gp.i_event items gp.i_next gp.i_cnt hb
  · simp only
    rw [blit_length hb, hlen]



theorem take_drop_append_left (arr pad : List EVENT) (pos k : Nat) (h : pos + k ≤ arr.length) :
    List.take k (List.drop pos (arr ++ pad)) = List.take k (List.drop pos arr) := by
  rw [List.drop_append_of_le_length (by omega), List.take_append_of_le_length]
  simp only [List.length_drop]
  omega

/-- Pushing onto a queue that satisfies the invariants succeeds, puts the items
in front of the queued events in their given order, and keeps the invariants. -/
theorem v_event_push_view (kv : Nat → e_key_t) (gp : GS) (p_evp : Option (List EVENT))
    (p_s : List Nat) (flags : ChFlags) (hwf : gp.wf) :
    ∃ gp1, v_event_push kv gp p_evp p_s flags = some (0, gp1) ∧
      gp1.view = pushItems kv p_evp p_s flags ++ gp.view ∧ gp1.wf ∧
      gp1.interrupted = gp.interrupted ∧ gp1.scr_log = gp.scr_log ∧
      gp1.synced = gp.synced ∧
      gp1.i_nelem ≤ 2 * gp.i_nelem + (pushItems kv p_evp p_s flags).length + 94 := by
  obtain ⟨hlen, hwin, hzero⟩ := hwf
  unfold v_event_push
  generalize pushItems kv p_evp p_s flags = items
  simp only
  by_cases hc : items.length ≤ gp.i_next ∨
      (gp.i_event ≠ [] ∧ gp.i_cnt = 0 ∧ items.length ≤ gp.i_nelem)
  · rw [if_pos hc]
    by_cases hcnt : gp.i_cnt = 0
    · rw [if_neg (by simpa using hcnt)]
      have hnext := hzero hcnt
      obtain ⟨gp1, h1, h2, h3, h4, h5, h6, h7, h8, h9⟩ :=
        v_event_push_copy_view gp items hlen (by rcases hc with h | ⟨_, _, h⟩ <;> omega)
      refine ⟨gp1, h1, ?_, ⟨h3, by omega, fun h0 => by omega⟩, h7, h8, h9, by omega⟩
      rw [h2, hcnt]
      simp [GS.view, hcnt]
    · rw [if_pos hcnt]
      have hn : items.length ≤ gp.i_next := by
        rcases hc with h | ⟨_, h, _⟩
        · exact h
        · exact absurd h hcnt
      obtain ⟨gp1, h1, h2, h3, h4, h5, h6, h7, h8, h9⟩ :=
        v_event_push_copy_view { gp with i_next := gp.i_next - items.length } items hlen
          (by simp only; omega)
      refine ⟨gp1, h1, ?_, ⟨h3, by simp only at h4 h5 h6; omega,
        fun h0 => by simp only at h6; omega⟩, h7, h8, h9, by simp only at h4; omega⟩
      rw [h2]
      simp only [GS.view]
      rw [Nat.sub_add_cancel hn]
  · rw [if_neg hc]
    have hn : gp.i_next < items.length := by
      by_contra h
      exact hc (Or.inl (by omega))
    -- the array after the optional v_event_grow
    obtain ⟨pad, hgp1, hroom, hpad⟩ : ∃ pad : List EVENT,
        (if gp.i_cnt + gp.i_next + items.length + TERM_PUSH_SHIFT ≥ gp.i_nelem then
            v_event_grow gp (max (gp.i_cnt + gp.i_next + items.length + TERM_PUSH_SHIFT) 64)
          else gp)
          = { gp with i_event := gp.i_event ++ pad, i_nelem := gp.i_nelem + pad.length } ∧
        TERM_PUSH_SHIFT + items.length + gp.i_cnt ≤ gp.i_nelem + pad.length ∧
        pad.length ≤ gp.i_nelem + items.length + 94 := by
      by_cases hg : gp.i_cnt + gp.i_next + items.length + TERM_PUSH_SHIFT ≥ gp.i_nelem
      · refine ⟨List.replicate (max (gp.i_cnt + gp.i_next + items.length + TERM_PUSH_SHIFT) 64)
          EVENT.zero, ?_, ?_⟩
        · rw [if_pos hg]
          simp [v_event_grow]
        · simp only [List.length_replicate, TERM_PUSH_SHIFT]
          omega
      · refine ⟨[], ?_, ?_⟩
        · rw [if_neg hg]
          simp
        · simp only [List.length_nil]
          omega
    rw [hgp1]
    simp only
    have hlen1 : (gp.i_event ++ pad).length = gp.i_nelem + pad.length := by
      simp [hlen]
    have hview1 : List.take gp.i_cnt (List.drop gp.i_next (gp.i_event ++ pad)) = gp.view :=
      take_drop_append_left gp.i_event pad gp.i_next gp.i_cnt (by omega)
    have hvlen : gp.view.length = gp.i_cnt := view_length ⟨hlen, hwin, hzero⟩
    by_cases hcnt : gp.i_cnt = 0
    · rw [if_neg (by simpa using hcnt)]
      simp only
      obtain ⟨gp1, h1, h2, h3, h4, h5, h6, h7, h8, h9⟩ :=
        v_event_push_copy_view
          { gp with i_event := gp.i_event ++ pad,
                    i_nelem := gp.i_nelem + pad.length,
                    i_next := TERM_PUSH_SHIFT }
          items hlen1 (by simp only; omega)
      refine ⟨gp1, h1, ?_, ⟨h3, by simp only at h4 h5 h6; omega,
        fun h0 => by simp only at h6; omega⟩, h7, h8, h9, by simp only at h4; omega⟩
      rw [h2]
      simp [GS.view, hcnt]
    · rw [if_pos hcnt, hview1]
      have hb : TERM_PUSH_SHIFT + items.length + gp.view.length ≤ (gp.i_event ++ pad).length := by
        rw [hlen1, hvlen]
        exact hroom
      rw [blit_eq hb]
      simp only
      obtain ⟨gp1, h1, h2, h3, h4, h5, h6, h7, h8, h9⟩ :=
        v_event_push_copy_view
          { gp with i_event := List.take (TERM_PUSH_SHIFT + items.length) (gp.i_event ++ pad)
                      ++ gp.view
                      ++ List.drop (TERM_PUSH_SHIFT + items.length + gp.view.length)
                          (gp.i_event ++ pad),
                    i_nelem := gp.i_nelem + pad.length,
                    i_next := TERM_PUSH_SHIFT }
          items (by simp only; rw [blit_length hb, hlen1]) (by simp only; omega)
      refine ⟨gp1, h1, ?_, ⟨h3, by simp only at h4 h5 h6; omega,
        fun h0 => by simp only at h6; omega⟩, h7, h8, h9, by simp only at h4; omega⟩
      rw [h2]
      simp only
      rw [List.append_assoc, drop_take_append _ _ _ (by omega), ← hvlen,
        List.take_left']
      rfl



theorem appendItems_length (kv : Nat → e_key_t) (argp : EVENT) :
    (appendItems kv argp).length
      = if argp.e_event = .E_STRING then argp.e_csp.length else 1 := by
  unfold appendItems
  split <;> simp

/-- Appending to a queue that satisfies the invariants succeeds, puts the events
behind the queued ones, and keeps the invariants. -/
theorem v_event_append_view (kv : Nat → e_key_t) (gp : GS) (argp : EVENT) (hwf : gp.wf)
    (hsz : gp.i_nelem ≤ SIZE_MAX) :
    ∃ gp1, v_event_append kv gp argp = some (0, gp1) ∧
      gp1.view = gp.view ++ appendItems kv argp ∧ gp1.wf ∧
      gp1.interrupted = gp.interrupted ∧ gp1.scr_log = gp.scr_log ∧
      gp1.synced = gp.synced ∧
      gp1.i_nelem ≤ gp.i_nelem + (appendItems kv argp).length + 64 := by
  obtain ⟨hlen, hwin, hzero⟩ := hwf
  unfold v_event_append
  rw [← appendItems_length kv argp]
  generalize appendItems kv argp = items
  simp only
  obtain ⟨pad, hgp1, hroom, hpad⟩ : ∃ pad : List EVENT,
      (if gp.i_event = [] ∨ items.length > szSub gp.i_nelem (gp.i_next + gp.i_cnt) then
          v_event_grow gp (max items.length 64)
        else gp)
        = { gp with i_event := gp.i_event ++ pad, i_nelem := gp.i_nelem + pad.length } ∧
      gp.i_next + gp.i_cnt + items.length ≤ gp.i_nelem + pad.length ∧
      pad.length ≤ items.length + 64 := by
    by_cases hg : gp.i_event = [] ∨ items.length > szSub gp.i_nelem (gp.i_next + gp.i_cnt)
    · refine ⟨List.replicate (max items.length 64) EVENT.zero, ?_, ?_⟩
      · rw [if_pos hg]
        simp [v_event_grow]
      · simp only [List.length_replicate]
        omega
    · refine ⟨[], ?_, ?_⟩
      · rw [if_neg hg]
        simp
      · have h2 : ¬ items.length > szSub gp.i_nelem (gp.i_next + gp.i_cnt) :=
          fun h => hg (Or.inr h)
        rw [szSub_eq hwin hsz] at h2
        simp only [List.length_nil]
        omega
  rw [hgp1]
  simp only
  have hlen1 : (gp.i_event ++ pad).length = gp.i_nelem + pad.length := by
    simp [hlen]
  have hb : gp.i_next + gp.i_cnt + items.length ≤ (gp.i_event ++ pad).length := by
    rw [hlen1]
    exact hroom
  rw [blit_eq hb]
  have hvlen : gp.view.length = gp.i_cnt := view_length ⟨hlen, hwin, hzero⟩
  refine ⟨_, rfl, ?_, ⟨?_, ?_, ?_⟩, rfl, rfl, rfl, by simp only; omega⟩
  · simp only [GS.view]
    have htl : (List.take (gp.i_next + gp.i_cnt) (gp.i_event ++ pad)).length
        = gp.i_next + gp.i_cnt := by
      simp only [List.length_take]
      omega
    rw [List.append_assoc, List.drop_append_of_le_length (by omega), List.drop_take,
      Nat.add_sub_cancel_left,
      take_drop_append_left gp.i_event pad gp.i_next gp.i_cnt (by omega)]
    have hv : List.take gp.i_cnt (List.drop gp.i_next gp.i_event) = gp.view := rfl
    rw [hv, ← hvlen, take_len_append, List.take_left' rfl]
  · simp only
    rw [blit_length hb, hlen1]
  · simp only
    omega
  · simp only
    intro h0
    exact hzero (by omega)

/-- Removing `len ≤ i_cnt` events from the front drops them from the list and
keeps the invariants. -/
theorem QREM_view (gp : GS) (len : Nat) (hwf : gp.wf) (hsz : gp.i_nelem ≤ SIZE_MAX)
    (hle : len ≤ gp.i_cnt) :
    (QREM gp len).view = gp.view.drop len ∧ (QREM gp len).wf ∧
      (QREM gp len).i_event = gp.i_event ∧ (QREM gp len).i_nelem = gp.i_nelem ∧
      (QREM gp len).i_cnt = gp.i_cnt - len := by
  obtain ⟨hlen, hwin, hzero⟩ := hwf
  have hsub : szSub gp.i_cnt len = gp.i_cnt - len := szSub_eq hle (by omega)
  unfold QREM
  rw [hsub]
  simp only
  by_cases h0 : gp.i_cnt - len = 0
  · rw [if_pos h0]
    refine ⟨?_, ⟨hlen, by simp only; omega, fun _ => rfl⟩, rfl, rfl, rfl⟩
    simp only [GS.view, h0, List.take_zero]
    symm
    apply List.drop_of_length_le
    simp only [List.length_take, List.length_drop]
    omega
  · rw [if_neg h0]
    refine ⟨?_, ⟨hlen, by simp only; omega, fun h => absurd h h0⟩, rfl, rfl, rfl⟩
    simp only [GS.view]
    rw [List.drop_take, List.drop_drop]



theorem view_head (gp : GS) (hwf : gp.wf) (hcnt : gp.i_cnt ≠ 0) :
    gp.i_event.get? gp.i_next = gp.view.head? := by
  obtain ⟨hlen, hwin, _⟩ := hwf
  simp only [GS.view]
  rw [List.head?_take, if_neg hcnt, List.head?_drop, List.get?_eq_getElem?]

/-- C8: on a queue that satisfies its invariants, seen as the list of events at
`i_next .. i_next + i_cnt - 1`: `v_event_push` succeeds and makes the list the
pushed items (in their order) followed by the old list; `v_event_append`
succeeds and makes it the old list followed by the appended events; the event at
the front is the head of the list and `QREM(1)` leaves the tail; all three keep
the invariants, whichever branch (in place, shift, grow) is taken.  Hence on an
empty queue, push `[X]`, append `Y`, then two removals give `X`, then `Y`. -/
theorem event_queue_fifo (kv : Nat → e_key_t) (gp : GS) (hwf : gp.wf)
    (hsz : 2 * gp.i_nelem + 160 ≤ SIZE_MAX) :
    (∀ p_evp p_s flags, ∃ gp1, v_event_push kv gp p_evp p_s flags = some (0, gp1) ∧
        gp1.view = pushItems kv p_evp p_s flags ++ gp.view ∧ gp1.wf) ∧
    (∀ argp, ∃ gp1, v_event_append kv gp argp = some (0, gp1) ∧
        gp1.view = gp.view ++ appendItems kv argp ∧ gp1.wf) ∧
    (gp.i_cnt ≠ 0 → gp.i_event.get? gp.i_next = gp.view.head? ∧
        (QREM gp 1).view = gp.view.tail ∧ (QREM gp 1).wf) ∧
    (∀ X Y : EVENT, gp.i_cnt = 0 → Y.e_event ≠ .E_STRING →
      ∃ gp1 gp2, v_event_push kv gp (some [X]) [] CH_NONE = some (0, gp1) ∧
        v_event_append kv gp1 Y = some (0, gp2) ∧
        gp2.i_event.get? gp2.i_next = some X ∧
        (QREM gp2 1).i_event.get? (QREM gp2 1).i_next = some Y ∧
        (QREM (QREM gp2 1) 1).view = []) := by
  refine ⟨?_, ?_, ?_, ?_⟩
  · intro p_evp p_s flags
    obtain ⟨gp1, h1, h2, h3, _⟩ := v_event_push_view kv gp p_evp p_s flags hwf
    exact ⟨gp1, h1, h2, h3⟩
  · intro argp
    obtain ⟨gp1, h1, h2, h3, _⟩ := v_event_append_view kv gp argp hwf (by omega)
    exact ⟨gp1, h1, h2, h3⟩
  · intro hcnt
    obtain ⟨h1, h2, _⟩ := QREM_view gp 1 hwf (by omega) (by omega)
    exact ⟨view_head gp hwf hcnt, by rw [h1, List.drop_one], h2⟩
  · intro X Y hcnt hY
    have hv0 : gp.view = [] := by simp [GS.view, hcnt]
    obtain ⟨gp1, h1, h2, h3, _, _, _, hb1⟩ := v_event_push_view kv gp (some [X]) [] CH_NONE hwf
    obtain ⟨gp2, k1, k2, k3, _, _, _, hb2⟩ := v_event_append_view kv gp1 Y h3
      (by simp only [pushItems, List.length_singleton] at hb1; omega)
    have hitems : appendItems kv Y = [Y] := by simp [appendItems, hY]
    have hview2 : gp2.view = [X, Y] := by
      rw [k2, h2, hv0, hitems]
      rfl
    have hsz2 : gp2.i_nelem ≤ SIZE_MAX := by
      simp only [pushItems, List.length_singleton] at hb1
      rw [hitems] at hb2
      simp only [List.length_singleton] at hb2
      omega
    have hc2 : gp2.i_cnt = 2 := by rw [← view_length k3, hview2]; rfl
    obtain ⟨q1, q2, q3, q4, q5⟩ := QREM_view gp2 1 k3 hsz2 (by omega)
    have hc3 : (QREM gp2 1).i_cnt = 1 := by omega
    obtain ⟨r1, _⟩ := QREM_view (QREM gp2 1) 1 q2 (by omega) (by omega)
    refine ⟨gp1, gp2, h1, k1, ?_, ?_, ?_⟩
    · rw [view_head gp2 k3 (by omega), hview2]
      rfl
    · rw [view_head (QREM gp2 1) q2 (by omega), q1, hview2]
      rfl
    · rw [r1, q1, hview2]
      rfl

theorem event_queue_fifo_witness :
    (∃ gp1 gp2, v_event_push noKeys gs0 (some [chEvent noKeys CH_NONE 88]) [] CH_NONE
          = some (0, gp1) ∧
        v_event_append noKeys gp1 (chEvent noKeys CH_NONE 89) = some (0, gp2) ∧
        gp2.i_event.get? gp2.i_next = some (chEvent noKeys CH_NONE 88) ∧
        (QREM gp2 1).i_event.get? (QREM gp2 1).i_next = some (chEvent noKeys CH_NONE 89) ∧
        (QREM (QREM gp2 1) 1).view = []) ∧
    (qabc.i_event.get? qabc.i_next = qabc.view.head? ∧
        (QREM qabc 1).view = qabc.view.tail ∧ (QREM qabc 1).wf) :=
  ⟨(event_queue_fifo noKeys gs0 ⟨rfl, by decide, fun _ => rfl⟩ (by decide)).2.2.2
      (chEvent noKeys CH_NONE 88) (chEvent noKeys CH_NONE 89) rfl (by decide),
   (event_queue_fifo noKeys qabc ⟨by decide, by decide, by decide⟩ (by decide)).2.2.1
      (by decide)⟩

/-- C9, the code at the failing input and at the example of the design document.
With remap off, the queue `a b c` (as `v_event_append` builds it) and the
binding `ab -> X`, `v_event_get` returns the unmapped `a` through the pointer
`evp` taken before the push, and leaves only `c` queued: `X` is never returned.
With the binding `ab -> XY`, where output and input have the same length, the
three calls return `X`, `Y`, `c`. -/
theorem v_event_get_noremap_stale_evp :
    v_event_append noKeys gs0 (strEvent [97, 98, 99]) = some (0, qabc) ∧
    (v_event_get (mapEnv [⟨.SEQ_COMMAND, [97, 98], some [88]⟩] false) 10 qabc EVENT.zero 0
        EC_MAPCOMMAND).event? = some (chEvent noKeys CH_NONE 97) ∧
    (v_event_get (mapEnv [⟨.SEQ_COMMAND, [97, 98], some [88]⟩] false) 10 qabc EVENT.zero 0
        EC_MAPCOMMAND).chars? = some [99] ∧
    (v_event_get (mapEnv [⟨.SEQ_COMMAND, [97, 98], some [88, 89]⟩] false) 10 qabc EVENT.zero 0
        EC_MAPCOMMAND).event? = some (chEvent noKeys (CH_MAPPED.or CH_NOMAP) 88) ∧
    (v_event_get (mapEnv [⟨.SEQ_COMMAND, [97, 98], some [88, 89]⟩] false) 10
        (v_event_get (mapEnv [⟨.SEQ_COMMAND, [97, 98], some [88, 89]⟩] false) 10 qabc
          EVENT.zero 0 EC_MAPCOMMAND).gs EVENT.zero 0
        EC_MAPCOMMAND).event? = some (chEvent noKeys (CH_MAPPED.or CH_NOMAP) 89) ∧
    (v_event_get (mapEnv [⟨.SEQ_COMMAND, [97, 98], some [88, 89]⟩] false) 10
        (v_event_get (mapEnv [⟨.SEQ_COMMAND, [97, 98], some [88, 89]⟩] false) 10
          (v_event_get (mapEnv [⟨.SEQ_COMMAND, [97, 98], some [88, 89]⟩] false) 10 qabc
            EVENT.zero 0 EC_MAPCOMMAND).gs EVENT.zero 0 EC_MAPCOMMAND).gs EVENT.zero 0
        EC_MAPCOMMAND).event? = some (chEvent noKeys CH_NONE 99) := by
  refine ⟨by decide, by decide, by decide, by decide, by decide, by decide⟩



/-! ## Expansion of a binding that begins with its own input -/

theorem foldl_seqLonger_mem (l : List SEQ) :
    ∀ (init : Option SEQ) (q : SEQ), l.foldl seqLonger init = some q → q ∈ l ∨ init = some q := by
  induction l with
  | nil =>
    intro init q h
    exact Or.inr h
  | cons a t ih =>
    intro init q h
    rw [List.foldl_cons] at h
    rcases ih _ _ h with h1 | h1
    · exact Or.inl (List.mem_cons_of_mem _ h1)
    · unfold seqLonger at h1
      cases init with
      | none =>
        simp only [Option.some.injEq] at h1
        exact Or.inl (by rw [← h1]; exact List.mem_cons_self _ _)
      | some b =>
        simp only at h1
        split at h1
        · simp only [Option.some.injEq] at h1
          exact Or.inl (by rw [← h1]; exact List.mem_cons_self _ _)
        · exact Or.inr h1

/-- A binding that `seq_find` returns has a non-empty input that the queued
characters begin with. -/
theorem seq_find_some (seqq : List SEQ) (evs : List EVENT) (stype : seq_t) (qp : SEQ)
    (b : Bool) (h : seq_find seqq evs stype = (some qp, b)) :
    qp.input ≠ [] ∧ qp.input <+: evs.map EVENT.e_c ∧ qp.stype = stype ∧ qp ∈ seqq := by
  unfold seq_find at h
  simp only at h
  split at h
  · rename_i q hq
    simp only [Prod.mk.injEq, Option.some.injEq] at h
    obtain ⟨hq1, _⟩ := h
    subst hq1
    rcases foldl_seqLonger_mem _ _ _ hq with hm | hm
    · rw [List.mem_filter] at hm
      obtain ⟨hmem, hp⟩ := hm
      simp only [Bool.and_eq_true, decide_eq_true_eq, Bool.not_eq_true', List.isEmpty_eq_false,
        List.isPrefixOf_iff_prefix] at hp
      exact ⟨hp.1.2, hp.2, hp.1.1, hmem⟩
    · exact absurd hm (by simp)
  · simp at h

theorem prefix_take_map (input : List Nat) (view : List EVENT)
    (h : input <+: view.map EVENT.e_c) :
    input.length ≤ view.length ∧ (view.take input.length).map EVENT.e_c = input := by
  obtain ⟨t, ht⟩ := h
  have hl : (view.map EVENT.e_c).length = input.length + t.length := by
    rw [← ht, List.length_append]
  rw [List.length_map] at hl
  refine ⟨by omega, ?_⟩
  rw [List.map_take, ← ht, List.take_left' rfl]



theorem QREM_frame (gp : GS) (len : Nat) :
    (QREM gp len).scr_log = gp.scr_log ∧ (QREM gp len).interrupted = gp.interrupted ∧
      (QREM gp len).synced = gp.synced := by
  unfold QREM
  simp only
  split <;> exact ⟨rfl, rfl, rfl⟩

theorem v_event_get_run_goto (env : Env) (flags : ECFlags) (n : Nat) (l l1 : Label)
    (loc loc1 : Locals) (gp gp1 : GS)
    (h : v_event_get_step env flags l loc gp = .goto l1 loc1 gp1) :
    v_event_get_run env flags (n + 1) l loc gp = v_event_get_run env flags n l1 loc1 gp1 := by
  rw [v_event_get_run, h]

theorem v_event_get_run_done (env : Env) (flags : ECFlags) (n : Nat) (l : Label)
    (loc : Locals) (gp : GS) (o : Outcome)
    (h : v_event_get_step env flags l loc gp = .done o) :
    v_event_get_run env flags (n + 1) l loc gp = o := by
  rw [v_event_get_run, h]

/-- With a non-empty queue and neither `EC_INTERRUPT` nor `EC_TIMEOUT` requested,
`v_event_get` reaches the label `newmap` in two steps without reading events. -/
theorem v_event_get_to_newmap (env : Env) (flags : ECFlags) (n : Nat) (gp : GS) (argp : EVENT)
    (timeout : Int) (hcnt : gp.i_cnt ≠ 0) (hfi : flags.interrupt = false)
    (hft : flags.timeout = false) :
    v_event_get env (n + 2) gp argp timeout flags
      = v_event_get_run env flags n .newmap ⟨argp, timeout, false, 0⟩ gp := by
  unfold v_event_get
  rw [v_event_get_run_goto env flags (n + 1) .retry .fetched ⟨argp, timeout, false, 0⟩
      ⟨argp, timeout, false, 0⟩ gp gp
      (by simp [v_event_get_step, v_event_get_retry, hcnt, hfi, hft]),
    v_event_get_run_goto env flags n .fetched .newmap ⟨argp, timeout, false, 0⟩
      ⟨argp, timeout, false, 0⟩ gp gp
      (by simp [v_event_get_step, v_event_get_fetched, hfi, hft])]

theorem pushItems_chars (kv : Nat → e_key_t) (p_s : List Nat) (flags : ChFlags) :
    pushItems kv none p_s flags = p_s.map (chEvent kv flags) := rfl

/-- The expansion, with remap on, of a binding whose output begins with its
input: one poll that finds no interrupt, the part of the output after the input
pushed as `CH_MAPPED`, the input part pushed in front of it as
`CH_NOMAP | CH_MAPPED`, and the first of these returned. -/
theorem v_event_get_expand_self (env : Env) (flags : ECFlags) (loc : Locals) (gp : GS)
    (qp : SEQ) (suffix : List Nat) (ev : EVENT) (evp : Nat)
    (hremap : env.o_remap = true) (hcnt0 : loc.remap_cnt = 0) (hwf : gp.wf)
    (hsz : 4 * gp.i_nelem + 2 * (qp.input ++ suffix).length + 300 ≤ SIZE_MAX)
    (hfd : flags.mapnodigit = false) (hin : qp.input ≠ [])
    (hpoll : env.scr_event gp.scr_log.length EC_INTERRUPT 0 = some ev)
    (hnoint : ev.e_event ≠ .E_INTERRUPT) :
    ∃ gp1, v_event_get_expand env flags loc gp qp (qp.input ++ suffix) true evp
        = .done (.ret 0 (chEvent env.key_val (CH_NOMAP.or CH_MAPPED)
            ((qp.input ++ suffix).headD 0)) gp1) ∧
      gp1.view = qp.input.tail.map (chEvent env.key_val (CH_NOMAP.or CH_MAPPED))
        ++ suffix.map (chEvent env.key_val CH_MAPPED) ++ gp.view ∧
      gp1.scr_log = gp.scr_log ++ [(EC_INTERRUPT, 0)] ∧
      gp1.interrupted = gp.interrupted ∧ gp1.wf := by
  obtain ⟨c, t, hct⟩ : ∃ c t, qp.input = c :: t := by
    cases hq : qp.input with
    | nil => exact absurd hq hin
    | cons c t => exact ⟨c, t, rfl⟩
  have hlen : (qp.input ++ suffix).length = t.length + 1 + suffix.length := by
    rw [hct]
    simp only [List.length_append, List.length_cons]
  -- the state after the poll
  have hwfp : GS.wf { gp with scr_log := gp.scr_log ++ [(EC_INTERRUPT, 0)] } := hwf
  obtain ⟨gp2, h1, h2, h3, h4, h5, _, hb2⟩ := v_event_push_view env.key_val
    { gp with scr_log := gp.scr_log ++ [(EC_INTERRUPT, 0)] }
    none ((qp.input ++ suffix).drop qp.input.length) CH_MAPPED hwfp
  obtain ⟨gp3, k1, k2, k3, k4, k5, _, hb3⟩ := v_event_push_view env.key_val gp2
    none ((qp.input ++ suffix).take qp.input.length) (CH_NOMAP.or CH_MAPPED) h3
  rw [pushItems_chars, List.drop_left' rfl] at h2 hb2
  rw [pushItems_chars, List.take_left' rfl] at k2 hb3
  simp only [List.length_map] at hb2 hb3
  have hview3 : gp3.view = chEvent env.key_val (CH_NOMAP.or CH_MAPPED) c
      :: (t.map (chEvent env.key_val (CH_NOMAP.or CH_MAPPED))
        ++ suffix.map (chEvent env.key_val CH_MAPPED) ++ gp.view) := by
    rw [k2, h2, hct]
    simp [GS.view]
  have hc3 : gp3.i_cnt ≠ 0 := by
    rw [← view_length k3, hview3]
    simp
  have hsz3 : gp3.i_nelem ≤ SIZE_MAX := by
    rw [hct] at hb3
    simp only [List.length_cons] at hb3
    omega
  obtain ⟨q1, q2, _⟩ := QREM_view gp3 1 k3 hsz3 (by omega)
  refine ⟨QREM gp3 1, ?_, ?_, ?_, ?_, q2⟩
  · unfold v_event_get_expand
    simp only [hremap, if_true, hcnt0, Nat.zero_add, true_or, callScrEvent, hpoll,
      decide_eq_true_eq, hnoint, decide_False, Bool.false_eq_true, if_false, h1, ne_eq,
      not_true_eq_false, k1]
    unfold v_event_get_nomap
    rw [view_head gp3 k3 hc3, hview3]
    simp only [List.head?_cons, hfd, Bool.and_false, Bool.false_eq_true, if_false, hct,
      List.cons_append, List.headD_cons]
  · rw [q1, hview3, hct]
    simp
  · rw [(QREM_frame gp3 1).1, k5, h5]
  · rw [(QREM_frame gp3 1).2.1, k4, h4]



/-- C10: with remap on, mapping requested without digit termination, a head
character that may be mapped, and `seq_find` returning a binding `qp` whose
output is its input followed by `suffix`, a call of `v_event_get` whose
interrupt poll finds nothing returns 0 after one pass through `newmap` (three
steps, whatever the step bound beyond that): one poll, one expansion.  It
returns the first character of the output flagged `CH_NOMAP | CH_MAPPED`; the
queue then holds the rest of the input part with the same flags, then `suffix`
flagged `CH_MAPPED` only, then the events that were queued behind the input. -/
theorem v_event_get_self_map_once (env : Env) (gp : GS) (argp : EVENT) (timeout : Int)
    (flags : ECFlags) (qp : SEQ) (suffix : List Nat) (e ev : EVENT) (k : Nat)
    (hremap : env.o_remap = true) (hwf : gp.wf)
    (hsz : 4 * gp.i_nelem + 2 * (qp.input ++ suffix).length + 300 ≤ SIZE_MAX)
    (hfi : flags.interrupt = false) (hft : flags.timeout = false)
    (hfd : flags.mapnodigit = false)
    (hfm : flags.mapcommand = true ∨ flags.mapinput = true)
    (hhead : gp.view.head? = some e) (hchar : e.e_event = .E_CHARACTER)
    (hmappable : F_ISSET e.e_flags CH_NOMAP = false)
    (hbit : env.max_bit_seq ≤ e.e_c ∨ env.seqb e.e_c = true)
    (hfind : seq_find env.seqq gp.view (if flags.mapcommand then .SEQ_COMMAND else .SEQ_INPUT)
      = (some qp, false))
    (hout : qp.output = some (qp.input ++ suffix))
    (hpoll : env.scr_event gp.scr_log.length EC_INTERRUPT 0 = some ev)
    (hnoint : ev.e_event ≠ .E_INTERRUPT) :
    ∃ gp1, v_event_get env (k + 3) gp argp timeout flags
        = .ret 0 (chEvent env.key_val (CH_NOMAP.or CH_MAPPED) ((qp.input ++ suffix).headD 0)) gp1 ∧
      gp1.view = qp.input.tail.map (chEvent env.key_val (CH_NOMAP.or CH_MAPPED))
        ++ suffix.map (chEvent env.key_val CH_MAPPED) ++ gp.view.drop qp.input.length ∧
      gp1.scr_log = gp.scr_log ++ [(EC_INTERRUPT, 0)] ∧ gp1.wf := by
  obtain ⟨hlen, hwin, hzero⟩ := hwf
  have hwf : gp.wf := ⟨hlen, hwin, hzero⟩
  have hvlen := view_length hwf
  have hcnt : gp.i_cnt ≠ 0 := by
    intro h0
    rw [h0] at hvlen
    rw [List.length_eq_zero.1 hvlen] at hhead
    simp at hhead
  have hget : gp.i_event.get? gp.i_next = some e := by rw [view_head gp hwf hcnt, hhead]
  obtain ⟨hin, hpre, _, _⟩ := seq_find_some _ _ _ _ _ hfind
  obtain ⟨hilen, hmatch⟩ := prefix_take_map _ _ hpre
  rw [hvlen] at hilen
  obtain ⟨q1, q2, q3, q4, _⟩ := QREM_view gp qp.input.length hwf (by omega) hilen
  have hmem : e_memcmp_eq (qp.output.getD []) (gp.i_event.drop gp.i_next) qp.input.length
      = true := by
    unfold e_memcmp_eq
    rw [hout]
    simp only [Option.getD_some, decide_eq_true_eq, List.length_append, List.length_drop,
      List.take_left' rfl]
    refine ⟨by omega, by omega, ?_⟩
    have hm2 := hmatch
    simp only [GS.view, List.take_take] at hm2
    rw [Nat.min_eq_left hilen] at hm2
    exact hm2.symm
  have hmem2 := hmem
  rw [hout] at hmem2
  obtain ⟨gp1, h1, h2, h3, _, h5⟩ := v_event_get_expand_self env flags ⟨argp, timeout, false, 0⟩
    (QREM gp qp.input.length) qp suffix ev gp.i_next hremap rfl q2 (by rw [q4]; exact hsz) hfd hin
    (by rw [(QREM_frame gp qp.input.length).1]; exact hpoll) hnoint
  refine ⟨gp1, ?_, by rw [h2, q1], by rw [h3, (QREM_frame gp qp.input.length).1], h5⟩
  rw [v_event_get_to_newmap env flags (k + 1) gp argp timeout hcnt hfi hft]
  apply v_event_get_run_done
  have hskip : (false || F_ISSET e.e_flags CH_NOMAP || !(flags.mapcommand || flags.mapinput) ||
      (decide (e.e_c < env.max_bit_seq) && !env.seqb e.e_c)) = false := by
    rw [hmappable]
    rcases hfm with h | h <;> rcases hbit with hb | hb <;> simp [h, hb]
  simp only [v_event_get_step, v_event_get_newmap, hget, hchar, ne_eq, not_true_eq_false,
    if_false, hskip, Bool.false_eq_true, hfind, hfd, Bool.false_and, hout, hmem2]
  exact h1

theorem v_event_get_self_map_once_witness :
    ∃ gp1, v_event_get (mapEnv [⟨.SEQ_COMMAND, [120], some [120, 121, 122]⟩] true) (0 + 3) qxb
        EVENT.zero 0 EC_MAPCOMMAND
        = .ret 0 (chEvent noKeys (CH_NOMAP.or CH_MAPPED) (([120] ++ [121, 122]).headD 0)) gp1 ∧
      gp1.view = ([120] : List Nat).tail.map (chEvent noKeys (CH_NOMAP.or CH_MAPPED))
        ++ [121, 122].map (chEvent noKeys CH_MAPPED) ++ qxb.view.drop ([120] : List Nat).length ∧
      gp1.scr_log = qxb.scr_log ++ [(EC_INTERRUPT, 0)] ∧ gp1.wf :=
  v_event_get_self_map_once (mapEnv [⟨.SEQ_COMMAND, [120], some [120, 121, 122]⟩] true) qxb
    EVENT.zero 0 EC_MAPCOMMAND ⟨.SEQ_COMMAND, [120], some [120, 121, 122]⟩ [121, 122]
    (chEvent noKeys CH_NONE 120) timeoutEvent 0 rfl ⟨by decide, by decide, by decide⟩
    (by decide) rfl rfl rfl (Or.inl rfl) (by decide) rfl (by decide) (Or.inr (by decide))
    (by decide) rfl rfl (by decide)

/-! ## `v_event_get`: events passed through, digit termination, empty bindings, timeouts -/

theorem view_head_cnt (gp : GS) (e : EVENT) (hwf : gp.wf) (hhead : gp.view.head? = some e) :
    gp.i_cnt ≠ 0 ∧ gp.i_event.get? gp.i_next = some e := by
  have hvlen := view_length hwf
  have hcnt : gp.i_cnt ≠ 0 := by
    intro h0
    rw [h0] at hvlen
    rw [List.length_eq_zero.1 hvlen] at hhead
    simp at hhead
  exact ⟨hcnt, by rw [view_head gp hwf hcnt, hhead]⟩

/-- C18: when the queue is not empty, its head `e` is not a character event and
neither `EC_INTERRUPT` nor `EC_TIMEOUT` is requested, `v_event_get` returns 0 with
`*argp = e`, has removed exactly that event (the list of queued events is the old
tail), has not called `gp->scr_event`, and the result is the same under any other
surroundings: the bindings are not looked at. -/
theorem v_event_get_non_character (env : Env) (gp : GS) (argp : EVENT) (timeout : Int)
    (flags : ECFlags) (e : EVENT) (k : Nat) (hwf : gp.wf) (hsz : gp.i_nelem ≤ SIZE_MAX)
    (hfi : flags.interrupt = false) (hft : flags.timeout = false)
    (hhead : gp.view.head? = some e) (hne : e.e_event ≠ .E_CHARACTER) :
    v_event_get env (k + 3) gp argp timeout flags = .ret 0 e (QREM gp 1) ∧
      (QREM gp 1).view = gp.view.tail ∧ (QREM gp 1).scr_log = gp.scr_log ∧
      ∀ env2 : Env, v_event_get env2 (k + 3) gp argp timeout flags
        = v_event_get env (k + 3) gp argp timeout flags := by
  obtain ⟨hcnt, hget⟩ := view_head_cnt gp e hwf hhead
  have hrun : ∀ env1 : Env, v_event_get env1 (k + 3) gp argp timeout flags
      = .ret 0 e (QREM gp 1) := by
    intro env1
    rw [v_event_get_to_newmap env1 flags (k + 1) gp argp timeout hcnt hfi hft]
    apply v_event_get_run_done
    simp only [v_event_get_step, v_event_get_newmap, hget, ne_eq, hne, not_false_eq_true,
      if_true]
  obtain ⟨q1, _⟩ := QREM_view gp 1 hwf hsz (by omega)
  refine ⟨hrun env, by rw [q1, List.drop_one], (QREM_frame gp 1).1, fun env2 => ?_⟩
  rw [hrun env2, hrun env]

theorem v_event_get_non_character_witness :
    v_event_get (mapEnv [] true) (0 + 3) qeof EVENT.zero 0 EC_MAPCOMMAND
        = .ret 0 eofEvent (QREM qeof 1) ∧
      (QREM qeof 1).view = qeof.view.tail ∧ (QREM qeof 1).scr_log = qeof.scr_log ∧
      ∀ env2 : Env, v_event_get env2 (0 + 3) qeof EVENT.zero 0 EC_MAPCOMMAND
        = v_event_get (mapEnv [] true) (0 + 3) qeof EVENT.zero 0 EC_MAPCOMMAND :=
  v_event_get_non_character (mapEnv [] true) qeof EVENT.zero 0 EC_MAPCOMMAND eofEvent 0
    ⟨by decide, by decide, by decide⟩ (by decide) rfl rfl (by decide) (by decide)

/-- C12: with `EC_MAPNODIGIT` requested (and neither `EC_INTERRUPT` nor
`EC_TIMEOUT`), when the head character `e` of the queue either is not a digit
and has no binding that applies (the map is not searched for it, or `seq_find`
finds neither a match nor a partial match), or is bound to an output whose first
character is not a digit, `v_event_get` returns 0 with the character event
`CH_NOT_DIGIT`, value `K_NOTUSED`, flags 0, and leaves `gp` as it was: the head
character is not consumed. -/
theorem v_event_get_not_digit_sentinel (env : Env) (gp : GS) (argp : EVENT) (timeout : Int)
    (flags : ECFlags) (e : EVENT) (k : Nat) (hwf : gp.wf)
    (hfi : flags.interrupt = false) (hft : flags.timeout = false)
    (hnd : flags.mapnodigit = true)
    (hhead : gp.view.head? = some e) (hchar : e.e_event = .E_CHARACTER)
    (hcase : (isdigit e.e_c = false ∧
               (mapSkipped env flags e = true ∨
                 seq_find env.seqq gp.view (mapType flags) = (none, false))) ∨
             (mapSkipped env flags e = false ∧
               ∃ qp out, seq_find env.seqq gp.view (mapType flags) = (some qp, false) ∧
                 qp.output = some out ∧ isdigit (out.getD 0 0) = false)) :
    ∃ ev, v_event_get env (k + 3) gp argp timeout flags = .ret 0 ev gp ∧
      ev.e_event = .E_CHARACTER ∧ ev.e_c = CH_NOT_DIGIT ∧ ev.e_value = .K_NOTUSED ∧
      ev.e_flags = CH_NONE := by
  obtain ⟨hcnt, hget⟩ := view_head_cnt gp e hwf hhead
  refine ⟨{ argp with e_c := CH_NOT_DIGIT, e_value := .K_NOTUSED, e_event := .E_CHARACTER,
                      e_flags := CH_NONE }, ?_, rfl, rfl, rfl, rfl⟩
  rw [v_event_get_to_newmap env flags (k + 1) gp argp timeout hcnt hfi hft]
  apply v_event_get_run_done
  have hnomap : isdigit e.e_c = false →
      v_event_get_nomap flags argp gp gp.i_next = v_event_get_not_digit argp gp := by
    intro hd
    simp only [v_event_get_nomap, hget, hd, hnd, Bool.not_false, Bool.and_self, if_true]
  unfold mapSkipped mapType at hcase
  rcases hcase with ⟨hd, hs | hf⟩ | ⟨hs, qp, out, hf, hout, hd⟩
  · simp only [v_event_get_step, v_event_get_newmap, hget, hchar, ne_eq, not_true_eq_false,
      if_false, Bool.false_or, hs, if_true, hnomap hd]
    rfl
  · by_cases hs : (F_ISSET e.e_flags CH_NOMAP || !(flags.mapcommand || flags.mapinput) ||
        (decide (e.e_c < env.max_bit_seq) && !env.seqb e.e_c)) = true
    · simp only [v_event_get_step, v_event_get_newmap, hget, hchar, ne_eq, not_true_eq_false,
        if_false, Bool.false_or, hs, if_true, hnomap hd]
      rfl
    · simp only [v_event_get_step, v_event_get_newmap, hget, hchar, ne_eq, not_true_eq_false,
        if_false, Bool.false_or, hs, hf, hnomap hd]
      rfl
  · simp only [v_event_get_step, v_event_get_newmap, hget, hchar, ne_eq, not_true_eq_false,
      if_false, Bool.false_or, hs, Bool.false_eq_true, hf, hnd, hout, Option.isSome_some,
      Option.getD_some, hd, Bool.not_false, Bool.and_self, if_true]
    rfl

theorem v_event_get_not_digit_sentinel_witness :
    ∃ ev, v_event_get (mapEnv [⟨.SEQ_COMMAND, [103], some [120, 71]⟩] true) (0 + 3) qg
        EVENT.zero 0 EC_MAPCOMMAND_NODIGIT = .ret 0 ev qg ∧
      ev.e_event = .E_CHARACTER ∧ ev.e_c = CH_NOT_DIGIT ∧ ev.e_value = .K_NOTUSED ∧
      ev.e_flags = CH_NONE :=
  v_event_get_not_digit_sentinel (mapEnv [⟨.SEQ_COMMAND, [103], some [120, 71]⟩] true) qg
    EVENT.zero 0 EC_MAPCOMMAND_NODIGIT (chEvent noKeys CH_NONE 103) 0
    ⟨by decide, by decide, by decide⟩ rfl rfl rfl (by decide) rfl
    (Or.inr ⟨by decide, ⟨.SEQ_COMMAND, [103], some [120, 71]⟩, [120, 71], by decide, rfl,
      by decide⟩)

/-- The step at `newmap` for a head character that is returned as it is: the
timeout expired, or the map is not searched for it, or `seq_find` finds nothing;
and digit termination does not apply to it. -/
theorem v_event_get_newmap_unmapped (env : Env) (flags : ECFlags) (loc : Locals) (gp : GS)
    (r : EVENT) (hget : gp.i_event.get? gp.i_next = some r) (hchar : r.e_event = .E_CHARACTER)
    (hun : loc.istimeout = true ∨ mapSkipped env flags r = true ∨
      seq_find env.seqq gp.view (mapType flags) = (none, false))
    (hnd : flags.mapnodigit = false ∨ isdigit r.e_c = true) :
    v_event_get_step env flags .newmap loc gp = .done (.ret 0 r (QREM gp 1)) := by
  have hnomap : v_event_get_nomap flags loc.argp gp gp.i_next = .ret 0 r (QREM gp 1) := by
    unfold v_event_get_nomap
    rw [hget]
    simp only
    rcases hnd with h | h <;> rw [h] <;> simp
  unfold mapSkipped mapType at hun
  by_cases hs : (loc.istimeout || F_ISSET r.e_flags CH_NOMAP ||
      !(flags.mapcommand || flags.mapinput) ||
      (decide (r.e_c < env.max_bit_seq) && !env.seqb r.e_c)) = true
  · simp only [v_event_get_step, v_event_get_newmap, hget, hchar, ne_eq, not_true_eq_false,
      if_false, hs, if_true, hnomap]
  · have hf : seq_find env.seqq gp.view
        (if flags.mapcommand = true then seq_t.SEQ_COMMAND else seq_t.SEQ_INPUT)
        = (none, false) := by
      rcases hun with h | h | h
      · exact absurd (by rw [h]; rfl) hs
      · exact absurd (by rw [Bool.or_assoc, Bool.or_assoc, ← Bool.or_assoc (F_ISSET _ _), h,
          Bool.or_true]) hs
      · exact h
    simp only [v_event_get_step, v_event_get_newmap, hget, hchar, ne_eq, not_true_eq_false,
      if_false, hs, hf, hnomap, Bool.false_eq_true]

/-- C19: with mapping requested (no interrupt or timeout check), when `seq_find`
returns for the head of the queue a binding `qp` whose output is `NULL`, and the
first event `r` behind the matched input is a character that is returned as it
is (the map is not searched for it or `seq_find` finds nothing for it, and digit
termination does not apply to it), `v_event_get` returns 0 with `*argp = r`: the
matched `ilen` characters and `r` are gone from the queue, none of the matched
characters was returned, and `gp->scr_event` was not called. -/
theorem v_event_get_maps_to_nothing (env : Env) (gp : GS) (argp : EVENT) (timeout : Int)
    (flags : ECFlags) (qp : SEQ) (e r : EVENT) (k : Nat) (hwf : gp.wf)
    (hsz : gp.i_nelem ≤ SIZE_MAX)
    (hfi : flags.interrupt = false) (hft : flags.timeout = false)
    (hhead : gp.view.head? = some e) (hchar : e.e_event = .E_CHARACTER)
    (hskip : mapSkipped env flags e = false)
    (hfind : seq_find env.seqq gp.view (mapType flags) = (some qp, false))
    (hout : qp.output = none)
    (hrem : (gp.view.drop qp.input.length).head? = some r)
    (hrchar : r.e_event = .E_CHARACTER)
    (hrun : mapSkipped env flags r = true ∨
      seq_find env.seqq (gp.view.drop qp.input.length) (mapType flags) = (none, false))
    (hnd : flags.mapnodigit = false ∨ isdigit r.e_c = true) :
    v_event_get env (k + 6) gp argp timeout flags
        = .ret 0 r (QREM (QREM gp qp.input.length) 1) ∧
      (QREM (QREM gp qp.input.length) 1).view = gp.view.drop (qp.input.length + 1) ∧
      (QREM (QREM gp qp.input.length) 1).scr_log = gp.scr_log := by
  obtain ⟨hcnt, hget⟩ := view_head_cnt gp e hwf hhead
  obtain ⟨_, hpre, _, _⟩ := seq_find_some _ _ _ _ _ hfind
  obtain ⟨hilen, _⟩ := prefix_take_map _ _ hpre
  rw [view_length hwf] at hilen
  obtain ⟨q1, q2, _, q4, _⟩ := QREM_view gp qp.input.length hwf hsz hilen
  rw [← q1] at hrem hrun
  obtain ⟨hcnt1, hget1⟩ := view_head_cnt (QREM gp qp.input.length) r q2 hrem
  obtain ⟨r1, _⟩ := QREM_view (QREM gp qp.input.length) 1 q2 (by rw [q4]; exact hsz) (by omega)
  refine ⟨?_, by rw [r1, q1, List.drop_drop, Nat.add_comm],
    by rw [(QREM_frame _ 1).1, (QREM_frame _ _).1]⟩
  rw [v_event_get_to_newmap env flags (k + 4) gp argp timeout hcnt hfi hft]
  have hstep : v_event_get_step env flags .newmap ⟨argp, timeout, false, 0⟩ gp
      = .goto .retry ⟨argp, timeout, false, 0⟩ (QREM gp qp.input.length) := by
    unfold mapSkipped at hskip
    unfold mapType at hfind
    simp only [v_event_get_step, v_event_get_newmap, hget, hchar, ne_eq, not_true_eq_false,
      if_false, Bool.false_or, hskip, Bool.false_eq_true, hfind, hout, Option.isSome_none,
      Bool.and_false, Bool.false_and]
  rw [v_event_get_run_goto env flags (k + 3) .newmap .retry _ _ gp _ hstep]
  have hre : v_event_get_run env flags (k + 3) .retry ⟨argp, timeout, false, 0⟩
      (QREM gp qp.input.length)
      = v_event_get env (k + 1 + 2) (QREM gp qp.input.length) argp timeout flags := rfl
  rw [hre, v_event_get_to_newmap env flags (k + 1) _ argp timeout hcnt1 hfi hft]
  apply v_event_get_run_done
  exact v_event_get_newmap_unmapped env flags _ _ r hget1 hrchar (Or.inr hrun) hnd

theorem v_event_get_maps_to_nothing_witness :
    v_event_get (mapEnv [⟨.SEQ_COMMAND, [97, 98], none⟩] true) (0 + 6) qabc EVENT.zero 0
        EC_MAPCOMMAND
        = .ret 0 (chEvent noKeys CH_NONE 99) (QREM (QREM qabc ([97, 98] : List Nat).length) 1) ∧
      (QREM (QREM qabc ([97, 98] : List Nat).length) 1).view
        = qabc.view.drop (([97, 98] : List Nat).length + 1) ∧
      (QREM (QREM qabc ([97, 98] : List Nat).length) 1).scr_log = qabc.scr_log :=
  v_event_get_maps_to_nothing (mapEnv [⟨.SEQ_COMMAND, [97, 98], none⟩] true) qabc EVENT.zero 0
    EC_MAPCOMMAND ⟨.SEQ_COMMAND, [97, 98], none⟩ (chEvent noKeys CH_NONE 97)
    (chEvent noKeys CH_NONE 99) 0 ⟨by decide, by decide, by decide⟩ (by decide) rfl rfl
    (by decide) rfl (by decide) (by decide) rfl (by decide) rfl (Or.inl (by decide))
    (Or.inl rfl)

theorem logRead_wf (gp : GS) (req : ECFlags) (timeout : Int) (hwf : gp.wf) :
    (logRead gp req timeout).wf := hwf

theorem logRead_view (gp : GS) (req : ECFlags) (timeout : Int) :
    (logRead gp req timeout).view = gp.view := rfl

/-- C20: with mapping requested (no interrupt or timeout check), when `seq_find`
reports a partial match for the queued characters and the read of
`gp->scr_event` that follows answers with a timeout event, `v_event_get`
returns 0 with `*argp` the head event `e` exactly as it was queued, and removes
only it: the events behind it stay queued in order.  One read was made, with the
timeout derived from the options. -/
theorem v_event_get_partial_timeout (env : Env) (gp : GS) (argp : EVENT) (timeout : Int)
    (flags : ECFlags) (b : Option SEQ) (e tev : EVENT) (k : Nat) (hwf : gp.wf)
    (hsz : gp.i_nelem ≤ SIZE_MAX)
    (hfi : flags.interrupt = false) (hft : flags.timeout = false)
    (hhead : gp.view.head? = some e) (hchar : e.e_event = .E_CHARACTER)
    (hskip : mapSkipped env flags e = false)
    (hfind : seq_find env.seqq gp.view (mapType flags) = (b, true))
    (hread : env.scr_event gp.scr_log.length (readFlags flags) (mapTimeout env e) = some tev)
    (htev : tev.e_event = .E_TIMEOUT)
    (hnd : flags.mapnodigit = false ∨ isdigit e.e_c = true) :
    v_event_get env (k + 6) gp argp timeout flags
        = .ret 0 e (QREM (logRead gp (readFlags flags) (mapTimeout env e)) 1) ∧
      (QREM (logRead gp (readFlags flags) (mapTimeout env e)) 1).view = gp.view.tail ∧
      (QREM (logRead gp (readFlags flags) (mapTimeout env e)) 1).scr_log
        = gp.scr_log ++ [(readFlags flags, mapTimeout env e)] := by
  obtain ⟨hcnt, hget⟩ := view_head_cnt gp e hwf hhead
  have hwf1 := logRead_wf gp (readFlags flags) (mapTimeout env e) hwf
  obtain ⟨q1, _⟩ := QREM_view (logRead gp (readFlags flags) (mapTimeout env e)) 1 hwf1 hsz
    (by show 1 ≤ gp.i_cnt; omega)
  refine ⟨?_, by rw [q1, logRead_view, List.drop_one], by rw [(QREM_frame _ 1).1]; rfl⟩
  rw [v_event_get_to_newmap env flags (k + 4) gp argp timeout hcnt hfi hft]
  have hstep1 : v_event_get_step env flags .newmap ⟨argp, timeout, false, 0⟩ gp
      = .goto .loop ⟨argp, mapTimeout env e, false, 0⟩ gp := by
    unfold mapSkipped at hskip
    unfold mapType at hfind
    simp only [v_event_get_step, v_event_get_newmap, hget, hchar, ne_eq, not_true_eq_false,
      if_false, Bool.false_or, hskip, Bool.false_eq_true, hfind, mapTimeout]
  have hstep2 : v_event_get_step env flags .loop ⟨argp, mapTimeout env e, false, 0⟩ gp
      = .goto .fetched ⟨tev, mapTimeout env e, true, 0⟩
          (logRead gp (readFlags flags) (mapTimeout env e)) := by
    unfold readFlags at hread
    simp only [v_event_get_step, v_event_get_loop, callScrEvent, hread, htev, logRead,
      readFlags]
  have hstep3 : v_event_get_step env flags .fetched ⟨tev, mapTimeout env e, true, 0⟩
      (logRead gp (readFlags flags) (mapTimeout env e))
      = .goto .newmap ⟨tev, mapTimeout env e, true, 0⟩
          (logRead gp (readFlags flags) (mapTimeout env e)) := by
    simp [v_event_get_step, v_event_get_fetched, hfi, hft]
  rw [v_event_get_run_goto env flags (k + 3) .newmap .loop _ _ gp _ hstep1,
    v_event_get_run_goto env flags (k + 2) .loop .fetched _ _ gp _ hstep2,
    v_event_get_run_goto env flags (k + 1) .fetched .newmap _ _ _ _ hstep3]
  apply v_event_get_run_done
  exact v_event_get_newmap_unmapped env flags _ _ e hget hchar (Or.inl rfl) hnd

theorem v_event_get_partial_timeout_witness :
    v_event_get (mapEnv [⟨.SEQ_COMMAND, [103, 104], some [88]⟩] true) (0 + 6) qg EVENT.zero 0
        EC_MAPCOMMAND
        = .ret 0 (chEvent noKeys CH_NONE 103)
            (QREM (logRead qg (readFlags EC_MAPCOMMAND)
              (mapTimeout (mapEnv [⟨.SEQ_COMMAND, [103, 104], some [88]⟩] true)
                (chEvent noKeys CH_NONE 103))) 1) ∧
      (QREM (logRead qg (readFlags EC_MAPCOMMAND)
          (mapTimeout (mapEnv [⟨.SEQ_COMMAND, [103, 104], some [88]⟩] true)
            (chEvent noKeys CH_NONE 103))) 1).view = qg.view.tail ∧
      (QREM (logRead qg (readFlags EC_MAPCOMMAND)
          (mapTimeout (mapEnv [⟨.SEQ_COMMAND, [103, 104], some [88]⟩] true)
            (chEvent noKeys CH_NONE 103))) 1).scr_log
        = qg.scr_log ++ [(readFlags EC_MAPCOMMAND,
            mapTimeout (mapEnv [⟨.SEQ_COMMAND, [103, 104], some [88]⟩] true)
              (chEvent noKeys CH_NONE 103))] :=
  v_event_get_partial_timeout (mapEnv [⟨.SEQ_COMMAND, [103, 104], some [88]⟩] true) qg
    EVENT.zero 0 EC_MAPCOMMAND none (chEvent noKeys CH_NONE 103) timeoutEvent 0
    ⟨by decide, by decide, by decide⟩ (by decide) rfl rfl (by decide) rfl (by decide)
    (by decide) rfl rfl (Or.inl rfl)

/-- C11, as stated, fails: with `:map g 1G` and the input `d2g`, the call that
reads the command returns `d`, the call that reads the count under
`EC_MAPNODIGIT` returns `2`, and the next such call, on reaching `g`, expands the
binding and returns the digit `1` taken from the expansion, not the sentinel; the
sentinel comes one call later, at `G`, which stays queued. -/
theorem v_event_get_digit_map_counterexample :
    v_event_append noKeys gs0 (strEvent [100, 50, 103]) = some (0, qd2g) ∧
    (v_event_get envG1G 10 qd2g EVENT.zero 0 EC_MAPCOMMAND).event?
      = some (chEvent noKeys CH_NONE 100) ∧
    (v_event_get envG1G 10 (v_event_get envG1G 10 qd2g EVENT.zero 0 EC_MAPCOMMAND).gs
      EVENT.zero 0 EC_MAPCOMMAND_NODIGIT).event? = some (chEvent noKeys CH_NONE 50) ∧
    (v_event_get envG1G 10
      (v_event_get envG1G 10 (v_event_get envG1G 10 qd2g EVENT.zero 0 EC_MAPCOMMAND).gs
        EVENT.zero 0 EC_MAPCOMMAND_NODIGIT).gs
      EVENT.zero 0 EC_MAPCOMMAND_NODIGIT).event? = some (chEvent noKeys CH_MAPPED 49) ∧
    (v_event_get envG1G 10
      (v_event_get envG1G 10 (v_event_get envG1G 10 qd2g EVENT.zero 0 EC_MAPCOMMAND).gs
        EVENT.zero 0 EC_MAPCOMMAND_NODIGIT).gs
      EVENT.zero 0 EC_MAPCOMMAND_NODIGIT).chars? = some [71] ∧
    (v_event_get envG1G 10
      (v_event_get envG1G 10
        (v_event_get envG1G 10 (v_event_get envG1G 10 qd2g EVENT.zero 0 EC_MAPCOMMAND).gs
          EVENT.zero 0 EC_MAPCOMMAND_NODIGIT).gs
        EVENT.zero 0 EC_MAPCOMMAND_NODIGIT).gs
      EVENT.zero 0 EC_MAPCOMMAND_NODIGIT).event?
      = some ⟨.E_CHARACTER, CH_NOT_DIGIT, .K_NOTUSED, CH_NONE, []⟩ ∧
    (49 : Nat) ≠ CH_NOT_DIGIT := by
  refine ⟨by decide, by decide, by decide, by decide, by decide, by decide, by decide⟩

/-- The expansion, with remap on, of a binding whose output does not begin with
its input: one poll that finds no interrupt, the whole output pushed as
`CH_MAPPED`, and back to `newmap`. -/
theorem v_event_get_expand_remap (env : Env) (flags : ECFlags) (loc : Locals) (gp : GS)
    (qp : SEQ) (out : List Nat) (ev : EVENT) (evp : Nat)
    (hremap : env.o_remap = true) (hcnt0 : loc.remap_cnt = 0) (hwf : gp.wf)
    (hpoll : env.scr_event gp.scr_log.length EC_INTERRUPT 0 = some ev)
    (hnoint : ev.e_event ≠ .E_INTERRUPT) :
    ∃ gp1, v_event_get_expand env flags loc gp qp out false evp
        = .goto .newmap { loc with remap_cnt := 1 } gp1 ∧
      gp1.view = out.map (chEvent env.key_val CH_MAPPED) ++ gp.view ∧
      gp1.scr_log = gp.scr_log ++ [(EC_INTERRUPT, 0)] ∧ gp1.wf ∧
      gp1.i_nelem ≤ 2 * gp.i_nelem + out.length + 94 := by
  have hwfp : GS.wf { gp with scr_log := gp.scr_log ++ [(EC_INTERRUPT, 0)] } := hwf
  obtain ⟨gp2, h1, h2, h3, _, h5, _, hb2⟩ := v_event_push_view env.key_val
    { gp with scr_log := gp.scr_log ++ [(EC_INTERRUPT, 0)] } none out CH_MAPPED hwfp
  rw [pushItems_chars] at h2 hb2
  simp only [List.length_map] at hb2
  refine ⟨gp2, ?_, h2, h5, h3, hb2⟩
  unfold v_event_get_expand
  simp only [hremap, if_true, hcnt0, Nat.zero_add, true_or, callScrEvent, hpoll,
    decide_eq_true_eq, hnoint, decide_False, Bool.false_eq_true, if_false, h1, ne_eq,
    not_true_eq_false]

theorem e_memcmp_head_ne (out : List Nat) (evs : List EVENT) (n d : Nat) (e : EVENT)
    (hn : n ≠ 0) (hout : out.head? = some d) (hevs : evs.head? = some e) (hne : e.e_c ≠ d) :
    e_memcmp_eq out evs n = false := by
  unfold e_memcmp_eq
  rw [decide_eq_false_iff_not]
  rintro ⟨_, _, h⟩
  have h2 := congrArg List.head? h
  rw [List.head?_map, List.head?_take, List.head?_take, if_neg hn, if_neg hn, hout, hevs] at h2
  simp only [Option.map_some', Option.some.injEq] at h2
  exact hne h2.symm

/-- C11 (amended): with remap on and mapping requested (whether or not
`EC_MAPNODIGIT` is), when the head character `e` is bound to an output that
begins with a digit `d` other than `e` itself (as `g` to `1G`), the interrupt
poll finds nothing and the map is not searched for `d`, `v_event_get` expands
the binding and returns 0 with `*argp` the character `d` flagged `CH_MAPPED`:
the digit is taken from the expansion, the rest of the output and the events
behind the input stay queued, and no sentinel is returned by this call. -/
theorem v_event_get_digit_map_expands (env : Env) (gp : GS) (argp : EVENT) (timeout : Int)
    (flags : ECFlags) (qp : SEQ) (d : Nat) (rest : List Nat) (e ev : EVENT) (k : Nat)
    (hremap : env.o_remap = true) (hwf : gp.wf)
    (hsz : 2 * gp.i_nelem + (d :: rest).length + 94 ≤ SIZE_MAX)
    (hfi : flags.interrupt = false) (hft : flags.timeout = false)
    (hhead : gp.view.head? = some e) (hchar : e.e_event = .E_CHARACTER)
    (hskip : mapSkipped env flags e = false)
    (hfind : seq_find env.seqq gp.view (mapType flags) = (some qp, false))
    (hout : qp.output = some (d :: rest)) (hd : isdigit d = true) (hne : e.e_c ≠ d)
    (hpoll : env.scr_event gp.scr_log.length EC_INTERRUPT 0 = some ev)
    (hnoint : ev.e_event ≠ .E_INTERRUPT)
    (hdskip : mapSkipped env flags (chEvent env.key_val CH_MAPPED d) = true) :
    ∃ gp1, v_event_get env (k + 4) gp argp timeout flags
        = .ret 0 (chEvent env.key_val CH_MAPPED d) gp1 ∧
      gp1.view = rest.map (chEvent env.key_val CH_MAPPED) ++ gp.view.drop qp.input.length ∧
      (chEvent env.key_val CH_MAPPED d).e_c ≠ CH_NOT_DIGIT ∧ gp1.wf := by
  obtain ⟨hcnt, hget⟩ := view_head_cnt gp e hwf hhead
  obtain ⟨hin, hpre, _, _⟩ := seq_find_some _ _ _ _ _ hfind
  obtain ⟨hilen, _⟩ := prefix_take_map _ _ hpre
  rw [view_length hwf] at hilen
  obtain ⟨q1, q2, _, q4, _⟩ := QREM_view gp qp.input.length hwf (by omega) hilen
  have hmem : e_memcmp_eq (d :: rest) (gp.i_event.drop gp.i_next) qp.input.length = false :=
    e_memcmp_head_ne _ _ _ d e (by simpa using hin) rfl
      (by rw [List.head?_drop, ← List.get?_eq_getElem?]; exact hget) hne
  obtain ⟨gp2, h1, h2, h3, h4, hb⟩ := v_event_get_expand_remap env flags
    ⟨argp, timeout, false, 0⟩ (QREM gp qp.input.length) qp (d :: rest) ev gp.i_next hremap rfl
    q2 (by rw [(QREM_frame gp qp.input.length).1]; exact hpoll) hnoint
  rw [q1] at h2
  have hhead2 : gp2.view.head? = some (chEvent env.key_val CH_MAPPED d) := by
    rw [h2]
    rfl
  obtain ⟨hcnt2, hget2⟩ := view_head_cnt gp2 _ h4 hhead2
  obtain ⟨r1, r2, _⟩ := QREM_view gp2 1 h4 (by rw [q4] at hb; omega) (by omega)
  refine ⟨QREM gp2 1, ?_, by rw [r1, h2]; rfl, ?_, r2⟩
  · rw [v_event_get_to_newmap env flags (k + 2) gp argp timeout hcnt hfi hft]
    have hstep : v_event_get_step env flags .newmap ⟨argp, timeout, false, 0⟩ gp
        = .goto .newmap ⟨argp, timeout, false, 1⟩ gp2 := by
      unfold mapSkipped at hskip
      unfold mapType at hfind
      simp only [v_event_get_step, v_event_get_newmap, hget, hchar, ne_eq, not_true_eq_false,
        if_false, Bool.false_or, hskip, Bool.false_eq_true, hfind, hout, Option.isSome_some,
        Option.getD_some, List.getD_cons_zero, hd, Bool.not_true, Bool.and_false, hmem]
      exact h1
    rw [v_event_get_run_goto env flags (k + 1) .newmap .newmap _ _ gp _ hstep]
    apply v_event_get_run_done
    exact v_event_get_newmap_unmapped env flags _ _ _ hget2 rfl (Or.inr (Or.inl hdskip))
      (Or.inr hd)
  · intro h
    have h2 : isdigit CH_NOT_DIGIT = true := by
      rw [← h]
      exact hd
    exact absurd h2 (by decide)

theorem v_event_get_digit_map_expands_witness :
    ∃ gp1, v_event_get envG1G (0 + 4) qg EVENT.zero 0 EC_MAPCOMMAND_NODIGIT
        = .ret 0 (chEvent envG1G.key_val CH_MAPPED 49) gp1 ∧
      gp1.view = [71].map (chEvent envG1G.key_val CH_MAPPED)
        ++ qg.view.drop ([103] : List Nat).length ∧
      (chEvent envG1G.key_val CH_MAPPED 49).e_c ≠ CH_NOT_DIGIT ∧ gp1.wf :=
  v_event_get_digit_map_expands envG1G qg EVENT.zero 0 EC_MAPCOMMAND_NODIGIT
    ⟨.SEQ_COMMAND, [103], some [49, 71]⟩ 49 [71] (chEvent noKeys CH_NONE 103) timeoutEvent 0
    rfl ⟨by decide, by decide, by decide⟩ (by decide) rfl rfl (by decide) rfl (by decide)
    (by decide) rfl (by decide) (by decide) rfl (by decide) (by decide)

/-! ## Key names -/

theorem v_key_name_of_control (o : KeyOpts) (ch : Nat) (hlow : ch < 0x20 ∨ ch = 0x7f)
    (hp : cstrHas o.o_print ch = false) (hnp : o.isprint ch = false)
    (hc : o.iscntrl ch = true) :
    v_key_name o ch = ctrlName o.o_altnotation ch := by
  have hl : (decide (ch < 0x20) || decide (ch = 0x7f)) = true := by
    rcases hlow with h | h <;> simp [h]
  unfold v_key_name v_key_name_nopr
  rw [hp, hnp, hc, hl]
  simp

/-- C13: for a control code `ch` in `0x01 .. 0x1A` other than `0x09`, `0x0A`,
`0x0D` that is not listed as printable (`iscntrl` true, `isprint` false):
under `O_ALTNOTATION`, `v_key_name` gives `<C-` , the lowercase letter
`ch + 0x60`, `>` (length 5); without it `^` and the character `ch + 0x40`
(length 2).  Under the same conditions `0x7f` without `O_ALTNOTATION` is `^?`. -/
theorem v_key_name_control (o : KeyOpts) (ch : Nat) (h1 : 0x01 ≤ ch) (h2 : ch ≤ 0x1A)
    (h9 : ch ≠ 0x09) (hA : ch ≠ 0x0A) (hD : ch ≠ 0x0D)
    (hp : cstrHas o.o_print ch = false) (hnp : o.isprint ch = false)
    (hc : o.iscntrl ch = true) :
    (o.o_altnotation = true →
      v_key_name o ch = [60, 67, 45, ch + 0x60, 62] ∧ v_key_len o ch = 5) ∧
    (o.o_altnotation = false →
      v_key_name o ch = [94, ch + 0x40] ∧ v_key_len o ch = 2) ∧
    (o.o_altnotation = false → cstrHas o.o_print 0x7f = false → o.isprint 0x7f = false →
      o.iscntrl 0x7f = true → v_key_name o 0x7f = [94, 63]) := by
  have hname := v_key_name_of_control o ch (Or.inl (by omega)) hp hnp hc
  refine ⟨fun halt => ?_, fun halt => ?_, fun halt hp7 hnp7 hc7 => ?_⟩
  · unfold v_key_len
    rw [hname, halt]
    interval_cases ch <;> first | omega | exact ⟨by decide, by decide⟩
  · unfold v_key_len
    rw [hname, halt]
    interval_cases ch <;> first | omega | exact ⟨by decide, by decide⟩
  · rw [v_key_name_of_control o 0x7f (Or.inr rfl) hp7 hnp7 hc7, halt]
    decide

theorem v_key_name_control_witness :
    (v_key_name (keyOpts true false) 0x01 = [60, 67, 45, 0x01 + 0x60, 62] ∧
        v_key_len (keyOpts true false) 0x01 = 5) ∧
    (v_key_name (keyOpts false false) 0x01 = [94, 0x01 + 0x40] ∧
        v_key_len (keyOpts false false) 0x01 = 2) ∧
    v_key_name (keyOpts false false) 0x7f = [94, 63] ∧
    ([60, 67, 45, 0x01 + 0x60, 62] = ctlName 'a' ∧
      [94, 0x01 + 0x40] = ['^', 'A'].map Char.toNat) :=
  ⟨(v_key_name_control (keyOpts true false) 0x01 (by decide) (by decide) (by decide)
      (by decide) (by decide) rfl rfl rfl).1 rfl,
   (v_key_name_control (keyOpts false false) 0x01 (by decide) (by decide) (by decide)
      (by decide) (by decide) rfl rfl rfl).2.1 rfl,
   (v_key_name_control (keyOpts false false) 0x01 (by decide) (by decide) (by decide)
      (by decide) (by decide) rfl rfl rfl).2.2 rfl rfl rfl rfl,
   by decide, by decide⟩

/-- C14: whatever the options and the class of `ch`: when `ch` occurs in the
string of the option `print`, `v_key_name` gives the single character `ch`
(length 1); when it occurs in the string of `noprint` and not in that of `print`,
the name has at least two characters, so it is never the bare character. -/
theorem v_key_name_explicit_lists (o : KeyOpts) (ch : Nat) :
    (cstrHas o.o_print ch = true → v_key_name o ch = [ch] ∧ v_key_len o ch = 1) ∧
    (cstrHas o.o_print ch = false → cstrHas o.o_noprint ch = true →
      2 ≤ v_key_len o ch ∧ v_key_name o ch ≠ [ch]) := by
  have hnopr : 2 ≤ (v_key_name_nopr o ch).length := by
    unfold v_key_name_nopr
    split
    · unfold ctrlName
      split
      · split
        · rename_i s hs
          have hall : ∀ p ∈ altTable, 2 ≤ p.2.length := by decide
          have hmem : (ch, s) ∈ altTable := by
            have := List.lookup_eq_some_iff.1 hs
            obtain ⟨l1, l2, h, _⟩ := this
            rw [h]
            simp
          exact hall _ hmem
        · simp [caretName]
      · simp [caretName]
    · split
      · simp [octName]
      · simp [hexName]
  refine ⟨fun hp => ?_, fun hp hn => ?_⟩
  · unfold v_key_len v_key_name
    rw [hp]
    simp
  · have hname : v_key_name o ch = v_key_name_nopr o ch := by
      unfold v_key_name
      rw [hp, hn]
      simp
    unfold v_key_len
    rw [hname]
    refine ⟨hnopr, fun h => ?_⟩
    rw [h] at hnopr
    simp at hnopr

theorem v_key_name_explicit_lists_witness :
    (v_key_name { keyOpts false false with o_print := some [1, 200] } 1 = [1] ∧
        v_key_len { keyOpts false false with o_print := some [1, 200] } 1 = 1) ∧
    (2 ≤ v_key_len { keyOpts false false with o_noprint := some [65, 66] } 65 ∧
        v_key_name { keyOpts false false with o_noprint := some [65, 66] } 65 ≠ [65]) :=
  ⟨(v_key_name_explicit_lists { keyOpts false false with o_print := some [1, 200] } 1).1
      (by decide),
   (v_key_name_explicit_lists { keyOpts false false with o_noprint := some [65, 66] } 65).2
      (by decide) (by decide)⟩

/-! ## Cut buffers -/

theorem cbFind_eq_find (n : Nat) (l : List CB) :
    cbFind n l = l.find? fun cbp => decide (cbp.name = n) := by
  induction l with
  | nil => rfl
  | cons a l ih =>
    by_cases h : a.name = n
    · simp [cbFind, h]
    · simp [cbFind, h, ih]

theorem cbFind_some_iff (n : Nat) (l : List CB) (cb : CB) :
    cbFind n l = some cb ↔
      ∃ pre post, l = pre ++ cb :: post ∧ cb.name = n ∧ ∀ x ∈ pre, x.name ≠ n := by
  rw [cbFind_eq_find, List.find?_eq_some]
  constructor
  · rintro ⟨h, pre, post, hl, hpre⟩
    exact ⟨pre, post, hl, by simpa using h, fun x hx => by simpa using hpre x hx⟩
  · rintro ⟨pre, post, hl, h, hpre⟩
    exact ⟨by simpa using h, pre, post, hl, fun x hx => by simpa using hpre x hx⟩

theorem cbFind_none_iff (n : Nat) (l : List CB) :
    cbFind n l = none ↔ ∀ x ∈ l, x.name ≠ n := by
  rw [cbFind_eq_find, List.find?_eq_none]
  simp

/-- C15: for every register list `cutq` and every name `c`, `CBNAME` leaves `cbp`
at the first register of the list whose name is `c` folded to lower case (every
register before it has another name), and at `NULL` exactly when no register has
that name; for an upper-case `c` whose lower-case form is not itself upper case,
looking up `c` and looking up `tolower c` give the same register. -/
theorem CBNAME_first_folded (isupper : Nat → Bool) (tolower : Nat → Nat) (cutq : List CB)
    (c : Nat) :
    (∀ cb, CBNAME isupper tolower cutq c = some cb ↔
      ∃ pre post, cutq = pre ++ cb :: post ∧
        cb.name = (if isupper c then tolower c else c) ∧
        ∀ x ∈ pre, x.name ≠ (if isupper c then tolower c else c)) ∧
    (CBNAME isupper tolower cutq c = none ↔
      ∀ x ∈ cutq, x.name ≠ (if isupper c then tolower c else c)) ∧
    (isupper c = true → isupper (tolower c) = false →
      CBNAME isupper tolower cutq c = CBNAME isupper tolower cutq (tolower c)) := by
  refine ⟨fun cb => cbFind_some_iff _ cutq cb, cbFind_none_iff _ cutq, ?_⟩
  intro hu hl
  simp only [CBNAME, hu, hl, if_true, Bool.false_eq_true, if_false]

theorem CBNAME_first_folded_witness :
    CBNAME asciiIsupper asciiTolower [⟨98, [], 0, false⟩, ⟨97, [⟨[120]⟩], 1, false⟩, ⟨97, [], 0, true⟩] 65
      = some ⟨97, [⟨[120]⟩], 1, false⟩ ∧
    CBNAME asciiIsupper asciiTolower [⟨98, [], 0, false⟩, ⟨97, [⟨[120]⟩], 1, false⟩, ⟨97, [], 0, true⟩] 65
      = CBNAME asciiIsupper asciiTolower
          [⟨98, [], 0, false⟩, ⟨97, [⟨[120]⟩], 1, false⟩, ⟨97, [], 0, true⟩] (asciiTolower 65) :=
  ⟨by decide,
   (CBNAME_first_folded asciiIsupper asciiTolower
      [⟨98, [], 0, false⟩, ⟨97, [⟨[120]⟩], 1, false⟩, ⟨97, [], 0, true⟩] 65).2.2
      (by decide) (by decide)⟩

theorem dbChars_quiet (intr : Nat → Bool) (hno : ∀ n, intr n = false) (cs : List Nat) (d : Disp) :
    ∃ p, dbChars intr cs d = (false, ⟨d.out ++ cs.map DispItem.key, p, d.msgs⟩) := by
  induction cs generalizing d with
  | nil => exact ⟨d.polls, by simp [dbChars]⟩
  | cons c cs ih =>
    obtain ⟨p, hp⟩ := ih ⟨d.out ++ [.key c], d.polls + 1, d.msgs⟩
    refine ⟨p, ?_⟩
    simp only [dbChars, hno, Bool.false_eq_true, if_false, hp, List.map_cons,
      List.append_assoc, List.singleton_append]

theorem dbLines_quiet (intr : Nat → Bool) (hno : ∀ n, intr n = false) (ts : List TEXT) (d : Disp) :
    ∃ p, dbLines intr ts d =
      ⟨d.out ++ ts.flatMap (fun tp => tp.lb.map DispItem.key ++ [DispItem.newline]), p, d.msgs⟩ := by
  induction ts generalizing d with
  | nil => exact ⟨d.polls, by simp [dbLines]⟩
  | cons tp ts ih =>
    obtain ⟨q, hq⟩ := dbChars_quiet intr hno tp.lb d
    obtain ⟨p, hp⟩ := ih ⟨d.out ++ tp.lb.map DispItem.key ++ [DispItem.newline], q, d.msgs⟩
    refine ⟨p, ?_⟩
    simp only [List.append_assoc] at hp
    simp only [dbLines, hq, List.flatMap_cons, List.append_assoc, hp]

theorem db_quiet (intr : Nat → Bool) (hno : ∀ n, intr n = false) (d : Disp) (cbp : CB)
    (b : Bool) : ∃ p, db intr d cbp b = ⟨d.out ++ dbOut cbp b, p, d.msgs⟩ := by
  obtain ⟨p, hp⟩ := dbLines_quiet intr hno cbp.textq ⟨d.out ++ [.header cbp b], d.polls, d.msgs⟩
  refine ⟨p, ?_⟩
  simp only [db, hp, dbOut, List.append_assoc, List.singleton_append]

theorem bdisplayLoop_quiet (intr : Nat → Bool) (hno : ∀ n, intr n = false) (digits : Bool)
    (cutq : List CB) (d : Disp) :
    ∃ p, bdisplayLoop intr digits cutq d =
      (false, ⟨d.out ++ (shownIn digits cutq).flatMap (fun cbp => dbOut cbp false), p, d.msgs⟩) := by
  induction cutq generalizing d with
  | nil => exact ⟨d.polls, by simp [bdisplayLoop, shownIn]⟩
  | cons cbp rest ih =>
    by_cases hd : isdigit cbp.name = digits
    · by_cases ht : cbp.textq = []
      · obtain ⟨p, hp⟩ := ih ⟨d.out, d.polls + 1, d.msgs⟩
        refine ⟨p, ?_⟩
        have hs : shownIn digits (cbp :: rest) = shownIn digits rest := by
          simp [shownIn, List.filter_cons, hd, ht]
        simp only [bdisplayLoop, hd, ne_eq, not_true_eq_false, if_false, ht, hno,
          Bool.false_eq_true, hp, hs]
      · obtain ⟨q, hq⟩ := db_quiet intr hno d cbp false
        obtain ⟨p, hp⟩ := ih ⟨d.out ++ dbOut cbp false, q + 1, d.msgs⟩
        refine ⟨p, ?_⟩
        have hs : shownIn digits (cbp :: rest) = cbp :: shownIn digits rest := by
          simp [shownIn, List.filter_cons, hd, ht]
        simp only [bdisplayLoop, hd, ne_eq, not_true_eq_false, if_false, ht, not_false_eq_true,
          if_true, hno, Bool.false_eq_true, hq, hp, hs, List.flatMap_cons, List.append_assoc]
    · obtain ⟨p, hp⟩ := ih d
      refine ⟨p, ?_⟩
      have hs : shownIn digits (cbp :: rest) = shownIn digits rest := by
        simp [shownIn, List.filter_cons, hd]
      simp only [bdisplayLoop, ne_eq, hd, not_false_eq_true, if_true, hp, hs]

theorem headersOf_append (a b : List DispItem) :
    headersOf (a ++ b) = headersOf a ++ headersOf b := by
  simp [headersOf, List.filterMap_append]

theorem headersOf_dbOut (cbp : CB) (b : Bool) : headersOf (dbOut cbp b) = [(cbp, b)] := by
  have h : ∀ ts : List TEXT, List.filterMap (fun x : DispItem =>
      match x with
      | .header cb b => some (cb, b)
      | _ => none)
      (ts.flatMap fun tp => tp.lb.map DispItem.key ++ [DispItem.newline]) = [] := by
    intro ts
    induction ts with
    | nil => rfl
    | cons tp ts ih =>
      rw [List.flatMap_cons, List.filterMap_append, ih, List.filterMap_append]
      simp [List.filterMap_map]
  simp only [headersOf, dbOut, List.filterMap_cons, h]

theorem headersOf_flatMap (l : List CB) (b : Bool) :
    headersOf (l.flatMap fun cbp => dbOut cbp b) = l.map fun cbp => (cbp, b) := by
  induction l with
  | nil => rfl
  | cons a l ih => rw [List.flatMap_cons, headersOf_append, headersOf_dbOut, ih]; rfl

/-- C16: when no poll of `INTERRUPTED` finds an interrupt, `bdisplay` returns 0
and writes, after what was already written: first every register of `cutq` that
has text and a non-digit name, in list order, then every register that has text
and a digit name, in list order, then the default register `dcbp` if there is
one (shown even without text).  The headers written are exactly these, so no
register without text is shown among the named and numbered ones and no digit
name precedes a non-digit name among them. -/
theorem bdisplay_three_sections (intr : Nat → Bool) (hno : ∀ n, intr n = false)
    (cutq : List CB) (dcbp : Option CB) (d : Disp) :
    ∃ d1, bdisplay intr cutq dcbp d = (0, d1) ∧
      d1.out = d.out ++ (shownIn false cutq).flatMap (fun cbp => dbOut cbp false) ++
        (shownIn true cutq).flatMap (fun cbp => dbOut cbp false) ++
        (match dcbp with
          | some cbp => dbOut cbp true
          | none => []) ∧
      headersOf d1.out = headersOf d.out ++ (shownIn false cutq).map (fun cbp => (cbp, false)) ++
        (shownIn true cutq).map (fun cbp => (cbp, false)) ++
        (match dcbp with
          | some cbp => [(cbp, true)]
          | none => []) ∧
      (∀ cb ∈ shownIn false cutq, cb ∈ cutq ∧ isdigit cb.name = false ∧ cb.textq ≠ []) ∧
      (∀ cb ∈ shownIn true cutq, cb ∈ cutq ∧ isdigit cb.name = true ∧ cb.textq ≠ []) := by
  have hmem : ∀ (b : Bool), ∀ cb ∈ shownIn b cutq,
      cb ∈ cutq ∧ isdigit cb.name = b ∧ cb.textq ≠ [] := by
    intro b cb hcb
    simp only [shownIn, List.mem_filter, Bool.and_eq_true, decide_eq_true_eq] at hcb
    exact ⟨hcb.1, hcb.2.1, hcb.2.2⟩
  have hout : ∃ d1, bdisplay intr cutq dcbp d = (0, d1) ∧
      d1.out = d.out ++ (shownIn false cutq).flatMap (fun cbp => dbOut cbp false) ++
        (shownIn true cutq).flatMap (fun cbp => dbOut cbp false) ++
        (match dcbp with
          | some cbp => dbOut cbp true
          | none => []) := by
    by_cases he : cutq = [] ∧ dcbp = none
    · obtain ⟨h1, h2⟩ := he
      subst h1 h2
      exact ⟨⟨d.out, d.polls, d.msgs ++ ["No cut buffers to display"]⟩, by simp [bdisplay],
        by simp [shownIn]⟩
    · obtain ⟨p1, h1⟩ := bdisplayLoop_quiet intr hno false cutq d
      obtain ⟨p2, h2⟩ := bdisplayLoop_quiet intr hno true cutq
        ⟨d.out ++ (shownIn false cutq).flatMap (fun cbp => dbOut cbp false), p1, d.msgs⟩
      cases dcbp with
      | none =>
        refine ⟨⟨d.out ++ (shownIn false cutq).flatMap (fun cbp => dbOut cbp false) ++
            (shownIn true cutq).flatMap (fun cbp => dbOut cbp false), p2, d.msgs⟩, ?_, ?_⟩
        · rw [bdisplay, if_neg he]
          simp only [h1, h2]
        · simp
      | some cbp =>
        obtain ⟨p3, h3⟩ := db_quiet intr hno
          ⟨d.out ++ (shownIn false cutq).flatMap (fun cbp => dbOut cbp false) ++
            (shownIn true cutq).flatMap (fun cbp => dbOut cbp false), p2, d.msgs⟩ cbp true
        refine ⟨⟨d.out ++ (shownIn false cutq).flatMap (fun cbp => dbOut cbp false) ++
            (shownIn true cutq).flatMap (fun cbp => dbOut cbp false) ++ dbOut cbp true, p3,
            d.msgs⟩, ?_, ?_⟩
        · rw [bdisplay, if_neg he]
          simp only [h1, h2, h3]
        · simp
  obtain ⟨d1, hb, ho⟩ := hout
  refine ⟨d1, hb, ho, ?_, hmem false, hmem true⟩
  rw [ho, headersOf_append, headersOf_append, headersOf_append, headersOf_flatMap,
    headersOf_flatMap]
  cases dcbp with
  | none => rfl
  | some cbp => simp only [headersOf_dbOut]

theorem bdisplay_three_sections_witness :
    ∃ d1, bdisplay (fun _ => false)
        [⟨49, [⟨[120]⟩], 1, false⟩, ⟨97, [⟨[121]⟩], 1, true⟩, ⟨98, [], 0, false⟩,
          ⟨50, [], 0, false⟩] (some ⟨98, [], 0, false⟩) ⟨[], 0, []⟩ = (0, d1) ∧
      d1.out = [.header ⟨97, [⟨[121]⟩], 1, true⟩ false, .key 121, .newline,
        .header ⟨49, [⟨[120]⟩], 1, false⟩ false, .key 120, .newline,
        .header ⟨98, [], 0, false⟩ true] :=
  have h := bdisplay_three_sections (fun _ => false) (fun _ => rfl)
    [⟨49, [⟨[120]⟩], 1, false⟩, ⟨97, [⟨[121]⟩], 1, true⟩, ⟨98, [], 0, false⟩,
      ⟨50, [], 0, false⟩] (some ⟨98, [], 0, false⟩) ⟨[], 0, []⟩
  h.elim fun d1 hd => ⟨d1, hd.1, hd.2.1.trans (by decide)⟩

/-! ## The special key table -/

theorem lastBinding_append (l m : List KEYLIST) (ch : Nat) :
    lastBinding (l ++ m) ch =
      match m.reverse.find? fun e => decide (e.ch = ch) with
      | some e => e.value
      | none => lastBinding l ch := by
  unfold lastBinding
  rw [List.reverse_append, List.find?_append]
  cases List.find? (fun e => decide (e.ch = ch)) m.reverse <;> rfl

theorem lastBinding_none (l : List KEYLIST) (ch : Nat) (h : ∀ e ∈ l, e.ch ≠ ch) :
    lastBinding l ch = .K_NOTUSED := by
  unfold lastBinding
  have : l.reverse.find? (fun e => decide (e.ch = ch)) = none := by
    rw [List.find?_eq_none]
    intro e he
    simpa using h e (List.mem_reverse.1 he)
  rw [this]

theorem lastBinding_mem (l : List KEYLIST) (e : KEYLIST) (hn : (l.map KEYLIST.ch).Nodup)
    (he : e ∈ l) : lastBinding l e.ch = e.value := by
  induction l with
  | nil => cases he
  | cons a l ih =>
    rw [List.map_cons, List.nodup_cons] at hn
    have hcons : a :: l = [a] ++ l := rfl
    rw [hcons, lastBinding_append]
    rcases List.mem_cons.1 he with h | h
    · subst h
      have hnone : l.reverse.find? (fun x => decide (x.ch = e.ch)) = none := by
        rw [List.find?_eq_none]
        intro x hx
        have hx1 : x ∈ l := List.mem_reverse.1 hx
        have : x.ch ≠ e.ch := fun hc => hn.1 (hc ▸ List.mem_map_of_mem KEYLIST.ch hx1)
        simpa using this
      rw [hnone]
      simp [lastBinding]
    · have h1 := ih hn.2 h
      unfold lastBinding at h1
      revert h1
      cases hf : List.find? (fun x => decide (x.ch = e.ch)) l.reverse with
      | none =>
        intro _
        have := List.find?_eq_none.1 hf e (List.mem_reverse.2 h)
        simp at this
      | some x => intro h1; exact h1

theorem KeyTab.wf_of_parts (used rest : List KEYLIST) (f : Nat) (hf : f ≤ rest.length)
    (hu : ∀ e ∈ used, e.value ≠ .K_NOTUSED) (hr : ∀ e ∈ rest, e.value = .K_NOTUSED)
    (hn : (used.map KEYLIST.ch).Nodup) : KeyTab.wf ⟨used ++ rest, used.length⟩ f := by
  unfold KeyTab.wf
  simp only [List.take_left', List.drop_left', List.length_append]
  exact ⟨by omega, hu, hr, hn⟩

theorem KeyTab.wf_parts (t : KeyTab) (f : Nat) (h : t.wf f) :
    ∃ used rest, t = ⟨used ++ rest, used.length⟩ ∧ f ≤ rest.length ∧
      (∀ e ∈ used, e.value ≠ .K_NOTUSED) ∧ (∀ e ∈ rest, e.value = .K_NOTUSED) ∧
      (used.map KEYLIST.ch).Nodup := by
  obtain ⟨h1, h2, h3, h4⟩ := h
  refine ⟨t.keylist.take t.nkeylist, t.keylist.drop t.nkeylist, ?_, ?_, h2, h3, h4⟩
  · cases t with
    | mk kl n =>
      simp only [List.take_append_drop, List.length_take] at h1 ⊢
      congr 1
      omega
  · simp only [List.length_drop]
    omega

theorem v_keyval_scan_free (val : e_key_t) (ch : Nat) (used : List KEYLIST) (r : KEYLIST)
    (rs : List KEYLIST) (hu : ∀ e ∈ used, e.value ≠ .K_NOTUSED) (hc : ∀ e ∈ used, e.ch ≠ ch)
    (hr : r.value = .K_NOTUSED) : v_keyval_scan val ch (used ++ r :: rs) = .free := by
  induction used with
  | nil => simp [v_keyval_scan, hr]
  | cons a l ih =>
    have ha := hu a (List.mem_cons_self _ _)
    have hb := hc a (List.mem_cons_self _ _)
    have ih1 := ih (fun e he => hu e (List.mem_cons_of_mem _ he))
      (fun e he => hc e (List.mem_cons_of_mem _ he))
    simp only [List.cons_append, v_keyval_scan, ha, hb, if_false, List.append_eq, ih1]

theorem v_keyval_scan_dup (val : e_key_t) (ch : Nat) (pre : List KEYLIST) (e : KEYLIST)
    (tail : List KEYLIST) (hu : ∀ x ∈ pre, x.value ≠ .K_NOTUSED) (hc : ∀ x ∈ pre, x.ch ≠ ch)
    (he : e.value ≠ .K_NOTUSED) (hch : e.ch = ch) :
    v_keyval_scan val ch (pre ++ e :: tail) = .dup (pre ++ ⟨val, ch⟩ :: tail) := by
  induction pre with
  | nil => simp [v_keyval_scan, he, hch]
  | cons a l ih =>
    have ha := hu a (List.mem_cons_self _ _)
    have hb := hc a (List.mem_cons_self _ _)
    have ih1 := ih (fun e he => hu e (List.mem_cons_of_mem _ he))
      (fun e he => hc e (List.mem_cons_of_mem _ he))
    simp only [List.cons_append, v_keyval_scan, ha, hb, if_false, List.append_eq, ih1]

theorem lastBinding_replace (pre post : List KEYLIST) (e x : KEYLIST) (ch : Nat)
    (he : e.ch ≠ ch) (hx : x.ch ≠ ch) :
    lastBinding (pre ++ e :: post) ch = lastBinding (pre ++ x :: post) ch := by
  rw [lastBinding_append, lastBinding_append, List.reverse_cons, List.reverse_cons,
    List.find?_append, List.find?_append]
  simp [List.find?_cons, he, hx]

theorem v_keyval_step (sk : scr_keyval_t → Option Nat) (used rest : List KEYLIST) (f : Nat)
    (val : e_key_t) (name : scr_keyval_t) (hf : f + 1 ≤ rest.length)
    (hu : ∀ e ∈ used, e.value ≠ .K_NOTUSED) (hr : ∀ e ∈ rest, e.value = .K_NOTUSED)
    (hn : (used.map KEYLIST.ch).Nodup) (hval : val ≠ .K_NOTUSED) :
    ∃ used1 rest1, v_keyval sk ⟨used ++ rest, used.length⟩ val name =
        some ⟨used1 ++ rest1, used1.length⟩ ∧ f ≤ rest1.length ∧
      (∀ e ∈ used1, e.value ≠ .K_NOTUSED) ∧ (∀ e ∈ rest1, e.value = .K_NOTUSED) ∧
      (used1.map KEYLIST.ch).Nodup ∧
      ∀ ch, lastBinding used1 ch =
        lastBinding (used ++ (match sk name with
          | some c => [⟨val, c⟩]
          | none => [])) ch := by
  cases hsk : sk name with
  | none =>
    refine ⟨used, rest, ?_, by omega, hu, hr, hn, ?_⟩
    · simp only [v_keyval, hsk]
    · intro ch; simp
  | some c =>
    obtain ⟨r, rs, hrest⟩ : ∃ r rs, rest = r :: rs := by
      cases rest with
      | nil => simp at hf
      | cons r rs => exact ⟨r, rs, rfl⟩
    subst hrest
    have hrv : r.value = .K_NOTUSED := hr r (List.mem_cons_self _ _)
    by_cases hex : ∃ e ∈ used, e.ch = c
    · obtain ⟨e, he, hec⟩ := hex
      obtain ⟨pre, post, hsplit⟩ := List.append_of_mem he
      subst hsplit
      rw [List.map_append, List.map_cons, List.nodup_append] at hn
      obtain ⟨hn1, hn2, hn3⟩ := hn
      rw [List.nodup_cons] at hn2
      have hpre : ∀ x ∈ pre, x.ch ≠ c := by
        intro x hx hxc
        exact hn3 (List.mem_map_of_mem KEYLIST.ch hx) (by rw [hxc, ← hec]; exact List.mem_cons_self _ _) 
      have hpost : ∀ x ∈ post, x.ch ≠ c := by
        intro x hx hxc
        exact hn2.1 (by rw [hec, ← hxc]; exact List.mem_map_of_mem KEYLIST.ch hx)
      have hscan := v_keyval_scan_dup val c pre e (post ++ r :: rs)
        (fun x hx => hu x (List.mem_append_left _ hx)) hpre
        (hu e (List.mem_append_right _ (List.mem_cons_self _ _))) hec
      refine ⟨pre ++ ⟨val, c⟩ :: post, r :: rs, ?_, by omega, ?_, hr, ?_, ?_⟩
      · simp only [v_keyval, hsk, List.append_assoc, List.cons_append, hscan, List.length_append,
          List.length_cons]
      · intro x hx
        rcases List.mem_append.1 hx with h | h
        · exact hu x (List.mem_append_left _ h)
        · rcases List.mem_cons.1 h with h | h
          · subst h; exact hval
          · exact hu x (List.mem_append_right _ (List.mem_cons_of_mem _ h))
      · rw [List.map_append, List.map_cons, List.nodup_append, List.nodup_cons]
        rw [hec] at hn2 hn3
        exact ⟨hn1, hn2, hn3⟩
      · intro ch
        have hnd : ((pre ++ ⟨val, c⟩ :: post).map KEYLIST.ch).Nodup := by
          rw [List.map_append, List.map_cons, List.nodup_append, List.nodup_cons]
          rw [hec] at hn2 hn3
          exact ⟨hn1, hn2, hn3⟩
        rw [lastBinding_append (pre ++ e :: post)]
        by_cases hch : c = ch
        · subst hch
          have := lastBinding_mem (pre ++ ⟨val, c⟩ :: post) ⟨val, c⟩ hnd
            (List.mem_append_right _ (List.mem_cons_self _ _))
          simpa using this
        · have h1 := lastBinding_replace pre post e ⟨val, c⟩ ch (by rw [hec]; exact hch) hch
          simp [List.find?_cons, hch, h1]
    · have hc : ∀ e ∈ used, e.ch ≠ c := fun e he hec => hex ⟨e, he, hec⟩
      have hscan := v_keyval_scan_free val c used r rs hu hc hrv
      refine ⟨used ++ [⟨val, c⟩], rs, ?_, ?_, ?_, ?_, ?_, ?_⟩
      · have hset : (used ++ r :: rs).set used.length ⟨val, c⟩ = used ++ ⟨val, c⟩ :: rs := by
          rw [List.set_append_right _ _ (Nat.le_refl _)]
          simp
        simp only [v_keyval, hsk, hscan, List.length_append, List.length_cons, hset,
          List.append_assoc, List.singleton_append, List.length_nil]
        rw [if_pos (by omega)]
      · simp only [List.length_cons] at hf; omega
      · intro x hx
        rcases List.mem_append.1 hx with h | h
        · exact hu x h
        · rw [List.mem_singleton] at h; subst h; exact hval
      · exact fun x hx => hr x (List.mem_cons_of_mem _ hx)
      · rw [List.map_append, List.nodup_append]
        refine ⟨hn, by simp, ?_⟩
        intro a ha hb
        simp only [List.map_cons, List.map_nil, List.mem_singleton] at hb
        obtain ⟨x, hx, hxa⟩ := List.mem_map.1 ha
        exact hc x hx (hxa.trans hb)
      · intro ch; rfl

theorem sorted_keyLe_index (S : List KEYLIST) (hs : S.Sorted keyLe) (i j : Nat) (a b : KEYLIST)
    (hij : i ≤ j) (ha : S[i]? = some a) (hb : S[j]? = some b) : a.ch ≤ b.ch := by
  rcases Nat.lt_or_eq_of_le hij with h | h
  · obtain ⟨hi, hai⟩ := List.getElem?_eq_some.1 ha
    obtain ⟨hj, hbj⟩ := List.getElem?_eq_some.1 hb
    have := (List.pairwise_iff_getElem.1 hs) i j hi hj h
    rw [hai, hbj] at this
    unfold keyLe v_key_cmp at this
    omega
  · subst h
    rw [ha] at hb
    cases hb
    exact Nat.le_refl _

theorem bsearchLoop_spec (key : KEYLIST) (S rest : List KEYLIST) (hs : S.Sorted keyLe) :
    ∀ fuel base lim, lim < fuel → base + lim ≤ S.length →
      (∀ i e, S[i]? = some e → e.ch = key.ch → base ≤ i ∧ i < base + lim) →
      (∀ e, bsearchLoop key (S ++ rest) fuel base lim = some e → e ∈ S ∧ e.ch = key.ch) ∧
      (bsearchLoop key (S ++ rest) fuel base lim = none → ∀ e ∈ S, e.ch ≠ key.ch) := by
  intro fuel
  induction fuel with
  | zero => intro base lim h; omega
  | succ fuel ih =>
    intro base lim hfuel hlen hwin
    by_cases hl : lim = 0
    · subst hl
      rw [bsearchLoop, if_pos rfl]
      refine ⟨fun e h => (by cases h), fun _ e he hch => ?_⟩
      obtain ⟨i, hi, hie⟩ := List.mem_iff_getElem.1 he
      have := hwin i e (by rw [List.getElem?_eq_getElem hi, hie]) hch
      omega
    · have hp : base + lim / 2 < S.length := by omega
      have hget : (S ++ rest).get? (base + lim / 2) = some S[base + lim / 2] := by
        rw [List.get?_eq_getElem?, List.getElem?_append_left hp, List.getElem?_eq_getElem hp]
      have hSp : S[base + lim / 2]? = some S[base + lim / 2] := List.getElem?_eq_getElem hp
      rw [bsearchLoop, if_neg hl, hget]
      simp only
      by_cases h0 : v_key_cmp key S[base + lim / 2] = 0
      · rw [if_pos h0]
        refine ⟨fun e h => ?_, fun h => (by cases h)⟩
        cases h
        refine ⟨List.getElem_mem _, ?_⟩
        unfold v_key_cmp at h0
        omega
      · rw [if_neg h0]
        by_cases h1 : v_key_cmp key S[base + lim / 2] > 0
        · rw [if_pos h1]
          apply ih (base + lim / 2 + 1) ((lim - 1) / 2) (by omega) (by omega)
          intro i e hie hch
          have hw := hwin i e hie hch
          refine ⟨?_, by omega⟩
          by_contra hcon
          have := sorted_keyLe_index S hs i (base + lim / 2) e _ (by omega) hie hSp
          unfold v_key_cmp at h1
          omega
        · rw [if_neg h1]
          apply ih base (lim / 2) (by omega) (by omega)
          intro i e hie hch
          have hw := hwin i e hie hch
          refine ⟨hw.1, ?_⟩
          by_contra hcon
          have := sorted_keyLe_index S hs (base + lim / 2) i _ e (by omega) hSp hie
          unfold v_key_cmp at h0 h1
          omega

theorem bsearch_spec (key : KEYLIST) (S rest : List KEYLIST) (hs : S.Sorted keyLe) :
    (∀ e, bsearch key (S ++ rest) S.length = some e → e ∈ S ∧ e.ch = key.ch) ∧
    (bsearch key (S ++ rest) S.length = none → ∀ e ∈ S, e.ch ≠ key.ch) := by
  unfold bsearch
  apply bsearchLoop_spec key S rest hs (S.length + 1) 0 S.length (by omega) (by omega)
  intro i e hie _
  have := (List.getElem?_eq_some.1 hie).1
  omega

theorem lastBinding_congr (a b m : List KEYLIST) (ch : Nat)
    (h : lastBinding a ch = lastBinding b ch) :
    lastBinding (a ++ m) ch = lastBinding (b ++ m) ch := by
  rw [lastBinding_append, lastBinding_append, h]

theorem v_key_val_sorted (used rest : List KEYLIST) (hn : (used.map KEYLIST.ch).Nodup)
    (ch : Nat) :
    v_key_val ⟨qsort (used ++ rest) used.length, used.length⟩ ch = lastBinding used ch := by
  have hq : qsort (used ++ rest) used.length = used.insertionSort keyLe ++ rest := by
    simp only [qsort, List.take_left', List.drop_left']
  have hlen : (used.insertionSort keyLe).length = used.length := List.length_insertionSort _ _
  have hperm : (used.insertionSort keyLe).Perm used := List.perm_insertionSort _ _
  have hspec := bsearch_spec ⟨.K_NOTUSED, ch⟩ (used.insertionSort keyLe) rest
    (List.sorted_insertionSort keyLe used)
  rw [hlen] at hspec
  unfold v_key_val
  simp only [hq]
  cases hb : bsearch ⟨.K_NOTUSED, ch⟩ (used.insertionSort keyLe ++ rest) used.length with
  | none =>
    have := hspec.2 hb
    exact (lastBinding_none used ch fun e he => this e (hperm.mem_iff.2 he)).symm
  | some e =>
    obtain ⟨hmem, hch⟩ := hspec.1 e hb
    have := lastBinding_mem used e hn (hperm.mem_iff.1 hmem)
    rw [hch] at this
    exact this.symm

theorem registrations_eq (sk : scr_keyval_t → Option Nat) :
    registrations sk =
      (match sk .KEY_VEOF with
        | some c => [⟨.K_CNTRLD, c⟩]
        | none => []) ++
      ((match sk .KEY_VERASE with
        | some c => [⟨.K_VERASE, c⟩]
        | none => []) ++
      ((match sk .KEY_VKILL with
        | some c => [⟨.K_VKILL, c⟩]
        | none => []) ++
      (match sk .KEY_VWERASE with
        | some c => [⟨.K_VWERASE, c⟩]
        | none => []))) := by
  cases h1 : sk .KEY_VEOF <;> cases h2 : sk .KEY_VERASE <;> cases h3 : sk .KEY_VKILL <;>
    cases h4 : sk .KEY_VWERASE <;> simp [registrations, List.filterMap_cons, h1, h2, h3, h4]

/-- C17: from a key table with `ADDITIONAL_CHARACTERS` open slots after its
entries (distinct characters, as the initial `keylist[]`), `v_key_init` runs to
its end, and afterwards `v_key_val(ch)` is, for every `ch`, the value bound to
`ch` by the list made of the fixed entries followed by the characters the
terminal reported, in the order `v_keyval` registered them, a later binding
overriding an earlier one: the last registration of a character gives its value
whatever the fixed entries say, a fixed entry that no registration names keeps
its value, and a character without an entry gives `K_NOTUSED`. -/
theorem v_key_val_after_init (env : KeyEnv) (t : KeyTab) (g : KeyGS)
    (hwf : t.wf ADDITIONAL_CHARACTERS) :
    ∃ r t1 g1, v_key_init env t g = some (r, t1, g1) ∧
      (∀ ch, v_key_val t1 ch =
        lastBinding (t.keylist.take t.nkeylist ++ registrations env.scr_keyval) ch) ∧
      (∀ pre x post, registrations env.scr_keyval = pre ++ x :: post →
        (∀ y ∈ post, y.ch ≠ x.ch) → v_key_val t1 x.ch = x.value) ∧
      (∀ e ∈ t.keylist.take t.nkeylist, (∀ x ∈ registrations env.scr_keyval, x.ch ≠ e.ch) →
        v_key_val t1 e.ch = e.value) ∧
      (∀ ch, (∀ e ∈ t.keylist.take t.nkeylist ++ registrations env.scr_keyval, e.ch ≠ ch) →
        v_key_val t1 ch = .K_NOTUSED) := by
  obtain ⟨used, rest, ht, hf, hu, hr, hn⟩ := KeyTab.wf_parts t _ hwf
  subst ht
  simp only [List.take_left']
  obtain ⟨u1, r1, e1, hf1, hu1, hr1, hn1, hb1⟩ :=
    v_keyval_step env.scr_keyval used rest 3 .K_CNTRLD .KEY_VEOF hf hu hr hn (by decide)
  obtain ⟨u2, r2, e2, hf2, hu2, hr2, hn2, hb2⟩ :=
    v_keyval_step env.scr_keyval u1 r1 2 .K_VERASE .KEY_VERASE hf1 hu1 hr1 hn1 (by decide)
  obtain ⟨u3, r3, e3, hf3, hu3, hr3, hn3, hb3⟩ :=
    v_keyval_step env.scr_keyval u2 r2 1 .K_VKILL .KEY_VKILL hf2 hu2 hr2 hn2 (by decide)
  obtain ⟨u4, r4, e4, _, _, _, hn4, hb4⟩ :=
    v_keyval_step env.scr_keyval u3 r3 0 .K_VWERASE .KEY_VWERASE hf3 hu3 hr3 hn3 (by decide)
  have hval : ∀ ch, v_key_val ⟨qsort (u4 ++ r4) u4.length, u4.length⟩ ch =
      lastBinding (used ++ registrations env.scr_keyval) ch := by
    intro ch
    rw [v_key_val_sorted u4 r4 hn4 ch, hb4 ch, registrations_eq, ← List.append_assoc,
      ← List.append_assoc, ← List.append_assoc]
    apply lastBinding_congr
    rw [hb3 ch]
    apply lastBinding_congr
    rw [hb2 ch]
    apply lastBinding_congr
    exact hb1 ch
  have hrun : ∃ r g1, v_key_init env ⟨used ++ rest, used.length⟩ g =
      some (r, ⟨qsort (u4 ++ r4) u4.length, u4.length⟩, g1) := by
    simp only [v_key_init, e1, e2, e3, e4]
    split
    · exact ⟨_, _, rfl⟩
    · split
      · exact ⟨_, _, rfl⟩
      · exact ⟨_, _, rfl⟩
  obtain ⟨r, g1, hinit⟩ := hrun
  refine ⟨r, _, g1, hinit, hval, ?_, ?_, ?_⟩
  · intro pre x post hreg hpost
    rw [hval, lastBinding_append, hreg, List.reverse_append, List.reverse_cons,
      List.find?_append, List.find?_append]
    have : post.reverse.find? (fun e => decide (e.ch = x.ch)) = none := by
      rw [List.find?_eq_none]
      intro y hy
      simpa using hpost y (List.mem_reverse.1 hy)
    simp [this]
  · intro e he hreg
    rw [hval, lastBinding_append]
    have : (registrations env.scr_keyval).reverse.find? (fun x => decide (x.ch = e.ch)) = none := by
      rw [List.find?_eq_none]
      intro y hy
      simpa using hreg y (List.mem_reverse.1 hy)
    rw [this]
    exact lastBinding_mem used e hn he
  · intro ch hnone
    rw [hval]
    exact lastBinding_none _ ch hnone

theorem v_key_val_after_init_witness :
    ∃ r t1 g1, v_key_init keyEnv0 keyTab0 keyGS0 = some (r, t1, g1) ∧
      v_key_val t1 8 = .K_VKILL ∧ v_key_val t1 127 = .K_VERASE ∧ v_key_val t1 9 = .K_TAB ∧
      v_key_val t1 65 = .K_NOTUSED :=
  have h := v_key_val_after_init keyEnv0 keyTab0 keyGS0 (by decide)
  h.elim fun r h1 => h1.elim fun t1 h2 => h2.elim fun g1 h3 =>
    ⟨r, t1, g1, h3.1, (h3.2.1 8).trans (by decide), (h3.2.1 127).trans (by decide),
      (h3.2.1 9).trans (by decide), (h3.2.1 65).trans (by decide)⟩

/-! ## `v_event_flush` -/

theorem v_event_flush_loop_spec (flags : ChFlags) :
    ∀ (fuel rval : Nat) (gp : GS), gp.wf → gp.i_nelem ≤ SIZE_MAX → gp.i_cnt < fuel →
      ∃ gp1, v_event_flush_loop flags fuel rval gp =
          some (if gp.view.takeWhile (fun e => F_ISSET e.e_flags flags) = [] then rval else 1,
            gp1) ∧
        gp1.view = gp.view.dropWhile (fun e => F_ISSET e.e_flags flags) ∧ gp1.wf ∧
        gp1.i_event = gp.i_event ∧ gp1.i_nelem = gp.i_nelem ∧
        gp1.scr_log = gp.scr_log ∧ gp1.interrupted = gp.interrupted ∧
        gp1.synced = gp.synced := by
  intro fuel
  induction fuel with
  | zero => intro rval gp _ _ h; omega
  | succ fuel ih =>
    intro rval gp hwf hsz hfuel
    by_cases hc : gp.i_cnt = 0
    · have hv : gp.view = [] := by
        apply List.eq_nil_of_length_eq_zero
        rw [view_length hwf, hc]
      refine ⟨gp, ?_, ?_, hwf, rfl, rfl, rfl, rfl, rfl⟩
      · simp [v_event_flush_loop, hc, hv]
      · simp [hv]
    · have hhead := view_head gp hwf hc
      cases hv : gp.view with
      | nil =>
        have := view_length hwf
        rw [hv] at this
        exact absurd this.symm hc
      | cons e rest =>
        rw [hv] at hhead
        simp only [List.head?_cons] at hhead
        by_cases hp : F_ISSET e.e_flags flags = true
        · obtain ⟨hqv, hqwf, hqe, hqn, hqc⟩ := QREM_view gp 1 hwf hsz (by omega)
          obtain ⟨hf1, hf2, hf3⟩ := QREM_frame gp 1
          obtain ⟨gp1, h1, h2, h3, h4, h5, h6, h7, h8⟩ :=
            ih 1 (QREM gp 1) hqwf (by rw [hqn]; exact hsz) (by rw [hqc]; omega)
          refine ⟨gp1, ?_, ?_, h3, by rw [h4, hqe], by rw [h5, hqn], by rw [h6, hf1],
            by rw [h7, hf2], by rw [h8, hf3]⟩
          · rw [v_event_flush_loop, if_pos hc, hhead]
            simp only [hp, if_true, h1, List.takeWhile_cons, ite_self]
            rw [if_neg (List.cons_ne_nil _ _)]
          · rw [h2, hqv, hv]
            simp [List.dropWhile_cons, hp]
        · refine ⟨gp, ?_, ?_, hwf, rfl, rfl, rfl, rfl, rfl⟩
          · rw [v_event_flush_loop, if_pos hc, hhead]
            simp [hp, List.takeWhile_cons]
          · rw [hv]
            simp [List.dropWhile_cons, hp]

/-- C22: for every queue (inside its array) and every flag mask, `v_event_flush`
returns; the events it removed are the longest prefix of the queue whose events
all carry a flag of the mask, the events left are the rest of the queue in the
same order, and the return value is 1 when that prefix is not empty, else 0. -/
theorem v_event_flush_longest_flagged (gp : GS) (flags : ChFlags) (hwf : gp.wf)
    (hsz : gp.i_nelem ≤ SIZE_MAX) :
    ∃ rval gp1, v_event_flush gp flags = some (rval, gp1) ∧
      gp.view = gp.view.takeWhile (fun e => F_ISSET e.e_flags flags) ++ gp1.view ∧
      gp1.view = gp.view.dropWhile (fun e => F_ISSET e.e_flags flags) ∧
      (∀ e, gp1.view.head? = some e → F_ISSET e.e_flags flags = false) ∧
      (rval = 1 ↔ gp.view.takeWhile (fun e => F_ISSET e.e_flags flags) ≠ []) ∧
      (rval = 0 ∨ rval = 1) ∧ gp1.wf ∧ gp1.i_event = gp.i_event := by
  obtain ⟨gp1, h1, h2, h3, h4, _⟩ :=
    v_event_flush_loop_spec flags (gp.i_cnt + 1) 0 gp hwf hsz (by omega)
  refine ⟨_, gp1, h1, ?_, h2, ?_, ?_, ?_, h3, h4⟩
  · rw [h2, List.takeWhile_append_dropWhile]
  · intro e he
    rw [h2] at he
    have := List.head?_dropWhile_not (fun e => F_ISSET e.e_flags flags) gp.view
    rw [he] at this
    simpa using this
  · by_cases h : gp.view.takeWhile (fun e => F_ISSET e.e_flags flags) = [] <;> simp [h]
  · by_cases h : gp.view.takeWhile (fun e => F_ISSET e.e_flags flags) = [] <;> simp [h]

theorem v_event_flush_longest_flagged_witness :
    ∃ rval gp1, v_event_flush qflush CH_MAPPED = some (rval, gp1) ∧ rval = 1 ∧
      gp1.view = [chEvent noKeys CH_NONE 98, chEvent noKeys CH_MAPPED 122] :=
  have h := v_event_flush_longest_flagged qflush CH_MAPPED ⟨by decide, by decide, by decide⟩
    (by decide)
  h.elim fun rval h1 => h1.elim fun gp1 h2 =>
    ⟨rval, gp1, h2.1, h2.2.2.2.2.1.2 (by decide), h2.2.2.1.trans (by decide)⟩

/-! ## `v_at` -/

theorem v_at_lines_view (kv : Nat → e_key_t) (lmode : Bool) :
    ∀ (rs : List TEXT) (hasNext : Bool) (gp : GS), gp.wf →
      ∃ gp1, v_at_lines kv lmode rs hasNext gp = some (0, gp1) ∧
        gp1.view = (v_at_text lmode rs hasNext).map (chEvent kv CH_NONE) ++ gp.view ∧
        gp1.wf ∧ gp1.interrupted = gp.interrupted ∧ gp1.scr_log = gp.scr_log ∧
        gp1.synced = gp.synced := by
  intro rs
  induction rs with
  | nil => intro hasNext gp hwf; exact ⟨gp, rfl, by simp [v_at_text], hwf, rfl, rfl, rfl⟩
  | cons tp rest ih =>
    intro hasNext gp hwf
    have hnl : ∃ gpa, (if (lmode || hasNext) = true then v_event_push kv gp none [10] CH_NONE
          else some (0, gp)) = some (0, gpa) ∧
        gpa.view = (if (lmode || hasNext) = true then [10] else []).map (chEvent kv CH_NONE)
          ++ gp.view ∧
        gpa.wf ∧ gpa.interrupted = gp.interrupted ∧ gpa.scr_log = gp.scr_log ∧
        gpa.synced = gp.synced := by
      by_cases hb : (lmode || hasNext) = true
      · obtain ⟨g, h1, h2, h3, h4, h5, h6, _⟩ := v_event_push_view kv gp none [10] CH_NONE hwf
        exact ⟨g, by rw [if_pos hb, h1], by rw [if_pos hb, h2]; rfl, h3, h4, h5, h6⟩
      · exact ⟨gp, by rw [if_neg hb], by rw [if_neg hb]; rfl, hwf, rfl, rfl, rfl⟩
    obtain ⟨gpa, ha1, ha2, ha3, ha4, ha5, ha6⟩ := hnl
    obtain ⟨gpb, hb1, hb2, hb3, hb4, hb5, hb6, _⟩ :=
      v_event_push_view kv gpa none tp.lb CH_NONE ha3
    obtain ⟨gpc, hc1, hc2, hc3, hc4, hc5, hc6⟩ := ih true gpb hb3
    refine ⟨gpc, ?_, ?_, hc3, by rw [hc4, hb4, ha4], by rw [hc5, hb5, ha5],
      by rw [hc6, hb6, ha6]⟩
    · rw [v_at_lines, ha1]
      simp only [ne_eq, not_true_eq_false, if_false, hb1, hc1]
    · rw [hc2, hb2, ha2]
      simp only [v_at_text, pushItems, List.map_append, List.append_assoc]

theorem v_at_text_next (lmode : Bool) (rs : List TEXT) :
    v_at_text lmode rs true = rs.reverse.flatMap fun tp => tp.lb ++ [10] := by
  induction rs with
  | nil => rfl
  | cons tp rest ih =>
    simp [v_at_text, ih, List.flatMap_append]

theorem v_at_text_lines (lmode : Bool) (init : List TEXT) (last : TEXT) :
    v_at_text lmode (init ++ [last]).reverse false =
      (init.flatMap fun tp => tp.lb ++ [10]) ++ (last.lb ++ if lmode then [10] else []) := by
  rw [List.reverse_append, List.reverse_singleton, List.singleton_append, v_at_text,
    v_at_text_next, List.reverse_reverse, Bool.or_false]

theorem snprintf_lu_take (count : Nat) :
    (snprintf_lu 20 count).1.take
        (if (snprintf_lu 20 count).2 ≥ 20 then 20 - 1 else (snprintf_lu 20 count).2) =
      ((Nat.toDigits 10 count).map Char.toNat).take 19 := by
  simp only [snprintf_lu, Nat.add_one_sub_one]
  generalize (Nat.toDigits 10 count).map Char.toNat = s
  by_cases h : s.length ≥ 20
  · rw [if_pos h, List.take_take, Nat.min_self]
  · rw [if_neg h, List.take_of_length_le (Nat.le_of_lt_succ (Nat.lt_of_not_ge h)), List.take_length]

/-- The characters `v_at` pushes for the count: the decimal digits of the count,
cut to the first 19. -/
theorem v_at_push_view (kv : Nat → e_key_t) (cbp : CB) (sp : SCR_at) (gp : GS) (vp : VICMD)
    (init : List TEXT) (last : TEXT) (hq : cbp.textq = init ++ [last]) (hwf : gp.wf) :
    ∃ gp1, v_at_push kv cbp sp gp vp = some (0, sp, gp1) ∧
      gp1.view =
        ((match vp.count with
            | some count => ((Nat.toDigits 10 count).map Char.toNat).take 19
            | none => []) ++
          ((init.flatMap fun tp => tp.lb ++ [10]) ++
            (last.lb ++ if cbp.lmode then [10] else []))).map (chEvent kv CH_NONE)
          ++ gp.view ∧
      gp1.wf := by
  obtain ⟨gpa, ha1, ha2, ha3, _⟩ := v_at_lines_view kv cbp.lmode cbp.textq.reverse false gp hwf
  rw [hq, v_at_text_lines] at ha2
  cases hc : vp.count with
  | none =>
    refine ⟨gpa, ?_, ?_, ha3⟩
    · simp only [v_at_push, ha1, hc, ne_eq, not_true_eq_false, if_false]
    · rw [ha2]; rfl
  | some count =>
    obtain ⟨gpb, hb1, hb2, hb3, _⟩ := v_event_push_view kv gpa none
      (((Nat.toDigits 10 count).map Char.toNat).take 19) CH_NONE ha3
    refine ⟨gpb, ?_, ?_, hb3⟩
    · simp only [v_at_push, ha1, hc, ne_eq, not_true_eq_false, if_false, snprintf_lu_take, hb1]
    · rw [hb2, ha2]
      simp only [pushItems, List.map_append, List.append_assoc]

theorem v_at_view (kv : Nat → e_key_t) (isupper : Nat → Bool) (tolower : Nat → Nat)
    (cutq : List CB) (sp : SCR_at) (gp : GS) (b : Nat) (count : Option Nat) (cbp : CB)
    (init : List TEXT) (last : TEXT) (hb : b ≠ 64 ∧ b ≠ 42)
    (hcb : CBNAME isupper tolower cutq b = some cbp) (hq : cbp.textq = init ++ [last])
    (hwf : gp.wf) :
    ∃ gp1, v_at kv isupper tolower cutq sp gp ⟨some b, count⟩ =
        some (0, ⟨true, b, sp.emsgs⟩, gp1) ∧
      gp1.view =
        ((match count with
            | some n => ((Nat.toDigits 10 n).map Char.toNat).take 19
            | none => []) ++
          ((init.flatMap fun tp => tp.lb ++ [10]) ++
            (last.lb ++ if cbp.lmode then [10] else []))).map (chEvent kv CH_NONE)
          ++ gp.view ∧
      gp1.wf := by
  obtain ⟨gp1, h1, h2, h3⟩ := v_at_push_view kv cbp ⟨true, b, sp.emsgs⟩ gp ⟨some b, count⟩
    init last hq hwf
  refine ⟨gp1, ?_, h2, h3⟩
  simp only [v_at, hb.1, hb.2, or_self, false_and, if_false, hcb, h1]

/-- C23: the register `a` holds the lines `dd` and `x` (character mode) and the
queue holds `a`, `b`, `c`.  With the count 12, `v_at` leaves `12`, `dd`, newline,
`x` ahead of `a`, `b`, `c`.  With the count 10000000000000000000, which has 20
digits, it returns 0 as well but leaves only the first 19 digits ahead of the
text: `snprintf` stores at most 19 characters in `nbuf[20]` and the length is cut
to `sizeof(nbuf) - 1`. -/
theorem v_at_count_cut_short :
    (Nat.toDigits 10 10000000000000000000).length = 20 ∧
    (v_at noKeys asciiIsupper asciiTolower [cbA] scrAt0 qabc
        ⟨some 97, some 10000000000000000000⟩).map
        (fun r => (r.1, r.2.2.view.map EVENT.e_c)) =
      some (0, [49, 48, 48, 48, 48, 48, 48, 48, 48, 48, 48, 48, 48, 48, 48, 48, 48, 48, 48,
        100, 100, 10, 120, 97, 98, 99]) ∧
    (v_at noKeys asciiIsupper asciiTolower [cbA] scrAt0 qabc ⟨some 97, some 12⟩).map
        (fun r => (r.1, r.2.2.view.map EVENT.e_c)) =
      some (0, [49, 50, 100, 100, 10, 120, 97, 98, 99]) := by
  decide

/-! ## `ex_abbr` -/

theorem abbrMixed_false_iff (inword : Nat → Bool) :
    ∀ (l : List Nat) (n : Nat) (a : Nat), n + 1 ≤ (a :: l).length →
      (abbrMixed inword (a :: l) n = false ↔
        ∀ c ∈ (a :: l).take (n + 1), inword c = inword a) := by
  intro l
  induction l with
  | nil =>
    intro n a hn
    simp only [List.length_singleton] at hn
    have : n = 0 := by omega
    subst this
    simp [abbrMixed]
  | cons b rest ih =>
    intro n a hn
    cases n with
    | zero => simp [abbrMixed]
    | succ n =>
      have hn1 : n + 1 ≤ (b :: rest).length := by
        simp only [List.length_cons] at hn ⊢; omega
      have ih1 := ih n b hn1
      simp only [abbrMixed, List.take_succ_cons, List.mem_cons, forall_eq_or_imp, true_and]
      by_cases hab : inword a = inword b
      · rw [hab]
        simp only [bne_self_eq_false, Bool.false_eq_true, if_false]
        rw [ih1]
        simp only [List.take_succ_cons, List.mem_cons, forall_eq_or_imp, true_and]
      · have hne : (inword a != inword b) = true := by simpa using hab
        simp only [hne, if_true, Bool.true_eq_false, false_iff, not_and]
        intro h
        exact absurd h.symm hab

/-- C24: for a key that is not empty and holds no NUL, with any replacement:
`ex_abbr` calls `seq_set` (once, with the key and the replacement) exactly when
the last character of the key is a word character, no character of it is a
blank, and all characters before the last are of one class; it then returns what
`seq_set` reports and sets `G_ABBREV` when that is success.  Otherwise it
returns 1 with one message; `seq_set` is not called and `G_ABBREV` is as before. -/
theorem ex_abbr_accepts_iff (inword isblank : Nat → Bool) (seq_dump : Nat)
    (seq_set : List Nat → List Nat → Nat) (sp : SCR_abbr) (key val : List Nat)
    (hne : key ≠ []) (hnul : 0 ∉ key) :
    ((inword (key.getLast hne) = true ∧ (∀ c ∈ key, isblank c = false) ∧
        (∀ c ∈ key.dropLast, ∀ d ∈ key.dropLast, inword c = inword d)) →
      ex_abbr inword isblank seq_dump seq_set sp [key, val] =
        some (if seq_set key val = 0 then 0 else 1,
          ⟨if seq_set key val = 0 then true else sp.g_abbrev, sp.msgs,
            sp.seq_calls ++ [(key, val)]⟩)) ∧
    (¬ (inword (key.getLast hne) = true ∧ (∀ c ∈ key, isblank c = false) ∧
        (∀ c ∈ key.dropLast, ∀ d ∈ key.dropLast, inword c = inword d)) →
      ∃ m, ex_abbr inword isblank seq_dump seq_set sp [key, val] =
        some (1, ⟨sp.g_abbrev, sp.msgs ++ [m], sp.seq_calls⟩)) := by
  have hlast : key.getLast? = some (key.getLast hne) := List.getLast?_eq_getLast _ hne
  have htw : key.takeWhile (fun x => x ≠ 0) = key := by
    rw [List.takeWhile_eq_self_iff]
    intro x hx
    have : x ≠ 0 := fun h => hnul (h ▸ hx)
    simpa using this
  have hblank : (key.any isblank = true) ↔ ¬ ∀ c ∈ key, isblank c = false := by
    simp [List.any_eq_true]
  have hmix : (key.length > 2 ∧ abbrMixed inword key (key.length - 2) = true) ↔
      ¬ ∀ c ∈ key.dropLast, ∀ d ∈ key.dropLast, inword c = inword d := by
    cases key with
    | nil => exact absurd rfl hne
    | cons a l =>
      have hiff := abbrMixed_false_iff inword l ((a :: l).length - 2) a (by
        simp only [List.length_cons]; omega)
      by_cases hlen : (a :: l).length > 2
      · have htake : (a :: l).take ((a :: l).length - 2 + 1) = (a :: l).dropLast := by
          rw [List.dropLast_eq_take]
          congr 1
          omega
        rw [htake] at hiff
        constructor
        · rintro ⟨_, hm⟩ hall
          have := hiff.2 fun c hc => hall c hc a (by
            rw [← htake]; simp)
          rw [hm] at this
          cases this
        · intro hnot
          refine ⟨hlen, ?_⟩
          by_contra hf
          have hf1 : abbrMixed inword (a :: l) ((a :: l).length - 2) = false := by
            simpa using hf
          have hall := hiff.1 hf1
          exact hnot fun c hc d hd => (hall c hc).trans (hall d hd).symm
      · constructor
        · rintro ⟨h, _⟩
          exact absurd h hlen
        · intro hnot
          exfalso
          apply hnot
          have hl : ((a :: l).dropLast).length ≤ 1 := by
            simp only [List.length_dropLast, List.length_cons] at hlen ⊢
            omega
          intro c hc d hd
          match hdl : (a :: l).dropLast, hl, hc, hd with
          | [], _, hc, _ => cases hc
          | [x], _, hc, hd =>
            rw [List.mem_singleton] at hc hd
            rw [hc, hd]
          | _ :: _ :: _, hl, _, _ => simp at hl
  constructor
  · rintro ⟨h1, h2, h3⟩
    have hb : key.any isblank = false := by
      rw [← Bool.not_eq_true, hblank]; exact fun h => h h2
    have hm : ¬ (key.length > 2 ∧ abbrMixed inword key (key.length - 2) = true) := by
      rw [hmix]; exact fun h => h h3
    simp only [ex_abbr, hlast, h1, Bool.not_true, Bool.false_eq_true, if_false, htw, hb, hm]
    by_cases hs : seq_set key val = 0
    · simp [hs]
    · simp [hs]
  · intro hnot
    by_cases h1 : inword (key.getLast hne) = true
    · by_cases h2 : ∀ c ∈ key, isblank c = false
      · have h3 : ¬ ∀ c ∈ key.dropLast, ∀ d ∈ key.dropLast, inword c = inword d :=
          fun h => hnot ⟨h1, h2, h⟩
        have hb : key.any isblank = false := by
          rw [← Bool.not_eq_true, hblank]; exact fun h => h h2
        refine ⟨.NO_MIX, ?_⟩
        simp only [ex_abbr, hlast, h1, Bool.not_true, Bool.false_eq_true, if_false, htw, hb,
          hmix.2 h3, and_self, if_true]
      · refine ⟨.NO_BLANKS, ?_⟩
        simp only [ex_abbr, hlast, h1, Bool.not_true, Bool.false_eq_true, if_false, htw,
          hblank.2 h2, if_true]
    · refine ⟨.END_WORD, ?_⟩
      have h1f : inword (key.getLast hne) = false := by simpa using h1
      simp only [ex_abbr, hlast, h1f, Bool.not_false, if_true]

theorem ex_abbr_accepts_iff_witness :
    ex_abbr asciiInword asciiIsblank 1 (fun _ _ => 0) scrAbbr0 [[35, 36, 120], [104, 105]] =
        some (0, ⟨true, [], [([35, 36, 120], [104, 105])]⟩) ∧
    ∃ m, ex_abbr asciiInword asciiIsblank 1 (fun _ _ => 0) scrAbbr0 [[97, 35, 120], [104, 105]] =
        some (1, ⟨false, [m], []⟩) :=
  ⟨(ex_abbr_accepts_iff asciiInword asciiIsblank 1 (fun _ _ => 0) scrAbbr0 [35, 36, 120]
      [104, 105] (by decide) (by decide)).1 (by decide),
   (ex_abbr_accepts_iff asciiInword asciiIsblank 1 (fun _ _ => 0) scrAbbr0 [97, 35, 120]
      [104, 105] (by decide) (by decide)).2 (by decide)⟩

/-! ## The paths of `del` -/

/-- C25, the claim as worded fails: the last line is `abc` and `tm` is on its
final column 2.  The test of the design document holds, the variable `eof` of
`del` is 0, and `del` goes on to the single-line case. -/
theorem del_eof_path_counterexample :
    delIsEof_spec (mkSCR [[97, 98, 99]]) ⟨1, 2⟩ = true ∧
    delIsEof (mkSCR [[97, 98, 99]]) ⟨1, 2⟩ 1 = some false ∧
    del 1 noIntr false (mkSCR [[97, 98, 99]]) ⟨1, 0⟩ ⟨1, 2⟩ 0 =
      delInner 1 noIntr (mkSCR [[97, 98, 99]]) ⟨1, 0⟩ ⟨1, 2⟩ ∧
    delIsEof (mkSCR [[97, 98, 99]]) ⟨1, SIZE_MAX⟩ 1 = some false := by
  decide

theorem delIsEof_closed (sp : SCR) (tm : MARK) (h1 : 1 ≤ tm.lno) :
    delIsEof sp tm sp.lines.length = some (decide (delEofCond sp tm)) := by
  unfold delIsEof delEofCond
  by_cases hge : tm.lno ≥ sp.lines.length
  · rw [if_pos hge]
    by_cases heq : tm.lno = sp.lines.length
    · rw [if_pos heq]
      have hlt : tm.lno - 1 < sp.lines.length := by omega
      have hget : db_get sp sp.lines.length = some (sp.lines.getD (tm.lno - 1) []) := by
        unfold db_get
        rw [if_neg (by omega), ← heq, List.get?_eq_getElem?, List.getElem?_eq_getElem hlt,
          List.getD_eq_getElem?_getD, List.getElem?_eq_getElem hlt]
        rfl
      rw [hget]
      simp only [Option.some.injEq, decide_eq_decide]
      constructor
      · intro h; exact Or.inr ⟨heq, h.1, h.2⟩
      · rintro (h | h)
        · omega
        · exact ⟨h.2.1, h.2.2⟩
    · rw [if_neg heq]
      have : sp.lines.length < tm.lno := by omega
      simp [this]
  · rw [if_neg hge]
    have h2 : ¬ sp.lines.length < tm.lno := by omega
    have h3 : tm.lno ≠ sp.lines.length := by omega
    simp [h2, h3]

theorem del_char_paths (ic : Nat) (intr : Nat → Bool) (tmpNull : Bool) (sp : SCR) (fm tm : MARK)
    (h1 : 1 ≤ tm.lno) :
    del ic intr tmpNull sp fm tm 0 =
      if delEofCond sp tm then delEof ic intr tmpNull sp fm tm else delInner ic intr sp fm tm := by
  simp only [del, ne_eq, not_true_eq_false, if_false, db_last, delIsEof_closed sp tm h1]
  by_cases hc : delEofCond sp tm
  · simp [hc]
  · simp [hc]

/-- C25: in character mode, for a mark `tm` on line 1 or later, `del` takes the
delete-to-end-of-file path exactly when `tm->lno` is beyond the last line, or is
the last line with `tm->cno` other than `(size_t)-1` and at least the length of
that line (past its final column); otherwise it goes on to cases 3 and 4. -/
theorem del_eof_path (ic : Nat) (intr : Nat → Bool) (tmpNull : Bool) (sp : SCR) (fm tm : MARK)
    (h1 : 1 ≤ tm.lno) :
    delIsEof sp tm sp.lines.length = some (decide (delEofCond sp tm)) ∧
    del ic intr tmpNull sp fm tm 0 =
      if delEofCond sp tm then delEof ic intr tmpNull sp fm tm else delInner ic intr sp fm tm := by
  constructor
  · exact delIsEof_closed sp tm h1
  · exact del_char_paths ic intr tmpNull sp fm tm h1

theorem del_eof_path_witness :
    delIsEof (mkSCR [[97, 98, 99], [100]]) ⟨2, 1⟩ 2 = some true ∧
    del 1 noIntr false (mkSCR [[97, 98, 99], [100]]) ⟨1, 1⟩ ⟨2, 1⟩ 0 =
      delEof 1 noIntr false (mkSCR [[97, 98, 99], [100]]) ⟨1, 1⟩ ⟨2, 1⟩ :=
  have h := del_eof_path 1 noIntr false (mkSCR [[97, 98, 99], [100]]) ⟨1, 1⟩ ⟨2, 1⟩ (by decide)
  ⟨h.1.trans (by decide), h.2.trans (by decide)⟩

/-- A relation between the state before and after that holds across every
`db_set`, every message and the loop that deletes the lines after `fm->lno`
holds across a character-mode `del`. -/
theorem del_char_rel (ic : Nat) (intr : Nat → Bool) (tmpNull : Bool) (fm tm : MARK) (R : SCR → SCR → Prop)
    (hrefl : ∀ s, R s s) (htrans : ∀ a b c, R a b → R b c → R a c)
    (hset : ∀ s l b s1, db_set s l b = some s1 → R s s1)
    (hmsg : ∀ s t, R s (msgq s t))
    (hloop : ∀ s r s1, delLinesGt ic intr fm.lno tm.lno s = (r, s1) → R s s1) :
    ∀ sp r sp1, del ic intr tmpNull sp fm tm 0 = some (r, sp1) → R sp sp1 := by
  have hMS : ∀ sp bp r sp1, delMultiSet ic intr sp fm tm bp = some (r, sp1) → R sp sp1 := by
    intro sp bp r sp1 h
    unfold delMultiSet at h
    cases hs : db_set sp fm.lno bp with
    | none =>
      rw [hs] at h
      simp only [Option.some.injEq, Prod.mk.injEq] at h
      rw [← h.2]; exact hrefl _
    | some s1 =>
      rw [hs] at h
      simp only [Option.some.injEq] at h
      exact htrans _ _ _ (hset _ _ _ _ hs) (hloop _ _ _ h)
  have hMT : ∀ sp bp r sp1, delMultiTail ic intr sp fm tm bp = some (r, sp1) → R sp sp1 := by
    intro sp bp r sp1 h
    unfold delMultiTail at h
    cases hg : db_get sp tm.lno with
    | none =>
      rw [hg] at h
      simp only [Option.some.injEq, Prod.mk.injEq] at h
      rw [← h.2]; exact hrefl _
    | some p =>
      rw [hg] at h
      simp only at h
      split at h
      · split at h
        · simp only [Option.some.injEq, Prod.mk.injEq] at h
          rw [← h.2]; exact hmsg _ _
        · split at h
          · cases h
          · exact hMS _ _ _ _ h
      · exact hMS _ _ _ _ h
  have hM : ∀ sp r sp1, delMulti ic intr sp fm tm = some (r, sp1) → R sp sp1 := by
    intro sp r sp1 h
    unfold delMulti at h
    split at h
    · split at h
      · simp only [Option.some.injEq, Prod.mk.injEq] at h
        rw [← h.2]; exact hrefl _
      · split at h
        · cases h
        · split at h
          · cases h
          · exact hMT _ _ _ _ h
    · exact hMT _ _ _ _ h
  have hS : ∀ sp p r sp1, delSingle sp fm tm p = some (r, sp1) → R sp sp1 := by
    intro sp p r sp1 h
    unfold delSingle at h
    simp only at h
    split at h
    · cases h
    · split at h
      · cases h
      · split at h
        · cases h
        · split at h
          · simp only [Option.some.injEq, Prod.mk.injEq] at h
            rw [← h.2]; exact hrefl _
          · rename_i s1 hs
            simp only [Option.some.injEq, Prod.mk.injEq] at h
            rw [← h.2]; exact hset _ _ _ _ hs
  have hI : ∀ sp r sp1, delInner ic intr sp fm tm = some (r, sp1) → R sp sp1 := by
    intro sp r sp1 h
    unfold delInner at h
    split at h
    · split at h
      · simp only [Option.some.injEq, Prod.mk.injEq] at h
        rw [← h.2]; exact hrefl _
      · split at h
        · exact hS _ _ _ _ h
        · exact hM _ _ _ h
    · exact hM _ _ _ h
  have hE : ∀ sp r sp1, delEof ic intr tmpNull sp fm tm = some (r, sp1) → R sp sp1 := by
    intro sp r sp1 h
    unfold delEof at h
    cases hl : delLinesGt ic intr fm.lno tm.lno sp with
    | mk r0 s0 =>
      have hR0 := hloop _ _ _ hl
      rw [hl] at h
      split at h
      · rename_i s1 heq
        simp only [Prod.mk.injEq] at heq
        obtain ⟨_, hs⟩ := heq
        subst hs
        split at h
        · simp only [Option.some.injEq, Prod.mk.injEq] at h
          rw [← h.2]; exact hR0
        · split at h
          · simp only [Option.some.injEq, Prod.mk.injEq] at h
            rw [← h.2]; exact hR0
          · split at h
            · cases h
            · split at h
              · simp only [Option.some.injEq, Prod.mk.injEq] at h
                rw [← h.2]; exact hR0
              · rename_i s2 hs2
                simp only [Option.some.injEq, Prod.mk.injEq] at h
                rw [← h.2]; exact htrans _ _ _ hR0 (hset _ _ _ _ hs2)
      · rename_i r1 s1 _ heq
        simp only [Prod.mk.injEq] at heq
        simp only [Option.some.injEq, Prod.mk.injEq] at h
        rw [← h.2, ← heq.2]; exact hR0
  intro sp r sp1 h
  simp only [del, ne_eq, not_true_eq_false, if_false, db_last] at h
  split at h
  · simp only [Option.some.injEq, Prod.mk.injEq] at h
    rw [← h.2]; exact hrefl _
  · exact hE _ _ _ h
  · exact hI _ _ _ h

theorem db_set_same {s : SCR} {l : Nat} {b : Line} {s1 : SCR} (h : db_set s l b = some s1) :
    delSameLines s s1 := by
  unfold db_set at h
  split at h
  · cases h
  · simp only [Option.some.injEq] at h
    subst h
    simp [delSameLines, withLines]

theorem delLinesGt_same (ic : Nat) (intr : Nat → Bool) (lo : Nat) (s : SCR) :
    delLinesGt ic intr lo lo s = (0, s) := by
  cases lo with
  | zero => rfl
  | succ n => simp [delLinesGt]

theorem delSameLines_trans (a b c : SCR) (h1 : delSameLines a b) (h2 : delSameLines b c) :
    delSameLines a c :=
  ⟨h2.1.trans h1.1, h2.2.1.trans h1.2.1, h2.2.2.trans h1.2.2⟩

/-- C26: in character mode with `fm->lno = tm->lno`, whatever `del` returns, the
number of lines is as before, no `db_delete` succeeded and the counter of deleted
lines is unchanged.  When the range takes every byte of the line (`fm->cno = 0`
and `tm->cno` on its last byte), or the line is empty and `fm->cno = 0`, `del`
returns 0 and the line is set to the empty line, all other lines as before.
The one exception is the empty last line with `tm->cno` at or past its end, which
takes the delete-to-end-of-file code: there `GET_SPACE_RET` is asked for 0 bytes,
and when it leaves `bp == NULL` the call returns 1 with nothing changed (the
empty line still in place). -/
theorem del_same_line_keeps_lines (ic : Nat) (intr : Nat → Bool) (tmpNull : Bool) (sp : SCR)
    (fm tm : MARK) (hline : tm.lno = fm.lno) :
    (∀ r sp1, del ic intr tmpNull sp fm tm 0 = some (r, sp1) → delSameLines sp sp1) ∧
    (∀ L, db_get sp fm.lno = some L → L.length ≤ SIZE_MAX → fm.cno = 0 →
      (L = [] ∨ tm.cno = L.length - 1) →
      del ic intr tmpNull sp fm tm 0 =
        if L = [] ∧ delEofCond sp tm ∧ tmpNull = true then some (1, sp)
        else some (0, withLines sp (sp.lines.set (fm.lno - 1) []))) := by
  constructor
  · apply del_char_rel ic intr tmpNull fm tm delSameLines
    · intro s; exact ⟨rfl, rfl, rfl⟩
    · exact delSameLines_trans
    · intro s l b s1 h; exact db_set_same h
    · intro s t; exact ⟨rfl, rfl, rfl⟩
    · intro s r s1 h
      rw [hline, delLinesGt_same] at h
      simp only [Prod.mk.injEq] at h
      rw [← h.2]; exact ⟨rfl, rfl, rfl⟩
  · intro L hget hsz hcno hcases
    obtain ⟨h0, hlen, _⟩ := db_get_eq_some hget
    have hset : db_set sp fm.lno [] = some (withLines sp (sp.lines.set (fm.lno - 1) [])) :=
      db_set_eq [] h0 hlen
    rw [del_char_paths ic intr tmpNull sp fm tm (by omega)]
    by_cases hL : L = []
    · subst hL
      by_cases hc : delEofCond sp tm
      · rw [if_pos hc]
        cases tmpNull with
        | true =>
          rw [if_pos ⟨rfl, hc, rfl⟩]
          simp only [delEof, hline, delLinesGt_same, hget, hcno, GET_SPACE_RET, decide_True,
            Bool.and_self, if_true]
        | false =>
          rw [if_neg (fun h => Bool.noConfusion h.2.2)]
          simp only [delEof, hline, delLinesGt_same, hget, hcno, GET_SPACE_RET, decide_True,
            Bool.and_false, Bool.false_eq_true, if_false, memRead, List.length_nil,
            Nat.le_refl, if_true, List.drop_zero, List.take_nil, hset]
      · rw [if_neg hc, if_neg (fun h => hc h.2.1)]
        simp only [delInner, hline, if_true, hget, List.length_nil, ne_eq, not_true_eq_false,
          if_false, delMulti, hcno, delMultiTail, false_and, delMultiSet, hset,
          delLinesGt_same]
    · have hpos : 0 < L.length := List.length_pos.2 hL
      have htm : tm.cno = L.length - 1 := by
        rcases hcases with h | h
        · exact absurd h hL
        · exact h
      have hget2 : db_get sp tm.lno = some L := by rw [hline]; exact hget
      have hnot : ¬ delEofCond sp tm := by
        intro hc
        have h1 := delIsEof_closed sp tm (by omega)
        rw [delIsEof_inside hget2 (Or.inl (by omega))] at h1
        simp only [Option.some.injEq] at h1
        have := h1.symm
        simp only [decide_eq_false_iff_not] at this
        exact this hc
      rw [if_neg hnot, if_neg (fun h => hL h.1)]
      have hsp := delSingle_spec sp fm tm L hget (by omega) (by omega) hsz
      have hnil : L.take fm.cno ++ L.drop (tm.cno + 1) = [] := by
        rw [hcno, htm, List.take_zero, List.nil_append, List.drop_eq_nil_iff]
        omega
      rw [hnil] at hsp
      simp only [delInner, hline, if_true, hget, ne_eq, hsp]
      rw [if_pos (by omega)]

theorem del_same_line_keeps_lines_witness :
    delSameLines (mkSCR [[97, 98], [99, 100, 101], [102]])
        (mkSCR [[97, 98], [], [102]]) ∧
    del 1 noIntr false (mkSCR [[97, 98], [99, 100, 101], [102]]) ⟨2, 0⟩ ⟨2, 2⟩ 0 =
      some (0, mkSCR [[97, 98], [], [102]]) :=
  have h := del_same_line_keeps_lines 1 noIntr false (mkSCR [[97, 98], [99, 100, 101], [102]])
    ⟨2, 0⟩ ⟨2, 2⟩ rfl
  have h2 := (h.2 [99, 100, 101] (by decide) (by decide) rfl (Or.inr rfl)).trans
    (if_neg (by decide))
  ⟨h.1 0 _ h2, h2⟩

theorem delCounted_refl (s : SCR) : delCounted s s := by
  simp [delCounted]

theorem delCounted_trans (a b c : SCR) (h1 : delCounted a b) (h2 : delCounted b c) :
    delCounted a c := by
  unfold delCounted at *
  omega

theorem db_delete_counted {s s1 : SCR} {lno : Nat} (h : db_delete s lno = some s1) :
    delCounted s (bumpDeleted s1) := by
  unfold db_delete at h
  split at h
  · cases h
  · rename_i hc
    simp only [Option.some.injEq] at h
    subst h
    have hlen : (s.lines.eraseIdx (lno - 1)).length = s.lines.length - 1 := by
      rw [List.length_eraseIdx]
      rw [if_pos (by omega)]
    simp only [delCounted, bumpDeleted, withLines, hlen, List.length_append,
      List.length_singleton]
    omega

theorem delLinesGt_counted (ic : Nat) (intr : Nat → Bool) (lo : Nat) :
    ∀ (n : Nat) (s : SCR) (r : Nat) (s1 : SCR),
      delLinesGt ic intr lo n s = (r, s1) → delCounted s s1 := by
  intro n
  induction n with
  | zero =>
    intro s r s1 h
    simp only [delLinesGt, Prod.mk.injEq] at h
    rw [← h.2]; exact delCounted_refl s
  | succ n ih =>
    intro s r s1 h
    unfold delLinesGt at h
    split at h
    · simp only [Prod.mk.injEq] at h
      rw [← h.2]; exact delCounted_refl s
    · split at h
      · simp only [Prod.mk.injEq] at h
        rw [← h.2]; exact delCounted_refl s
      · rename_i s2 hd
        simp only at h
        split at h
        · simp only [Prod.mk.injEq] at h
          rw [← h.2]; exact db_delete_counted hd
        · exact delCounted_trans _ _ _ (db_delete_counted hd) (ih _ _ _ h)

theorem delLinesGe_counted (ic : Nat) (intr : Nat → Bool) (lo : Nat) :
    ∀ (n : Nat) (s : SCR) (r : Nat) (s1 : SCR),
      delLinesGe ic intr lo n s = (r, s1) → delCounted s s1 := by
  intro n
  induction n with
  | zero =>
    intro s r s1 h
    unfold delLinesGe at h
    split at h <;>
    · simp only [Prod.mk.injEq] at h
      rw [← h.2]; exact delCounted_refl s
  | succ n ih =>
    intro s r s1 h
    unfold delLinesGe at h
    split at h
    · simp only [Prod.mk.injEq] at h
      rw [← h.2]; exact delCounted_refl s
    · split at h
      · simp only [Prod.mk.injEq] at h
        rw [← h.2]; exact delCounted_refl s
      · rename_i s2 hd
        simp only at h
        split at h
        · simp only [Prod.mk.injEq] at h
          rw [← h.2]; exact db_delete_counted hd
        · exact delCounted_trans _ _ _ (db_delete_counted hd) (ih _ _ _ h)

/-- C27: whatever `del` returns, in line mode or character mode, interrupted or
not, the counter `rptlines[L_DELETED]` has risen by exactly the number of lines
the call removed from the store (the number of `db_delete` calls that
succeeded); for a character-mode call with `fm->lno = tm->lno` that is zero. -/
theorem del_counts_removed_lines (ic : Nat) (intr : Nat → Bool) (tmpNull : Bool) (sp : SCR) (fm tm : MARK)
    (lmode : Int) (r : Nat) (sp1 : SCR) (h : del ic intr tmpNull sp fm tm lmode = some (r, sp1)) :
    sp1.lines.length ≤ sp.lines.length ∧
    sp1.rptDeleted = sp.rptDeleted + (sp.lines.length - sp1.lines.length) ∧
    sp1.deleted.length = sp.deleted.length + (sp.lines.length - sp1.lines.length) ∧
    (lmode = 0 → tm.lno = fm.lno → sp1.rptDeleted = sp.rptDeleted) := by
  have hc : delCounted sp sp1 := by
    by_cases hl : lmode = 0
    · subst hl
      apply del_char_rel ic intr tmpNull fm tm delCounted delCounted_refl delCounted_trans
        (fun s l b s1 hs => ?_) (fun s t => ?_) (fun s r s1 hs => ?_) sp r sp1 h
      · obtain ⟨h1, h2, h3⟩ := db_set_same hs
        unfold delCounted
        rw [h1, h2, h3]
        simp
      · simp [delCounted, msgq]
      · exact delLinesGt_counted ic intr fm.lno tm.lno s r s1 hs
    · simp only [del, ne_eq, hl, not_false_eq_true, if_true, Option.some.injEq] at h
      exact delLinesGe_counted ic intr fm.lno tm.lno sp r sp1 h
  refine ⟨hc.1, hc.2.1, hc.2.2, ?_⟩
  intro hl hline
  subst hl
  have hs : delSameLines sp sp1 := by
    apply del_char_rel ic intr tmpNull fm tm delSameLines (fun s => ⟨rfl, rfl, rfl⟩)
      delSameLines_trans (fun s l b s1 hs => db_set_same hs) (fun s t => ⟨rfl, rfl, rfl⟩)
      (fun s r s1 hs => ?_) sp r sp1 h
    rw [hline, delLinesGt_same] at hs
    simp only [Prod.mk.injEq] at hs
    rw [← hs.2]; exact ⟨rfl, rfl, rfl⟩
  exact hs.2.2

theorem del_counts_removed_lines_witness :
    del 1 noIntr false (mkSCR [[1], [2], [3], [4], [5]]) ⟨2, 0⟩ ⟨4, 0⟩ 1 =
      some (0, ⟨[[1], [5]], 3, [], [4, 3, 2]⟩) ∧
    (⟨[[1], [5]], 3, [], [4, 3, 2]⟩ : SCR).rptDeleted =
      (mkSCR [[1], [2], [3], [4], [5]]).rptDeleted +
        ((mkSCR [[1], [2], [3], [4], [5]]).lines.length -
          (⟨[[1], [5]], 3, [], [4, 3, 2]⟩ : SCR).lines.length) :=
  have h := del_counts_removed_lines 1 noIntr false (mkSCR [[1], [2], [3], [4], [5]]) ⟨2, 0⟩ ⟨4, 0⟩ 1
    0 ⟨[[1], [5]], 3, [], [4, 3, 2]⟩ (by decide)
  ⟨by decide, h.2.1⟩

/-! ## Key names under `O_ALTNOTATION` and `O_OCTAL` -/

theorem v_key_name_eq_nopr (o : KeyOpts) (ch : Nat) (hp : cstrHas o.o_print ch = false)
    (hnp : cstrHas o.o_noprint ch = true ∨ o.isprint ch = false) :
    v_key_name o ch = v_key_name_nopr o ch := by
  unfold v_key_name
  rw [hp]
  rcases hnp with h | h
  · simp [h]
  · simp [h]

theorem altTable_named (ch : Nat) (hset : ch < 0x20 ∨ ch = 0x7f) (h9 : ch ≠ 0x09) :
    ∃ s, altTable.lookup ch = some s ∧ (s.length = 4 ∨ s.length = 5) ∧
      s.head? = some 60 ∧ s.getLast? = some 62 ∧ (s.length = 4 ↔ ch = 0x0A) := by
  rcases hset with h | h
  · interval_cases ch <;>
      first
      | exact absurd rfl h9
      | exact ⟨_, rfl, by decide, by decide, by decide, by decide⟩
  · subst h
    exact ⟨_, rfl, by decide, by decide, by decide, by decide⟩

/-- C28, the claim as worded fails at the tab character: with `O_ALTNOTATION` set
(no explicit lists, C locale) the name of `0x09` is `^I`, two characters, while
its neighbour `0x08` is `<C-h>`. -/
theorem v_key_name_alt_counterexample :
    v_key_name (keyOpts true false) 0x09 = [94, 73] ∧ v_key_len (keyOpts true false) 0x09 = 2 ∧
    v_key_name (keyOpts true false) 0x08 = [60, 67, 45, 104, 62] := by
  decide

/-- C28: with `O_ALTNOTATION` set, every control character in `0x00 .. 0x1F` other
than `0x09`, and `0x7F`, that is not in the `print` string (and is in the
`noprint` string or not printable) is named by its branch of the source: a name
that depends on the character only, begins with `<`, ends with `>` and has 5
characters, 4 for `0x0A` (`<NL>`).  The character `0x09` has no branch and is
named `^I`. -/
theorem v_key_name_alt_named (o : KeyOpts) (ch : Nat) (hset : ch < 0x20 ∨ ch = 0x7f)
    (halt : o.o_altnotation = true) (hp : cstrHas o.o_print ch = false)
    (hnp : cstrHas o.o_noprint ch = true ∨ o.isprint ch = false)
    (hc : o.iscntrl ch = true) :
    (ch ≠ 0x09 → ∃ s, altTable.lookup ch = some s ∧ v_key_name o ch = s ∧
      v_key_len o ch = s.length ∧ (s.length = 4 ∨ s.length = 5) ∧
      s.head? = some 60 ∧ s.getLast? = some 62 ∧ (s.length = 4 ↔ ch = 0x0A)) ∧
    (ch = 0x09 → v_key_name o ch = [94, 73] ∧ v_key_len o ch = 2) := by
  have hname : v_key_name o ch = ctrlName true ch := by
    rw [v_key_name_eq_nopr o ch hp hnp, v_key_name_nopr, hc, halt]
    have : (decide (ch < 0x20) || decide (ch = 0x7f)) = true := by
      rcases hset with h | h <;> simp [h]
    rw [this]
    rfl
  constructor
  · intro h9
    obtain ⟨s, h1, h2, h3, h4, h5⟩ := altTable_named ch hset h9
    have hs : v_key_name o ch = s := by rw [hname]; simp only [ctrlName, if_true, h1]
    exact ⟨s, h1, hs, by rw [v_key_len, hs], h2, h3, h4, h5⟩
  · intro h9
    subst h9
    have hs : v_key_name o 0x09 = [94, 73] := by rw [hname]; decide
    exact ⟨hs, by rw [v_key_len, hs]; rfl⟩

theorem v_key_name_alt_named_witness :
    (∃ s, altTable.lookup 0x1B = some s ∧ v_key_name (keyOpts true true) 0x1B = s ∧
      v_key_len (keyOpts true true) 0x1B = s.length ∧ (s.length = 4 ∨ s.length = 5) ∧
      s.head? = some 60 ∧ s.getLast? = some 62 ∧ (s.length = 4 ↔ 0x1B = 0x0A)) ∧
    v_key_name (keyOpts true true) 0x1B = [60, 69, 115, 99, 62] :=
  ⟨(v_key_name_alt_named (keyOpts true true) 0x1B (by decide) rfl rfl (Or.inr rfl) rfl).1
      (by decide),
   by decide⟩

theorem octLoop_length (ch : Nat) :
    ∀ (cnt mask shift : Nat), (octLoop ch cnt mask shift).length = cnt := by
  intro cnt
  induction cnt with
  | zero => intro mask shift; rfl
  | succ n ih => intro mask shift; simp [octLoop, ih]

theorem v_key_name_octal (o : KeyOpts) (ch : Nat) (hp : cstrHas o.o_print ch = false)
    (hnp : cstrHas o.o_noprint ch = true ∨ o.isprint ch = false)
    (hc : o.iscntrl ch = false ∨ (0x20 ≤ ch ∧ ch ≠ 0x7f)) (hoct : o.o_octal = true) :
    v_key_name o ch = octName ch := by
  rw [v_key_name_eq_nopr o ch hp hnp, v_key_name_nopr, hoct]
  have : (o.iscntrl ch && (decide (ch < 0x20) || decide (ch = 0x7f))) = false := by
    rcases hc with h | ⟨h1, h2⟩
    · simp [h]
    · have h3 : ¬ ch < 0x20 := by omega
      simp [h3, h2]
  rw [this]
  simp

/-- C29, the claim as worded fails: with `O_OCTAL` set (no explicit lists, C
locale) the name of `0x80`, neither printable nor a control character, has 4
characters; `2 + ceil(BITS / 3)` is 5 for the 8 bits of a character. -/
theorem v_key_len_octal_counterexample :
    v_key_len (keyOpts false true) 0x80 = 4 ∧ v_key_name (keyOpts false true) 0x80 =
      [92, 50, 48, 48] ∧ 2 + (BITS + 2) / 3 = 5 := by
  decide

/-- C29: for every character that takes the octal branch (`O_OCTAL` set, not in
the `print` string, in the `noprint` string or not printable, and not a control
character below `0x20` or `0x7f`), the length `sp->clen` is 4: the backslash, the
top digit, and `BITS / 3 = 2` digits of the loop, that is `2 + BITS / 3` with the
division rounded down, one less than `2 + ceil(BITS / 3)`. -/
theorem v_key_len_octal (o : KeyOpts) (ch : Nat) (hp : cstrHas o.o_print ch = false)
    (hnp : cstrHas o.o_noprint ch = true ∨ o.isprint ch = false)
    (hc : o.iscntrl ch = false ∨ (0x20 ≤ ch ∧ ch ≠ 0x7f)) (hoct : o.o_octal = true) :
    v_key_len o ch = 4 ∧ v_key_len o ch = 2 + BITS / 3 ∧
      v_key_len o ch + 1 = 2 + (BITS + 2) / 3 := by
  have h4 : v_key_len o ch = 4 := by
    rw [v_key_len, v_key_name_octal o ch hp hnp hc hoct, octName, List.length_cons,
      List.length_cons, octLoop_length]
    rfl
  refine ⟨h4, ?_, ?_⟩
  · rw [h4]; rfl
  · rw [h4]; rfl

theorem v_key_len_octal_witness :
    v_key_len (keyOpts false true) 0xff = 4 ∧ v_key_len (keyOpts false true) 0xff = 2 + BITS / 3 ∧
      v_key_len (keyOpts false true) 0xff + 1 = 2 + (BITS + 2) / 3 :=
  v_key_len_octal (keyOpts false true) 0xff rfl (Or.inr rfl) (Or.inl rfl) rfl

set_option maxRecDepth 100000 in
theorem octName_digits :
    ∀ ch, ch < 256 → octName ch = [92, 48 + ch / 64, 48 + ch / 8 % 8, 48 + ch % 8] := by
  decide

/-- C30: for every 8-bit character `ch` that takes the octal branch, the name is
a backslash and three octal digits `d1 d2 d3` (characters `0` to `7`) with
`64 * d1 + 8 * d2 + d3 = ch`; two such characters with the same name are
equal. -/
theorem v_key_name_octal_digits (o : KeyOpts) (ch : Nat) (h8 : ch < 256)
    (hp : cstrHas o.o_print ch = false)
    (hnp : cstrHas o.o_noprint ch = true ∨ o.isprint ch = false)
    (hc : o.iscntrl ch = false ∨ (0x20 ≤ ch ∧ ch ≠ 0x7f)) (hoct : o.o_octal = true) :
    (∃ d1 d2 d3, d1 < 8 ∧ d2 < 8 ∧ d3 < 8 ∧
      v_key_name o ch = [92, 48 + d1, 48 + d2, 48 + d3] ∧ 64 * d1 + 8 * d2 + d3 = ch) ∧
    (∀ ch2, ch2 < 256 → cstrHas o.o_print ch2 = false →
      (cstrHas o.o_noprint ch2 = true ∨ o.isprint ch2 = false) →
      (o.iscntrl ch2 = false ∨ (0x20 ≤ ch2 ∧ ch2 ≠ 0x7f)) →
      v_key_name o ch = v_key_name o ch2 → ch = ch2) := by
  have hn := v_key_name_octal o ch hp hnp hc hoct
  rw [octName_digits ch h8] at hn
  constructor
  · exact ⟨ch / 64, ch / 8 % 8, ch % 8, by omega, by omega, by omega, hn, by omega⟩
  · intro ch2 h82 hp2 hnp2 hc2 heq
    have hn2 := v_key_name_octal o ch2 hp2 hnp2 hc2 hoct
    rw [octName_digits ch2 h82] at hn2
    rw [hn, hn2] at heq
    simp only [List.cons.injEq, and_true, true_and] at heq
    omega

theorem v_key_name_octal_digits_witness :
    (∃ d1 d2 d3, d1 < 8 ∧ d2 < 8 ∧ d3 < 8 ∧
      v_key_name (keyOpts false true) 0xa9 = [92, 48 + d1, 48 + d2, 48 + d3] ∧
      64 * d1 + 8 * d2 + d3 = 0xa9) ∧
    v_key_name (keyOpts false true) 0xa9 = [92, 50, 53, 49] :=
  ⟨(v_key_name_octal_digits (keyOpts false true) 0xa9 (by decide) rfl (Or.inr rfl)
      (Or.inl rfl) rfl).1,
   by decide⟩

/-! ## The eligibility gate of `v_event_get` -/

/-- C31: without `EC_MAPNODIGIT`, when the head `e` of the queue is a character and
the timeout of a partial match has expired in this call (`istimeout`), or the key
carries `CH_NOMAP`, or neither `EC_MAPCOMMAND` nor `EC_MAPINPUT` is requested, or
the key is below `MAX_BIT_SEQ` with its bit of `gp->seqb` clear: from the label
`newmap` the call returns 0 with `*argp = e`, exactly as queued, and removes only
`e`; no event is read, and the result is the same whatever the bindings
`gp->seqq` are.  The last part is the whole call for a queue that is not empty,
without `EC_INTERRUPT` and `EC_TIMEOUT`. -/
theorem v_event_get_gate_skips_map (env : Env) (gp : GS) (flags : ECFlags) (loc : Locals)
    (e : EVENT) (k : Nat) (hwf : gp.wf) (hsz : gp.i_nelem ≤ SIZE_MAX)
    (hhead : gp.view.head? = some e) (hchar : e.e_event = .E_CHARACTER)
    (hnd : flags.mapnodigit = false)
    (hgate : loc.istimeout = true ∨ mapSkipped env flags e = true) :
    v_event_get_run env flags (k + 1) .newmap loc gp = .ret 0 e (QREM gp 1) ∧
    (QREM gp 1).view = gp.view.tail ∧ (QREM gp 1).scr_log = gp.scr_log ∧
    (∀ seqq2, v_event_get_run (env.withSeqq seqq2) flags (k + 1) .newmap loc gp
      = .ret 0 e (QREM gp 1)) ∧
    (∀ argp timeout, flags.interrupt = false → flags.timeout = false →
      mapSkipped env flags e = true →
      v_event_get env (k + 3) gp argp timeout flags = .ret 0 e (QREM gp 1)) := by
  obtain ⟨hcnt, hget⟩ := view_head_cnt gp e hwf hhead
  obtain ⟨q1, _⟩ := QREM_view gp 1 hwf hsz (by omega)
  have hgate1 : loc.istimeout = true ∨ mapSkipped env flags e = true ∨
      seq_find env.seqq gp.view (mapType flags) = (none, false) := by
    rcases hgate with h | h
    · exact Or.inl h
    · exact Or.inr (Or.inl h)
  refine ⟨?_, by rw [q1, List.drop_one], (QREM_frame gp 1).1, ?_, ?_⟩
  · apply v_event_get_run_done
    exact v_event_get_newmap_unmapped env flags loc gp e hget hchar hgate1 (Or.inl hnd)
  · intro seqq2
    apply v_event_get_run_done
    have hgate2 : loc.istimeout = true ∨ mapSkipped (env.withSeqq seqq2) flags e = true ∨
        seq_find (env.withSeqq seqq2).seqq gp.view (mapType flags) = (none, false) := by
      rcases hgate with h | h
      · exact Or.inl h
      · exact Or.inr (Or.inl h)
    exact v_event_get_newmap_unmapped (env.withSeqq seqq2) flags loc gp e hget hchar hgate2
      (Or.inl hnd)
  · intro argp timeout hfi hft hskip
    rw [v_event_get_to_newmap env flags (k + 1) gp argp timeout hcnt hfi hft]
    apply v_event_get_run_done
    exact v_event_get_newmap_unmapped env flags _ gp e hget hchar (Or.inr (Or.inl hskip))
      (Or.inl hnd)

theorem v_event_get_gate_skips_map_witness :
    v_event_get (mapEnv [⟨.SEQ_COMMAND, [97], some [120]⟩] true) (0 + 3) qnomap EVENT.zero 0
        EC_MAPCOMMAND = .ret 0 (chEvent noKeys CH_NOMAP 97) (QREM qnomap 1) ∧
      (QREM qnomap 1).view = [chEvent noKeys CH_NONE 98] :=
  have h := v_event_get_gate_skips_map (mapEnv [⟨.SEQ_COMMAND, [97], some [120]⟩] true) qnomap
    EC_MAPCOMMAND ⟨EVENT.zero, 0, false, 0⟩ (chEvent noKeys CH_NOMAP 97) 0
    ⟨by decide, by decide, by decide⟩ (by decide) rfl rfl rfl (Or.inr (by decide))
  ⟨h.2.2.2.2 EVENT.zero 0 rfl rfl (by decide), h.2.1.trans (by decide)⟩

/-! ## The interrupt poll of the remap loop -/

theorem v_event_get_nomap_log (flags : ECFlags) (argp : EVENT) (gp : GS) (evp : Nat)
    (lg : List (ECFlags × Int))
    (h : (v_event_get_nomap flags argp gp evp).log? = some lg) : lg = gp.scr_log := by
  unfold v_event_get_nomap at h
  split at h
  · simp [Outcome.log?] at h
  · split at h
    · simp only [v_event_get_not_digit, Outcome.log?, Option.some.injEq] at h
      exact h.symm
    · simp only [Outcome.log?, Option.some.injEq] at h
      rw [← h, (QREM_frame gp 1).1]

theorem v_event_get_expand_eq (env : Env) (flags : ECFlags) (loc : Locals) (gp : GS)
    (qp : SEQ) (out : List Nat) (init_nomap : Bool) (evp : Nat)
    (hremap : env.o_remap = true) :
    v_event_get_expand env flags loc gp qp out init_nomap evp =
      if loc.remap_cnt + 1 = 1 ∨ (loc.remap_cnt + 1) % 10 = 0 then
        match env.scr_event gp.scr_log.length EC_INTERRUPT 0 with
        | none => .done (v_event_get_interrupted loc gp)
        | some ev =>
          if ev.e_event = .E_INTERRUPT then .done (v_event_get_interrupted loc gp)
          else v_event_get_remap_push env flags loc (logRead gp EC_INTERRUPT 0) qp out init_nomap
      else v_event_get_remap_push env flags loc gp qp out init_nomap := by
  unfold v_event_get_expand v_event_get_remap_push v_event_get_interrupted
  simp only [hremap, if_true]
  by_cases hP : loc.remap_cnt + 1 = 1 ∨ (loc.remap_cnt + 1) % 10 = 0
  · simp only [hP, if_true, callScrEvent]
    cases hev : env.scr_event gp.scr_log.length EC_INTERRUPT 0 with
    | none => simp [logRead]
    | some ev =>
      by_cases hi : ev.e_event = .E_INTERRUPT
      · simp [hi, logRead]
      · simp [hi, logRead]
  · simp only [hP, if_false, Bool.false_eq_true]

theorem v_event_get_remap_push_log (env : Env) (flags : ECFlags) (loc : Locals) (gp : GS)
    (qp : SEQ) (out : List Nat) (init_nomap : Bool) (hwf : gp.wf) :
    (∀ lg, (v_event_get_remap_push env flags loc gp qp out init_nomap).log? = some lg →
      lg = gp.scr_log) ∧
    (∀ l loc1 gp1, v_event_get_remap_push env flags loc gp qp out init_nomap = .goto l loc1 gp1 →
      l = .newmap ∧ loc1.remap_cnt = loc.remap_cnt + 1 ∧
      gp1.view = out.map (chEvent env.key_val CH_MAPPED) ++ gp.view) := by
  unfold v_event_get_remap_push
  cases init_nomap with
  | true =>
    obtain ⟨g2, h1, _, hw2, _, hl2, _⟩ := v_event_push_view env.key_val gp none
      (out.drop qp.input.length) CH_MAPPED hwf
    obtain ⟨g3, h3, _, _, _, hl3, _⟩ := v_event_push_view env.key_val g2 none
      (out.take qp.input.length) (CH_NOMAP.or CH_MAPPED) hw2
    simp only [if_true, h1, ne_eq, not_true_eq_false, if_false, h3]
    constructor
    · intro lg h
      simp only [Step.log?] at h
      rw [v_event_get_nomap_log flags loc.argp g3 g3.i_next lg h, hl3, hl2]
    · intro l loc1 gp1 h
      cases h
  | false =>
    obtain ⟨g2, h1, hv, _, _, hl2, _⟩ := v_event_push_view env.key_val gp none out CH_MAPPED hwf
    simp only [Bool.false_eq_true, if_false, h1, ne_eq, not_true_eq_false]
    constructor
    · intro lg h
      simp only [Step.log?, Option.some.injEq] at h
      rw [← h, hl2]
    · intro l loc1 gp1 h
      simp only [Step.goto.injEq] at h
      obtain ⟨ha, hb, hc⟩ := h
      subst ha hb hc
      exact ⟨rfl, rfl, by rw [hv]; rfl⟩

/-- The step at `newmap` for a head character whose binding `qp` has an output
and is not cut short by digit termination: the input is removed and the output
expanded. -/
theorem v_event_get_newmap_expand (env : Env) (flags : ECFlags) (loc : Locals) (gp : GS)
    (e : EVENT) (qp : SEQ) (out : List Nat)
    (hget : gp.i_event.get? gp.i_next = some e) (hchar : e.e_event = .E_CHARACTER)
    (hti : loc.istimeout = false) (hskip : mapSkipped env flags e = false)
    (hfind : seq_find env.seqq gp.view (mapType flags) = (some qp, false))
    (hout : qp.output = some out)
    (hdig : flags.mapnodigit = false ∨ isdigit (out.getD 0 0) = true) :
    v_event_get_step env flags .newmap loc gp =
      v_event_get_expand env flags loc (QREM gp qp.input.length) qp out
        (e_memcmp_eq out (gp.i_event.drop gp.i_next) qp.input.length) gp.i_next := by
  unfold mapSkipped at hskip
  unfold mapType at hfind
  have hd : (flags.mapnodigit && qp.output.isSome &&
      !isdigit ((qp.output.getD []).getD 0 0)) = false := by
    rw [hout]
    rcases hdig with h | h
    · simp only [h, Bool.false_and]
    · simp only [Option.getD_some, h, Bool.not_true, Bool.and_false]
  simp only [v_event_get_step, v_event_get_newmap, hget, hchar, ne_eq, not_true_eq_false,
    if_false, hti, Bool.false_or, hskip, Bool.false_eq_true, hfind, hd]
  rw [hout]
  rfl

/-- One expansion under `O_REMAP`, entered with `remap_cnt = n - 1`: whatever it
ends with, `gp->scr_event` was called in it exactly once, with `EC_INTERRUPT` and
timeout 0, when `n = 1` or `n` is a multiple of 10, and not at all otherwise.
When that call fails or answers with an interrupt event, the call of
`v_event_get` ends: `G_INTERRUPTED` is set, nothing is pushed (the queue is as
the removal of the input left it), the return value is 0 and `argp->e_event` is
`E_INTERRUPT`.  The last part is the whole call for the first expansion. -/
theorem v_event_get_remap_poll_step (env : Env) (flags : ECFlags) (qp : SEQ) (out : List Nat)
    (hremap : env.o_remap = true) :
    (∀ (loc : Locals) (gp : GS) (init_nomap : Bool) (evp : Nat), gp.wf →
      (∀ lg, (v_event_get_expand env flags loc gp qp out init_nomap evp).log? = some lg →
        lg = gp.scr_log ++
          (if loc.remap_cnt + 1 = 1 ∨ (loc.remap_cnt + 1) % 10 = 0 then [(EC_INTERRUPT, 0)]
           else [])) ∧
      ((loc.remap_cnt + 1 = 1 ∨ (loc.remap_cnt + 1) % 10 = 0) →
        (env.scr_event gp.scr_log.length EC_INTERRUPT 0 = none ∨
          ∃ ev, env.scr_event gp.scr_log.length EC_INTERRUPT 0 = some ev ∧
            ev.e_event = .E_INTERRUPT) →
        v_event_get_expand env flags loc gp qp out init_nomap evp =
          .done (.ret 0 { loc.argp with e_event := .E_INTERRUPT }
            { logRead gp EC_INTERRUPT 0 with interrupted := true })) ∧
      (∀ l loc1 gp1, v_event_get_expand env flags loc gp qp out init_nomap evp
          = .goto l loc1 gp1 →
        l = .newmap ∧ loc1.remap_cnt = loc.remap_cnt + 1)) ∧
    (∀ (gp : GS) (argp : EVENT) (timeout : Int) (e : EVENT) (k : Nat), gp.wf →
      gp.i_nelem ≤ SIZE_MAX → flags.interrupt = false → flags.timeout = false →
      gp.view.head? = some e → e.e_event = .E_CHARACTER → mapSkipped env flags e = false →
      seq_find env.seqq gp.view (mapType flags) = (some qp, false) → qp.output = some out →
      (flags.mapnodigit = false ∨ isdigit (out.getD 0 0) = true) →
      (env.scr_event gp.scr_log.length EC_INTERRUPT 0 = none ∨
        ∃ ev, env.scr_event gp.scr_log.length EC_INTERRUPT 0 = some ev ∧
          ev.e_event = .E_INTERRUPT) →
      v_event_get env (k + 3) gp argp timeout flags =
        .ret 0 { argp with e_event := .E_INTERRUPT }
          { logRead (QREM gp qp.input.length) EC_INTERRUPT 0 with interrupted := true } ∧
      (QREM gp qp.input.length).view = gp.view.drop qp.input.length) := by
  have hint : ∀ (loc : Locals) (gp : GS) (init_nomap : Bool) (evp : Nat),
      (loc.remap_cnt + 1 = 1 ∨ (loc.remap_cnt + 1) % 10 = 0) →
      (env.scr_event gp.scr_log.length EC_INTERRUPT 0 = none ∨
        ∃ ev, env.scr_event gp.scr_log.length EC_INTERRUPT 0 = some ev ∧
          ev.e_event = .E_INTERRUPT) →
      v_event_get_expand env flags loc gp qp out init_nomap evp =
        .done (.ret 0 { loc.argp with e_event := .E_INTERRUPT }
          { logRead gp EC_INTERRUPT 0 with interrupted := true }) := by
    intro loc gp init_nomap evp hP hans
    rw [v_event_get_expand_eq env flags loc gp qp out init_nomap evp hremap, if_pos hP]
    rcases hans with h | ⟨ev, h, hi⟩
    · rw [h]; rfl
    · rw [h]; simp only [hi, if_true]; rfl
  constructor
  · intro loc gp init_nomap evp hwf
    refine ⟨?_, hint loc gp init_nomap evp, ?_⟩
    · intro lg h
      rw [v_event_get_expand_eq env flags loc gp qp out init_nomap evp hremap] at h
      by_cases hP : loc.remap_cnt + 1 = 1 ∨ (loc.remap_cnt + 1) % 10 = 0
      · rw [if_pos hP] at h ⊢
        cases hev : env.scr_event gp.scr_log.length EC_INTERRUPT 0 with
        | none =>
          rw [hev] at h
          simp only [Step.log?, Outcome.log?, v_event_get_interrupted, logRead,
            Option.some.injEq] at h
          exact h.symm
        | some ev =>
          rw [hev] at h
          by_cases hi : ev.e_event = .E_INTERRUPT
          · simp only [hi, if_true, Step.log?, Outcome.log?, v_event_get_interrupted, logRead,
              Option.some.injEq] at h
            exact h.symm
          · simp only [hi, if_false] at h
            exact (v_event_get_remap_push_log env flags loc _ qp out init_nomap
              (logRead_wf gp EC_INTERRUPT 0 hwf)).1 lg h
      · rw [if_neg hP] at h ⊢
        rw [List.append_nil]
        exact (v_event_get_remap_push_log env flags loc gp qp out init_nomap hwf).1 lg h
    · intro l loc1 gp1 h
      rw [v_event_get_expand_eq env flags loc gp qp out init_nomap evp hremap] at h
      by_cases hP : loc.remap_cnt + 1 = 1 ∨ (loc.remap_cnt + 1) % 10 = 0
      · rw [if_pos hP] at h
        cases hev : env.scr_event gp.scr_log.length EC_INTERRUPT 0 with
        | none => rw [hev] at h; cases h
        | some ev =>
          rw [hev] at h
          by_cases hi : ev.e_event = .E_INTERRUPT
          · simp only [hi, if_true] at h; cases h
          · simp only [hi, if_false] at h
            have := (v_event_get_remap_push_log env flags loc _ qp out init_nomap
              (logRead_wf gp EC_INTERRUPT 0 hwf)).2 l loc1 gp1 h
            exact ⟨this.1, this.2.1⟩
      · rw [if_neg hP] at h
        have := (v_event_get_remap_push_log env flags loc gp qp out init_nomap hwf).2 l loc1
          gp1 h
        exact ⟨this.1, this.2.1⟩
  · intro gp argp timeout e k hwf hsz hfi hft hhead hchar hskip hfind hout hdig hans
    obtain ⟨hcnt, hget⟩ := view_head_cnt gp e hwf hhead
    obtain ⟨hin, hpre, _, _⟩ := seq_find_some _ _ _ _ _ hfind
    obtain ⟨hilen, _⟩ := prefix_take_map _ _ hpre
    rw [view_length hwf] at hilen
    obtain ⟨q1, _⟩ := QREM_view gp qp.input.length hwf hsz hilen
    refine ⟨?_, q1⟩
    rw [v_event_get_to_newmap env flags (k + 1) gp argp timeout hcnt hfi hft]
    apply v_event_get_run_done
    rw [v_event_get_newmap_expand env flags _ gp e qp out hget hchar rfl hskip hfind hout hdig]
    apply hint
    · exact Or.inl rfl
    · rw [(QREM_frame gp qp.input.length).1]; exact hans

/-! ## The fast lookup table -/

theorem lastBinding_perm (a b : List KEYLIST) (ch : Nat) (hn : (a.map KEYLIST.ch).Nodup)
    (hp : a.Perm b) : lastBinding a ch = lastBinding b ch := by
  have hnb : (b.map KEYLIST.ch).Nodup := (hp.map KEYLIST.ch).nodup_iff.1 hn
  by_cases hex : ∃ e ∈ a, e.ch = ch
  · obtain ⟨e, he, hc⟩ := hex
    rw [← hc, lastBinding_mem a e hn he, lastBinding_mem b e hnb (hp.mem_iff.1 he)]
  · have ha : ∀ e ∈ a, e.ch ≠ ch := fun e he hc => hex ⟨e, he, hc⟩
    rw [lastBinding_none a ch ha, lastBinding_none b ch fun e he => ha e (hp.mem_iff.2 he)]

theorem v_key_init_fast_special (env : KeyEnv) :
    ∀ (L : List KEYLIST) (g : KeyGS) (ch : Nat), ch ≤ env.MAX_FAST_KEY →
      ch < g.special_key.length →
      (v_key_init_fast env L g).special_key.get? ch =
        match L.reverse.find? fun e => decide (e.ch = ch) with
        | some e => some e.value
        | none => g.special_key.get? ch := by
  intro L
  induction L with
  | nil => intro g ch _ _; rfl
  | cons kp rest ih =>
    intro g ch hch hlen
    rw [v_key_init_fast]
    have hlen2 : ∀ (g1 : KeyGS), g1.special_key = g.special_key →
        ch < (if kp.ch ≤ env.MAX_FAST_KEY then
          { g1 with special_key := g1.special_key.set kp.ch kp.value } else g1).special_key.length := by
      intro g1 h1
      split
      · simp only [List.length_set, h1]; exact hlen
      · rw [h1]; exact hlen
    rw [ih _ ch hch (hlen2 _ (by split <;> rfl))]
    rw [List.reverse_cons, List.find?_append]
    cases hf : List.find? (fun e => decide (e.ch = ch)) rest.reverse with
    | some e => rfl
    | none =>
      simp only [Option.none_or, List.find?_cons, List.find?_nil]
      have hsk : ∀ (g1 : KeyGS), g1.special_key = g.special_key →
          (if kp.ch ≤ env.MAX_FAST_KEY then
            { g1 with special_key := g1.special_key.set kp.ch kp.value } else g1).special_key.get? ch
          = if kp.ch = ch then some kp.value else g.special_key.get? ch := by
        intro g1 h1
        by_cases hk : kp.ch = ch
        · rw [if_pos (by omega), if_pos hk]
          simp only [h1, hk, List.get?_eq_getElem?]
          rw [List.getElem?_set_self hlen]
        · rw [if_neg hk]
          split
          · simp only [h1, List.get?_eq_getElem?]
            rw [List.getElem?_set_ne hk]
          · rw [h1]
      rw [hsk _ (by split <;> rfl)]
      by_cases hk : kp.ch = ch
      · simp [hk]
      · simp [hk]

theorem v_key_init_run (env : KeyEnv) (used rest : List KEYLIST) (g : KeyGS)
    (hf : 3 + 1 ≤ rest.length) (hu : ∀ e ∈ used, e.value ≠ .K_NOTUSED)
    (hr : ∀ e ∈ rest, e.value = .K_NOTUSED) (hn : (used.map KEYLIST.ch).Nodup) :
    ∃ u4 r4 r g1, v_key_init env ⟨used ++ rest, used.length⟩ g =
        some (r, ⟨qsort (u4 ++ r4) u4.length, u4.length⟩, g1) ∧
      (u4.map KEYLIST.ch).Nodup ∧
      g1.special_key = (v_key_init_fast env ((qsort (u4 ++ r4) u4.length).take u4.length)
        ⟨v_key_ilookup env.opts env.MAX_FAST_KEY, g.special_key, 0, g.noprint,
          g.msgs⟩).special_key := by
  obtain ⟨u1, r1, e1, hf1, hu1, hr1, hn1, _⟩ :=
    v_keyval_step env.scr_keyval used rest 3 .K_CNTRLD .KEY_VEOF hf hu hr hn (by decide)
  obtain ⟨u2, r2, e2, hf2, hu2, hr2, hn2, _⟩ :=
    v_keyval_step env.scr_keyval u1 r1 2 .K_VERASE .KEY_VERASE hf1 hu1 hr1 hn1 (by decide)
  obtain ⟨u3, r3, e3, hf3, hu3, hr3, hn3, _⟩ :=
    v_keyval_step env.scr_keyval u2 r2 1 .K_VKILL .KEY_VKILL hf2 hu2 hr2 hn2 (by decide)
  obtain ⟨u4, r4, e4, _, _, _, hn4, _⟩ :=
    v_keyval_step env.scr_keyval u3 r3 0 .K_VWERASE .KEY_VWERASE hf3 hu3 hr3 hn3 (by decide)
  refine ⟨u4, r4, ?_⟩
  simp only [v_key_init, e1, e2, e3, e4]
  split
  · exact ⟨_, _, rfl, hn4, rfl⟩
  · split
    · exact ⟨_, _, rfl, hn4, rfl⟩
    · exact ⟨_, _, rfl, hn4, rfl⟩

/-- C33: from a key table with `ADDITIONAL_CHARACTERS` open slots (as the initial
`keylist[]`) and a fast table `special_key` of `MAX_FAST_KEY + 1` zero entries,
`v_key_init` runs to its end, and afterwards, for every character
`ch <= MAX_FAST_KEY`, the entry `special_key[ch]` is the value `v_key_val(ch)`
finds by binary search. -/
theorem v_key_init_fast_path_agrees (env : KeyEnv) (t : KeyTab) (g : KeyGS)
    (hwf : t.wf ADDITIONAL_CHARACTERS)
    (hzero : g.special_key = List.replicate (env.MAX_FAST_KEY + 1) .K_NOTUSED) :
    ∃ r t1 g1, v_key_init env t g = some (r, t1, g1) ∧
      g1.special_key.length = env.MAX_FAST_KEY + 1 ∧
      ∀ ch, ch ≤ env.MAX_FAST_KEY → g1.special_key.get? ch = some (v_key_val t1 ch) := by
  obtain ⟨used, rest, ht, hf, hu, hr, hn⟩ := KeyTab.wf_parts t _ hwf
  subst ht
  obtain ⟨u4, r4, r, g1, hinit, hn4, hsk⟩ := v_key_init_run env used rest g hf hu hr hn
  have hq : (qsort (u4 ++ r4) u4.length).take u4.length = u4.insertionSort keyLe := by
    simp only [qsort, List.take_left', List.drop_left']
    rw [List.take_left' (List.length_insertionSort _ _)]
  have hget : ∀ ch, ch ≤ env.MAX_FAST_KEY →
      g1.special_key.get? ch = some (v_key_val ⟨qsort (u4 ++ r4) u4.length, u4.length⟩ ch) := by
    intro ch hch
    rw [hsk, v_key_init_fast_special env _ _ ch hch (by
      simp only [hzero, List.length_replicate]; omega), hq, v_key_val_sorted u4 r4 hn4 ch,
      ← lastBinding_perm _ _ ch ((List.perm_insertionSort keyLe u4).map KEYLIST.ch |>.nodup_iff.2 hn4)
        (List.perm_insertionSort keyLe u4)]
    simp only [hzero, List.get?_eq_getElem?]
    rw [List.getElem?_replicate, if_pos (by omega)]
    unfold lastBinding
    cases List.find? (fun e => decide (e.ch = ch)) (u4.insertionSort keyLe).reverse <;> rfl
  refine ⟨r, _, g1, hinit, ?_, hget⟩
  have hlen : ∀ (L : List KEYLIST) (g0 : KeyGS),
      (v_key_init_fast env L g0).special_key.length = g0.special_key.length := by
    intro L
    induction L with
    | nil => intro g0; rfl
    | cons kp rest ih =>
      intro g0
      rw [v_key_init_fast, ih]
      by_cases h1 : kp.ch ≤ env.MAX_FAST_KEY <;>
        by_cases h2 : g0.max_special < env.keyNum kp.value <;> simp [h1, h2]
  rw [hsk, hlen]
  simp [hzero]

set_option maxRecDepth 100000 in
theorem v_key_init_fast_path_agrees_witness :
    (∃ r t1 g1, v_key_init keyEnv0 keyTab0 keyGS0 = some (r, t1, g1) ∧
      g1.special_key.length = keyEnv0.MAX_FAST_KEY + 1 ∧
      g1.special_key.get? 127 = some (v_key_val t1 127)) ∧
    (v_key_init keyEnv0 keyTab0 keyGS0).map
        (fun y => (y.2.2.special_key.get? 127, v_key_val y.2.1 127, y.2.2.special_key.get? 65))
      = some (some .K_VERASE, .K_VERASE, some .K_NOTUSED) :=
  have h := v_key_init_fast_path_agrees keyEnv0 keyTab0 keyGS0 (by decide) (by decide)
  ⟨h.elim fun r h1 => h1.elim fun t1 h2 => h2.elim fun g1 h3 =>
      ⟨r, t1, g1, h3.1, h3.2.1, h3.2.2 127 (by decide)⟩,
    by decide⟩

/-! ## Interrupt and timeout checks on a queue that is not empty -/

/-- C34, as stated, fails for `EC_INTERRUPT`: the queue holds `a`, `b`, `c` and the
caller asks for an interrupt check only.  `v_event_get` calls `gp->scr_event`
once; the character `z` it answers with is appended, so the queue is `a`, `b`,
`c`, `z` when the call returns 0. -/
theorem v_event_get_check_counterexample :
    qabc.i_cnt ≠ 0 ∧
    (v_event_get zEnv 3 qabc EVENT.zero 0 EC_INTERRUPT).chars? = some [97, 98, 99, 122] ∧
    (v_event_get zEnv 3 qabc EVENT.zero 0 EC_INTERRUPT).log? = some [(EC_INTERRUPT, 0)] ∧
    qabc.scr_log = [] := by
  decide

theorem v_event_get_loop_log (env : Env) (flags : ECFlags) (loc : Locals) (gp : GS) (n : Nat)
    (hwf : gp.wf) (hsz : gp.i_nelem ≤ SIZE_MAX) (hfi : flags.interrupt = true) :
    (v_event_get_run env flags (n + 2) .loop loc gp).log? =
      some (gp.scr_log ++ [(readFlags flags, loc.timeout)]) := by
  have hfetched : ∀ (loc1 : Locals) (gp1 : GS),
      v_event_get_run env flags (n + 1) .fetched loc1 gp1 = .ret 0 loc1.argp gp1 := by
    intro loc1 gp1
    apply v_event_get_run_done
    simp [v_event_get_step, v_event_get_fetched, hfi]
  have happ : ∀ (e : EVENT),
      (match v_event_get_append env { loc with argp := e } (logRead gp (readFlags flags) loc.timeout) with
        | .done o => o
        | .goto l1 loc1 gp1 => v_event_get_run env flags (n + 1) l1 loc1 gp1).log? =
      some (gp.scr_log ++ [(readFlags flags, loc.timeout)]) := by
    intro e
    obtain ⟨g2, h1, _, _, _, hl, _⟩ := v_event_append_view env.key_val
      (logRead gp (readFlags flags) loc.timeout) e (logRead_wf gp _ _ hwf) hsz
    simp only [v_event_get_append, h1, ne_eq, not_true_eq_false, if_false, hfetched,
      Outcome.log?, hl]
    rfl
  rw [v_event_get_run]
  simp only [v_event_get_step, v_event_get_loop, callScrEvent]
  cases hread : env.scr_event gp.scr_log.length
      ⟨flags.interrupt, false, false, false, flags.quoted, flags.raw, false⟩ loc.timeout with
  | none => rfl
  | some e =>
    have ha := happ e
    simp only [logRead, readFlags] at ha
    cases he : e.e_event <;>
      first
      | (simp only [he, hfi, if_true, Outcome.log?, v_sync, readFlags]; done)
      | (simp only [he, hfetched, Outcome.log?, readFlags]; done)
      | (simp only [he]; exact ha)

theorem v_event_get_loop_append (env : Env) (flags : ECFlags) (loc : Locals) (gp : GS)
    (n : Nat) (e : EVENT) (hwf : gp.wf) (hsz : gp.i_nelem ≤ SIZE_MAX)
    (hfi : flags.interrupt = true)
    (hread : env.scr_event gp.scr_log.length (readFlags flags) loc.timeout = some e)
    (hord : e.e_event ≠ .E_ERR ∧ e.e_event ≠ .E_SIGHUP ∧ e.e_event ≠ .E_SIGTERM ∧
      e.e_event ≠ .E_TIMEOUT ∧ e.e_event ≠ .E_INTERRUPT) :
    ∃ gp1, v_event_get_run env flags (n + 2) .loop loc gp = .ret 0 e gp1 ∧
      gp1.view = gp.view ++ appendItems env.key_val e ∧
      gp1.scr_log = gp.scr_log ++ [(readFlags flags, loc.timeout)] ∧ gp1.wf ∧
      gp1.synced = gp.synced ∧ gp1.interrupted = gp.interrupted := by
  have hfetched : ∀ (loc1 : Locals) (gp1 : GS),
      v_event_get_run env flags (n + 1) .fetched loc1 gp1 = .ret 0 loc1.argp gp1 := by
    intro loc1 gp1
    apply v_event_get_run_done
    simp [v_event_get_step, v_event_get_fetched, hfi]
  obtain ⟨g2, h1, hv, hw, hi, hl, hs, _⟩ := v_event_append_view env.key_val
    (logRead gp (readFlags flags) loc.timeout) e (logRead_wf gp _ _ hwf) hsz
  refine ⟨g2, ?_, hv, hl, hw, hs, hi⟩
  have happ : (match v_event_get_append env { loc with argp := e }
        (logRead gp (readFlags flags) loc.timeout) with
      | .done o => o
      | .goto l1 loc1 gp1 => v_event_get_run env flags (n + 1) l1 loc1 gp1) = .ret 0 e g2 := by
    simp only [v_event_get_append, h1, ne_eq, not_true_eq_false, if_false, hfetched]
  rw [v_event_get_run]
  simp only [v_event_get_step, v_event_get_loop, callScrEvent]
  have hread1 : env.scr_event gp.scr_log.length
      ⟨flags.interrupt, false, false, false, flags.quoted, flags.raw, false⟩ loc.timeout =
      some e := hread
  rw [hread1]
  simp only [logRead, readFlags] at happ
  obtain ⟨o1, o2, o3, o4, o5⟩ := hord
  cases he : e.e_event <;>
    first
    | exact absurd he o1
    | exact absurd he o2
    | exact absurd he o3
    | exact absurd he o4
    | exact absurd he o5
    | (simp only [he]; exact happ)

/-- C34, amended: when the queue is not empty and `EC_TIMEOUT` is among the flags,
`v_event_get` returns 0 at once: `*argp`, the queue and the record of
`gp->scr_event` calls are as before.  With `EC_INTERRUPT` and without
`EC_TIMEOUT` the queue is not looked at: when `G_SCRWIN` is set and `sscr_input`
fails the call returns 1 at once; otherwise it goes to the read and
`gp->scr_event` is called exactly once, with the caller's timeout, before the
call returns.  An event it answers with, other than `E_ERR`, `E_SIGHUP`,
`E_SIGTERM`, `E_TIMEOUT` and `E_INTERRUPT`, is appended to the queue (one
character event per character for a string), and the call returns 0 with that
event in `*argp`. -/
theorem v_event_get_timeout_check (env : Env) (gp : GS) (argp : EVENT) (timeout : Int)
    (flags : ECFlags) (k : Nat) (hcnt : gp.i_cnt ≠ 0) :
    (flags.timeout = true → v_event_get env (k + 1) gp argp timeout flags = .ret 0 argp gp) ∧
    (flags.timeout = false → flags.interrupt = true →
      (env.g_scrwin = true ∧ env.sscr_input ≠ 0) →
      v_event_get env (k + 1) gp argp timeout flags = .ret 1 argp gp) ∧
    (flags.timeout = false → flags.interrupt = true →
      ¬ (env.g_scrwin = true ∧ env.sscr_input ≠ 0) → gp.wf → gp.i_nelem ≤ SIZE_MAX →
      (v_event_get env (k + 3) gp argp timeout flags).log? =
          some (gp.scr_log ++ [(readFlags flags, timeout)]) ∧
      ∀ e, env.scr_event gp.scr_log.length (readFlags flags) timeout = some e →
        e.e_event ≠ .E_ERR ∧ e.e_event ≠ .E_SIGHUP ∧ e.e_event ≠ .E_SIGTERM ∧
          e.e_event ≠ .E_TIMEOUT ∧ e.e_event ≠ .E_INTERRUPT →
        ∃ gp1, v_event_get env (k + 3) gp argp timeout flags = .ret 0 e gp1 ∧
          gp1.view = gp.view ++ appendItems env.key_val e ∧
          gp1.scr_log = gp.scr_log ++ [(readFlags flags, timeout)] ∧ gp1.wf ∧
          gp1.synced = gp.synced ∧ gp1.interrupted = gp.interrupted) := by
  refine ⟨?_, ?_, ?_⟩
  · intro ht
    unfold v_event_get
    apply v_event_get_run_done
    simp [v_event_get_step, v_event_get_retry, hcnt, ht]
  · intro ht hfi hs
    unfold v_event_get
    apply v_event_get_run_done
    simp only [v_event_get_step, v_event_get_retry, ht, Bool.false_eq_true, and_false,
      if_false, hfi, true_or, or_true, if_true]
    rw [if_pos hs]
  · intro ht hfi hs hwf hsz
    have hgo : v_event_get env (k + 3) gp argp timeout flags =
        v_event_get_run env flags (k + 2) .loop ⟨argp, timeout, false, 0⟩ gp := by
      unfold v_event_get
      rw [v_event_get_run_goto env flags (k + 2) .retry .loop ⟨argp, timeout, false, 0⟩
        ⟨argp, timeout, false, 0⟩ gp gp]
      simp only [v_event_get_step, v_event_get_retry, ht, Bool.false_eq_true, and_false,
        if_false, hfi, true_or, or_true, if_true]
      rw [if_neg hs]
    rw [hgo]
    exact ⟨v_event_get_loop_log env flags ⟨argp, timeout, false, 0⟩ gp k hwf hsz hfi,
      fun e hread hord =>
        v_event_get_loop_append env flags ⟨argp, timeout, false, 0⟩ gp k e hwf hsz hfi hread
          hord⟩

theorem v_event_get_timeout_check_witness :
    v_event_get zEnv (0 + 1) qabc EVENT.zero 0 EC_TIMEOUT = .ret 0 EVENT.zero qabc ∧
    (v_event_get zEnv (0 + 3) qabc EVENT.zero 0 EC_INTERRUPT).log? =
      some (qabc.scr_log ++ [(readFlags EC_INTERRUPT, 0)]) ∧
    (∃ gp1, v_event_get zEnv (0 + 3) qabc EVENT.zero 0 EC_INTERRUPT =
        .ret 0 (chEvent noKeys CH_NONE 122) gp1 ∧
      gp1.view.map EVENT.e_c = [97, 98, 99, 122]) :=
  have h := v_event_get_timeout_check zEnv qabc EVENT.zero 0 EC_TIMEOUT 0 (by decide)
  have h2 := (v_event_get_timeout_check zEnv qabc EVENT.zero 0 EC_INTERRUPT 0 (by decide)).2.2
    rfl rfl (by decide) ⟨by decide, by decide, by decide⟩ (by decide)
  ⟨h.1 rfl, h2.1,
    (h2.2 (chEvent noKeys CH_NONE 122) rfl (by decide)).elim fun gp1 hg =>
      ⟨gp1, hg.1, (congrArg (List.map EVENT.e_c) hg.2.1).trans (by decide)⟩⟩

/-! ## The invariant of the event queue -/

theorem QReach_wf (kv : Nat → e_key_t) (gp : GS) (h : QReach kv gp) :
    gp.wf ∧ gp.i_nelem ≤ SIZE_MAX := by
  induction h with
  | empty => exact ⟨⟨rfl, by decide, fun _ => rfl⟩, by decide⟩
  | push p_evp p_s flags _ hstep hsz ih =>
    obtain ⟨g, h1, _, hw, _⟩ := v_event_push_view kv _ p_evp p_s flags ih.1
    rw [h1] at hstep
    simp only [Option.some.injEq, Prod.mk.injEq] at hstep
    rw [← hstep.2]
    exact ⟨hw, by rw [hstep.2]; exact hsz⟩
  | append argp _ hstep hsz ih =>
    obtain ⟨g, h1, _, hw, _⟩ := v_event_append_view kv _ argp ih.1 ih.2
    rw [h1] at hstep
    simp only [Option.some.injEq, Prod.mk.injEq] at hstep
    rw [← hstep.2]
    exact ⟨hw, by rw [hstep.2]; exact hsz⟩
  | flush flags _ hstep ih =>
    obtain ⟨g, h1, _, hw, _, hn, _⟩ :=
      v_event_flush_loop_spec flags _ 0 _ ih.1 ih.2 (Nat.lt_succ_self _)
    unfold v_event_flush at hstep
    rw [h1] at hstep
    simp only [Option.some.injEq, Prod.mk.injEq] at hstep
    rw [← hstep.2]
    exact ⟨hw, by rw [hn]; exact ih.2⟩
  | qrem len _ hlen ih =>
    obtain ⟨_, hw, _, hn, _⟩ := QREM_view _ len ih.1 ih.2 hlen
    exact ⟨hw, by rw [hn]; exact ih.2⟩

/-- C35: every queue state reached from the empty queue by `v_event_push`,
`v_event_append`, `v_event_flush` and removals of at most `i_cnt` events from the
front has `i_next + i_cnt <= i_nelem`, has `i_next = 0` when `i_cnt = 0`, and an
array of `i_nelem` slots; from such a state every `v_event_push` and every
`v_event_append` returns 0 with all its stores inside the array. -/
theorem event_queue_invariant (kv : Nat → e_key_t) (gp : GS) (h : QReach kv gp) :
    gp.i_next + gp.i_cnt ≤ gp.i_nelem ∧ (gp.i_cnt = 0 → gp.i_next = 0) ∧
    gp.i_event.length = gp.i_nelem ∧
    (∀ p_evp p_s flags, ∃ gp1, v_event_push kv gp p_evp p_s flags = some (0, gp1) ∧
      gp1.i_next + gp1.i_cnt ≤ gp1.i_nelem) ∧
    (∀ argp, ∃ gp1, v_event_append kv gp argp = some (0, gp1) ∧
      gp1.i_next + gp1.i_cnt ≤ gp1.i_nelem) := by
  obtain ⟨hwf, hsz⟩ := QReach_wf kv gp h
  refine ⟨hwf.2.1, hwf.2.2, hwf.1, ?_, ?_⟩
  · intro p_evp p_s flags
    obtain ⟨g, h1, _, hw, _⟩ := v_event_push_view kv gp p_evp p_s flags hwf
    exact ⟨g, h1, hw.2.1⟩
  · intro argp
    obtain ⟨g, h1, _, hw, _⟩ := v_event_append_view kv gp argp hwf hsz
    exact ⟨g, h1, hw.2.1⟩

theorem event_queue_invariant_witness :
    (QREM qabc 3).i_next + (QREM qabc 3).i_cnt ≤ (QREM qabc 3).i_nelem ∧
    (QREM qabc 3).i_next = 0 :=
  have h := event_queue_invariant noKeys (QREM qabc 3)
    (QReach.qrem 3
      (QReach.append (strEvent [97, 98, 99]) QReach.empty
        (show v_event_append noKeys gs0 (strEvent [97, 98, 99]) = some (0, qabc) by decide)
        (by decide))
      (by decide))
  ⟨h.1, h.2.1 (by decide)⟩

/-! ## A range that ends on the last character of the file -/

theorem db_set_msgs {s : SCR} {l : Nat} {b : Line} {s1 : SCR} (h : db_set s l b = some s1) :
    s1.msgs = s.msgs := by
  unfold db_set at h
  split at h
  · cases h
  · simp only [Option.some.injEq] at h
    subst h
    rfl

theorem db_delete_msgs {s s1 : SCR} {lno : Nat} (h : db_delete s lno = some s1) :
    (bumpDeleted s1).msgs = s.msgs := by
  unfold db_delete at h
  split at h
  · cases h
  · simp only [Option.some.injEq] at h
    subst h
    rfl

theorem delLinesGt_msgs (ic : Nat) (intr : Nat → Bool) (lo : Nat) :
    ∀ (n : Nat) (s : SCR) (r : Nat) (s1 : SCR),
      delLinesGt ic intr lo n s = (r, s1) → s1.msgs = s.msgs := by
  intro n
  induction n with
  | zero =>
    intro s r s1 h
    simp only [delLinesGt, Prod.mk.injEq] at h
    rw [← h.2]
  | succ n ih =>
    intro s r s1 h
    unfold delLinesGt at h
    split at h
    · simp only [Prod.mk.injEq] at h
      rw [← h.2]
    · split at h
      · simp only [Prod.mk.injEq] at h
        rw [← h.2]
      · rename_i s2 hd
        simp only at h
        split at h
        · simp only [Prod.mk.injEq] at h
          rw [← h.2]; exact db_delete_msgs hd
        · exact (ih _ _ _ h).trans (db_delete_msgs hd)

theorem delLinesGe_msgs (ic : Nat) (intr : Nat → Bool) (lo : Nat) :
    ∀ (n : Nat) (s : SCR) (r : Nat) (s1 : SCR),
      delLinesGe ic intr lo n s = (r, s1) → s1.msgs = s.msgs := by
  intro n
  induction n with
  | zero =>
    intro s r s1 h
    unfold delLinesGe at h
    split at h <;>
    · simp only [Prod.mk.injEq] at h
      rw [← h.2]
  | succ n ih =>
    intro s r s1 h
    unfold delLinesGe at h
    split at h
    · simp only [Prod.mk.injEq] at h
      rw [← h.2]
    · split at h
      · simp only [Prod.mk.injEq] at h
        rw [← h.2]
      · rename_i s2 hd
        simp only at h
        split at h
        · simp only [Prod.mk.injEq] at h
          rw [← h.2]; exact db_delete_msgs hd
        · exact (ih _ _ _ h).trans (db_delete_msgs hd)

/-- C37: `msgq` is called by `del` only for the line-length overflow of the
multi-line case.  Whenever a call of `del` has queued that message, it returned
1 and did nothing else: the lines, the counter of deleted lines and the record
of `db_delete` calls are as before, the messages are the old ones and
`Line length overflow`. -/
theorem del_overflow_leaves_store (ic : Nat) (intr : Nat → Bool) (tmpNull : Bool) (sp : SCR) (fm tm : MARK)
    (lmode : Int) (r : Nat) (sp1 : SCR) (h : del ic intr tmpNull sp fm tm lmode = some (r, sp1))
    (hmsg : sp1.msgs ≠ sp.msgs) :
    r = 1 ∧ sp1.lines = sp.lines ∧ sp1.rptDeleted = sp.rptDeleted ∧
      sp1.deleted = sp.deleted ∧ sp1.msgs = sp.msgs ++ ["Line length overflow"] := by
  have key : sp1.msgs = sp.msgs ∨ (r = 1 ∧ sp1 = msgq sp "Line length overflow") := by
    have hMS : ∀ bp r sp1, delMultiSet ic intr sp fm tm bp = some (r, sp1) →
        sp1.msgs = sp.msgs := by
      intro bp r sp1 h
      unfold delMultiSet at h
      cases hs : db_set sp fm.lno bp with
      | none =>
        rw [hs] at h
        simp only [Option.some.injEq, Prod.mk.injEq] at h
        rw [← h.2]
      | some s1 =>
        rw [hs] at h
        simp only [Option.some.injEq] at h
        exact (delLinesGt_msgs ic intr _ _ _ _ _ h).trans (db_set_msgs hs)
    have hMT : ∀ bp r sp1, delMultiTail ic intr sp fm tm bp = some (r, sp1) →
        sp1.msgs = sp.msgs ∨ (r = 1 ∧ sp1 = msgq sp "Line length overflow") := by
      intro bp r sp1 h
      unfold delMultiTail at h
      cases hg : db_get sp tm.lno with
      | none =>
        rw [hg] at h
        simp only [Option.some.injEq, Prod.mk.injEq] at h
        rw [← h.2]; exact Or.inl rfl
      | some p =>
        rw [hg] at h
        simp only at h
        split at h
        · split at h
          · simp only [Option.some.injEq, Prod.mk.injEq] at h
            exact Or.inr ⟨h.1.symm, h.2.symm⟩
          · split at h
            · cases h
            · exact Or.inl (hMS _ _ _ h)
        · exact Or.inl (hMS _ _ _ h)
    have hM : ∀ r sp1, delMulti ic intr sp fm tm = some (r, sp1) →
        sp1.msgs = sp.msgs ∨ (r = 1 ∧ sp1 = msgq sp "Line length overflow") := by
      intro r sp1 h
      unfold delMulti at h
      split at h
      · split at h
        · simp only [Option.some.injEq, Prod.mk.injEq] at h
          rw [← h.2]; exact Or.inl rfl
        · split at h
          · cases h
          · split at h
            · cases h
            · exact hMT _ _ _ h
      · exact hMT _ _ _ h
    have hS : ∀ p r sp1, delSingle sp fm tm p = some (r, sp1) → sp1.msgs = sp.msgs := by
      intro p r sp1 h
      unfold delSingle at h
      simp only at h
      split at h
      · cases h
      · split at h
        · cases h
        · split at h
          · cases h
          · split at h
            · simp only [Option.some.injEq, Prod.mk.injEq] at h
              rw [← h.2]
            · rename_i s1 hs
              simp only [Option.some.injEq, Prod.mk.injEq] at h
              rw [← h.2]; exact db_set_msgs hs
    have hI : ∀ r sp1, delInner ic intr sp fm tm = some (r, sp1) →
        sp1.msgs = sp.msgs ∨ (r = 1 ∧ sp1 = msgq sp "Line length overflow") := by
      intro r sp1 h
      unfold delInner at h
      split at h
      · split at h
        · simp only [Option.some.injEq, Prod.mk.injEq] at h
          rw [← h.2]; exact Or.inl rfl
        · split at h
          · exact Or.inl (hS _ _ _ h)
          · exact hM _ _ h
      · exact hM _ _ h
    have hE : ∀ r sp1, delEof ic intr tmpNull sp fm tm = some (r, sp1) → sp1.msgs = sp.msgs := by
      intro r sp1 h
      unfold delEof at h
      cases hl : delLinesGt ic intr fm.lno tm.lno sp with
      | mk r0 s0 =>
        have hR0 := delLinesGt_msgs ic intr _ _ _ _ _ hl
        rw [hl] at h
        split at h
        · rename_i s1 heq
          simp only [Prod.mk.injEq] at heq
          obtain ⟨_, hs⟩ := heq
          subst hs
          split at h
          · simp only [Option.some.injEq, Prod.mk.injEq] at h
            rw [← h.2]; exact hR0
          · split at h
            · simp only [Option.some.injEq, Prod.mk.injEq] at h
              rw [← h.2]; exact hR0
            · split at h
              · cases h
              · split at h
                · simp only [Option.some.injEq, Prod.mk.injEq] at h
                  rw [← h.2]; exact hR0
                · rename_i s2 hs2
                  simp only [Option.some.injEq, Prod.mk.injEq] at h
                  rw [← h.2]; exact (db_set_msgs hs2).trans hR0
        · rename_i r1 s1 _ heq
          simp only [Prod.mk.injEq] at heq
          simp only [Option.some.injEq, Prod.mk.injEq] at h
          rw [← h.2, ← heq.2]; exact hR0
    by_cases hl : lmode = 0
    · subst hl
      simp only [del, ne_eq, not_true_eq_false, if_false, db_last] at h
      split at h
      · simp only [Option.some.injEq, Prod.mk.injEq] at h
        rw [← h.2]; exact Or.inl rfl
      · exact Or.inl (hE _ _ h)
      · exact hI _ _ h
    · simp only [del, ne_eq, hl, not_false_eq_true, if_true, Option.some.injEq] at h
      exact Or.inl (delLinesGe_msgs ic intr _ _ _ _ _ h)
  rcases key with h1 | ⟨h1, h2⟩
  · exact absurd h1 hmsg
  · subst h2
    exact ⟨h1, rfl, rfl, rfl, rfl⟩

theorem del_overflow_leaves_store_witness :
    del 100 noIntr false (mkSCR [[1, 2], [3, 4], [5]]) ⟨1, 1⟩ ⟨2, 5⟩ 0 =
        some (1, ⟨[[1, 2], [3, 4], [5]], 0, ["Line length overflow"], []⟩) ∧
    (1 : Nat) = 1 ∧
    (⟨[[1, 2], [3, 4], [5]], 0, ["Line length overflow"], []⟩ : SCR).lines =
      (mkSCR [[1, 2], [3, 4], [5]]).lines :=
  have h := del_overflow_leaves_store 100 noIntr false (mkSCR [[1, 2], [3, 4], [5]]) ⟨1, 1⟩ ⟨2, 5⟩ 0 1
    ⟨[[1, 2], [3, 4], [5]], 0, ["Line length overflow"], []⟩ (by decide) (by decide)
  ⟨by decide, h.1, h.2.1⟩

/-! ## The length of a key name -/

theorem strlen_append_nul : ∀ (l : List Nat), 0 ∉ l → strlen (l ++ [0]) = l.length := by
  intro l
  induction l with
  | nil => intro _; rfl
  | cons a l ih =>
    intro h
    have ha : a ≠ 0 := fun e => h (by simp [e])
    have hl : 0 ∉ l := fun e => h (List.mem_cons_of_mem _ e)
    have := ih hl
    unfold strlen at this ⊢
    rw [List.cons_append, List.takeWhile_cons, if_pos (by simp [ha]), List.length_cons, this,
      List.length_cons]

theorem cstrHas_nul (s : Option (List Nat)) : cstrHas s 0 = false := by
  cases s with
  | none => rfl
  | some l =>
    unfold cstrHas
    simp only
    rw [Bool.eq_false_iff]
    intro h
    have hm : 0 ∈ l.takeWhile fun c => decide (c ≠ 0) := by
      simpa using h
    have := List.mem_takeWhile_imp hm
    simp at this

set_option maxRecDepth 100000 in
theorem hexName_nul : ∀ ch, ch < 256 → 0 ∉ hexName ch ∧ (hexName ch).length = 4 := by
  decide

theorem ctrlName_nul (alt : Bool) (ch : Nat) (hset : ch < 0x20 ∨ ch = 0x7f) :
    0 ∉ ctrlName alt ch ∧ 1 ≤ (ctrlName alt ch).length ∧ (ctrlName alt ch).length ≤ 5 := by
  rcases hset with h | h
  · interval_cases ch <;> cases alt <;> decide
  · subst h
    cases alt <;> decide

theorem v_key_name_nopr_nul (o : KeyOpts) (ch : Nat) (h8 : ch < 256) :
    0 ∉ v_key_name_nopr o ch ∧ 1 ≤ (v_key_name_nopr o ch).length ∧
      (v_key_name_nopr o ch).length ≤ 5 := by
  unfold v_key_name_nopr
  split
  · rename_i hc
    simp only [Bool.and_eq_true, Bool.or_eq_true, decide_eq_true_eq] at hc
    exact ctrlName_nul _ ch hc.2
  · split
    · rw [octName_digits ch h8]
      refine ⟨?_, by simp, by simp⟩
      simp only [List.mem_cons, List.mem_singleton, List.not_mem_nil, or_false]
      omega
    · have := hexName_nul ch h8
      exact ⟨this.1, by omega, by omega⟩

/-- C38: for every 8-bit character `ch` and every setting of the lists `print`
and `noprint` and of the options `altnotation` and `octal` (with an `isprint`
that rejects NUL), `v_key_len` is the number of characters `v_key_name` stores,
the name holds no NUL so that `strlen` of `sp->cname` is that number, the element
of `sp->cname` at that index is NUL, and the number is between 1 and 5. -/
theorem v_key_len_is_strlen (o : KeyOpts) (ch : Nat) (h8 : ch < 256)
    (h0 : o.isprint 0 = false) :
    v_key_len o ch = (v_key_name o ch).length ∧
    strlen (v_key_cname o ch) = v_key_len o ch ∧
    (v_key_cname o ch).get? (v_key_len o ch) = some 0 ∧
    1 ≤ v_key_len o ch ∧ v_key_len o ch ≤ 5 := by
  have key : 0 ∉ v_key_name o ch ∧ 1 ≤ (v_key_name o ch).length ∧
      (v_key_name o ch).length ≤ 5 := by
    unfold v_key_name
    split
    · rename_i hp
      have hne : ch ≠ 0 := by
        intro e
        rw [e, cstrHas_nul] at hp
        cases hp
      exact ⟨by simp [Ne.symm hne], by simp, by simp⟩
    · split
      · exact v_key_name_nopr_nul o ch h8
      · split
        · rename_i hp
          have hne : ch ≠ 0 := by
            intro e
            rw [e, h0] at hp
            cases hp
          exact ⟨by simp [Ne.symm hne], by simp, by simp⟩
        · exact v_key_name_nopr_nul o ch h8
  refine ⟨rfl, strlen_append_nul _ key.1, ?_, key.2.1, key.2.2⟩
  unfold v_key_cname v_key_len
  simp

theorem v_key_len_is_strlen_witness :
    v_key_len (keyOpts true false) 0x1b = 5 ∧
    strlen (v_key_cname (keyOpts true false) 0x1b) = v_key_len (keyOpts true false) 0x1b ∧
    (v_key_cname (keyOpts true false) 0x1b).get? (v_key_len (keyOpts true false) 0x1b) =
      some 0 :=
  have h := v_key_len_is_strlen (keyOpts true false) 0x1b (by decide) (by decide)
  ⟨by decide, h.2.1, h.2.2.1⟩

/-! ## The stores of `ex_puts` -/

theorem ex_puts_loop_overrun : ∀ (str : List Nat) (exp : EX_PRIVATE) (doflush : Bool) (n : Nat),
    (∀ c ∈ str, c ≠ 0) → exp.obp_len ≤ exp.obp.length → exp.obp.length < SIZE_MAX →
    exp.obp.length - exp.obp_len < str.length →
    ex_puts_loop str exp doflush n = .error (.store exp.obp.length) := by
  intro str
  induction str with
  | nil => intro exp d n _ _ _ h; simp at h
  | cons c str ih =>
    intro exp d n hc hle hmax hlen
    have hc0 : c ≠ 0 := hc c (List.mem_cons_self _ _)
    have hng : ¬ exp.obp_len > exp.obp.length := by omega
    rw [ex_puts_loop, if_neg hc0, if_neg hng]
    simp only [storeAt]
    by_cases hlt : exp.obp_len < exp.obp.length
    · rw [if_pos hlt]
      simp only
      have hs : szAdd exp.obp_len 1 = exp.obp_len + 1 := by
        unfold szAdd
        unfold SIZE_MAX at hmax
        omega
      rw [hs]
      have := ih ⟨exp.obp.set exp.obp_len c, exp.obp_len + 1, exp.out⟩ (d || c == 10) (n + 1)
        (fun x hx => hc x (List.mem_cons_of_mem _ hx))
        (by simp only [List.length_set]; omega)
        (by simp only [List.length_set]; exact hmax)
        (by simp only [List.length_set, List.length_cons] at hlen ⊢; omega)
      simp only [List.length_set] at this
      exact this
    · rw [if_neg hlt]
      have : exp.obp_len = exp.obp.length := by omega
      rw [this]

theorem ex_puts_overrun (exp : EX_PRIVATE) (str : List Nat) (hc : ∀ c ∈ str, c ≠ 0)
    (hle : exp.obp_len ≤ exp.obp.length) (hmax : exp.obp.length < SIZE_MAX)
    (hlen : exp.obp.length - exp.obp_len < str.length) :
    ex_puts exp str = .error (.store exp.obp.length) := by
  rw [ex_puts, ex_puts_loop_overrun str exp false 0 hc hle hmax hlen]

theorem ex_puts_exp0_overrun (cap : Nat) (hcap : cap < SIZE_MAX) :
    ex_puts (exp0 cap) (List.replicate (cap + 1) 97) = .error (.store cap) := by
  have hl : (exp0 cap).obp.length = cap := List.length_replicate _ _
  have h := ex_puts_overrun (exp0 cap) (List.replicate (cap + 1) 97)
    (fun c hm => by rw [List.eq_of_mem_replicate hm]; decide)
    (by rw [hl]; exact Nat.zero_le _) (by rw [hl]; exact hcap)
    (by rw [hl, List.length_replicate]; exact Nat.lt_succ_of_le (Nat.sub_le _ _))
  rw [hl] at h
  exact h

/-- C39: `ex_puts` tests `obp_len > sizeof(exp->obp)` before its store, so a
full buffer is not flushed and the next character is stored one past the end of
`obp`.  From the empty buffer of 4 characters: the string `abcd` is stored at
the indices 0 to 3; the string `abcde`, five calls with one character each, and
`ex_printf` of `a` followed by `ex_puts` of `bcde` all store at index 4.  The same
for an array of 1024 characters and a string of 1025. -/
theorem ex_puts_store_past_end :
    ex_puts (exp0 4) [97, 98, 99, 100] = .ok (4, ⟨[97, 98, 99, 100], 4, []⟩) ∧
    ex_puts (exp0 4) [97, 98, 99, 100, 101] = .error (.store 4) ∧
    exRun [.puts [97], .puts [98], .puts [99], .puts [100], .puts [101]] (exp0 4) =
      .error (.store 4) ∧
    exRun [.printf [97], .puts [98, 99, 100, 101]] (exp0 4) = .error (.store 4) ∧
    ex_puts (exp0 1024) (List.replicate 1025 97) = .error (.store 1024) := by
  exact ⟨rfl, rfl, rfl, rfl, ex_puts_exp0_overrun 1024 (by unfold SIZE_MAX; omega)⟩

/-! ## The failures of `v_at` -/

theorem v_event_push_copy_ret {gp gp1 : GS} {items : List EVENT} {r : Nat}
    (h : v_event_push_copy gp items = some (r, gp1)) : r = 0 := by
  unfold v_event_push_copy at h
  split at h
  · cases h
  · simp only [Option.some.injEq, Prod.mk.injEq] at h
    exact h.1.symm

theorem v_event_push_ret {kv : Nat → e_key_t} {gp gp1 : GS} {p_evp : Option (List EVENT)}
    {p_s : List Nat} {flags : ChFlags} {r : Nat}
    (h : v_event_push kv gp p_evp p_s flags = some (r, gp1)) : r = 0 := by
  unfold v_event_push at h
  simp only at h
  split at h
  · exact v_event_push_copy_ret h
  · split at h
    · cases h
    · exact v_event_push_copy_ret h

theorem v_at_lines_ret (kv : Nat → e_key_t) (lmode : Bool) :
    ∀ (rs : List TEXT) (hasNext : Bool) (gp gp1 : GS) (r : Nat),
      v_at_lines kv lmode rs hasNext gp = some (r, gp1) → r = 0 := by
  intro rs
  induction rs with
  | nil =>
    intro hasNext gp gp1 r h
    simp only [v_at_lines, Option.some.injEq, Prod.mk.injEq] at h
    exact h.1.symm
  | cons tp rest ih =>
    intro hasNext gp gp1 r h
    unfold v_at_lines at h
    split at h
    · cases h
    · rename_i r1 gpa hnl
      have hr1 : r1 = 0 := by
        split at hnl
        · exact v_event_push_ret hnl
        · simp only [Option.some.injEq, Prod.mk.injEq] at hnl
          exact hnl.1.symm
      subst hr1
      simp only [ne_eq, not_true_eq_false, if_false] at h
      split at h
      · cases h
      · rename_i r2 gpb hp
        have hr2 : r2 = 0 := v_event_push_ret hp
        subst hr2
        simp only [ne_eq, not_true_eq_false, if_false] at h
        exact ih _ _ _ _ h

theorem v_at_push_ret {kv : Nat → e_key_t} {cbp : CB} {sp sp1 : SCR_at} {gp gp1 : GS}
    {vp : VICMD} {r : Nat} (h : v_at_push kv cbp sp gp vp = some (r, sp1, gp1)) : r = 0 := by
  unfold v_at_push at h
  split at h
  · cases h
  · rename_i r1 gpa hl
    have hr1 : r1 = 0 := v_at_lines_ret kv _ _ _ _ _ _ hl
    subst hr1
    simp only [ne_eq, not_true_eq_false, if_false] at h
    split at h
    · simp only [Option.some.injEq, Prod.mk.injEq] at h
      exact h.1.symm
    · split at h
      · cases h
      · rename_i r2 gpb hp
        have hr2 : r2 = 0 := v_event_push_ret hp
        subst hr2
        simp only [ne_eq, not_true_eq_false, if_false, Option.some.injEq, Prod.mk.injEq] at h
        exact h.1.symm

/-- C40, the claim as worded fails for a register that does not exist: on a
screen on which no buffer was executed (`SC_AT_SET` clear), `v_at` with the
buffer `b` and no such register in the cut buffers returns 1 with the event
queue and `at_lbuf` as before, but with `SC_AT_SET` set. -/
theorem v_at_failure_counterexample :
    v_at noKeys asciiIsupper asciiTolower [cbA] scrAt0 qabc ⟨some 98, none⟩ =
        some (1, ⟨true, 0, [(some 98, .EXM_EMPTYBUF)]⟩, qabc) ∧
    scrAt0.sc_at_set = false := by
  decide

/-- C40, amended: whenever `v_at` returns failure, the event queue and `at_lbuf`
are as before the call and one message was given to `ex_emsg`.  Either there was
no previous buffer to repeat and `SC_AT_SET` is clear as before, or the register
does not exist and `SC_AT_SET` is set on return, whatever it was before. -/
theorem v_at_failure_state (kv : Nat → e_key_t) (isupper : Nat → Bool) (tolower : Nat → Nat)
    (cutq : List CB) (sp : SCR_at) (gp : GS) (vp : VICMD) (r : Nat) (sp1 : SCR_at) (gp1 : GS)
    (h : v_at kv isupper tolower cutq sp gp vp = some (r, sp1, gp1)) (hr : r ≠ 0) :
    r = 1 ∧ gp1 = gp ∧ sp1.at_lbuf = sp.at_lbuf ∧
    ((sp.sc_at_set = false ∧ sp1.sc_at_set = false ∧
        sp1.emsgs = sp.emsgs ++ [(none, .EXM_NOPREVBUF)]) ∨
     (∃ name, CBNAME isupper tolower cutq name = none ∧ sp1.sc_at_set = true ∧
        sp1.emsgs = sp.emsgs ++ [(some name, .EXM_EMPTYBUF)])) := by
  unfold v_at at h
  simp only at h
  split at h
  · rename_i hc
    simp only [Option.some.injEq, Prod.mk.injEq] at h
    obtain ⟨h1, h2, h3⟩ := h
    subst h1 h2 h3
    exact ⟨rfl, rfl, rfl, Or.inl ⟨hc.2, hc.2, rfl⟩⟩
  · split at h
    · rename_i hcb
      simp only [Option.some.injEq, Prod.mk.injEq] at h
      obtain ⟨h1, h2, h3⟩ := h
      subst h1 h2 h3
      exact ⟨rfl, rfl, rfl, Or.inr ⟨_, hcb, rfl, rfl⟩⟩
    · exact absurd (v_at_push_ret h) hr

theorem v_at_failure_state_witness :
    v_at noKeys asciiIsupper asciiTolower [cbA] scrAt0 qabc ⟨none, some 3⟩ =
        some (1, ⟨false, 0, [(none, .EXM_NOPREVBUF)]⟩, qabc) ∧
    (1 : Nat) = 1 ∧ qabc = qabc ∧
    (⟨false, 0, [(none, .EXM_NOPREVBUF)]⟩ : SCR_at).at_lbuf = scrAt0.at_lbuf :=
  have h := v_at_failure_state noKeys asciiIsupper asciiTolower [cbA] scrAt0 qabc ⟨none, some 3⟩
    1 ⟨false, 0, [(none, .EXM_NOPREVBUF)]⟩ qabc (by decide) (by decide)
  ⟨by decide, h.1, h.2.1, h.2.2.1⟩

/-! ## Fatal events -/

theorem v_event_get_nomap_synced (flags : ECFlags) (argp : EVENT) (gp : GS) (evp : Nat)
    (sy : List (Nat × Bool))
    (h : (Step.done (v_event_get_nomap flags argp gp evp)).synced? = some sy) :
    sy = gp.synced := by
  unfold v_event_get_nomap at h
  split at h
  · simp [Step.synced?] at h
  · split at h
    · simp only [v_event_get_not_digit, Step.synced?, Option.some.injEq] at h
      exact h.symm
    · simp only [Step.synced?, Option.some.injEq] at h
      rw [← h, (QREM_frame gp 1).2.2]

theorem v_event_get_remap_push_synced (env : Env) (flags : ECFlags) (loc : Locals) (gp : GS)
    (qp : SEQ) (out : List Nat) (init_nomap : Bool) (hwf : gp.wf) :
    (∀ sy, (v_event_get_remap_push env flags loc gp qp out init_nomap).synced? = some sy →
      sy = gp.synced) ∧
    (init_nomap = false →
      ∃ gp2, v_event_get_remap_push env flags loc gp qp out init_nomap =
          .goto .newmap { loc with remap_cnt := loc.remap_cnt + 1 } gp2 ∧
        gp2.synced = gp.synced ∧ gp2.scr_log = gp.scr_log ∧
        gp2.view = out.map (chEvent env.key_val CH_MAPPED) ++ gp.view) := by
  unfold v_event_get_remap_push
  cases init_nomap with
  | true =>
    obtain ⟨g2, h1, _, hw2, _, _, hs2, _⟩ := v_event_push_view env.key_val gp none
      (out.drop qp.input.length) CH_MAPPED hwf
    obtain ⟨g3, h3, _, _, _, _, hs3, _⟩ := v_event_push_view env.key_val g2 none
      (out.take qp.input.length) (CH_NOMAP.or CH_MAPPED) hw2
    simp only [if_true, h1, ne_eq, not_true_eq_false, if_false, h3]
    constructor
    · intro sy h
      rw [v_event_get_nomap_synced flags loc.argp g3 g3.i_next sy h, hs3, hs2]
    · intro h
      cases h
  | false =>
    obtain ⟨g2, h1, hv, _, _, hl2, hs2, _⟩ :=
      v_event_push_view env.key_val gp none out CH_MAPPED hwf
    simp only [Bool.false_eq_true, if_false, h1, ne_eq, not_true_eq_false]
    constructor
    · intro sy h
      simp only [Step.synced?, Option.some.injEq] at h
      rw [← h, hs2]
    · intro _
      exact ⟨g2, rfl, hs2, hl2, by rw [hv]; rfl⟩

/-- C21, the claim as worded fails at the interrupt poll of a remap expansion:
the queue holds `a`, `b`, `c`, `a` is mapped to `xy` with remap on, and
`gp->scr_event` answers every call with the hangup event.  The one call made is
the poll of the first expansion; its answer is only tested for `E_INTERRUPT`, so
`v_event_get` returns 0 with the character `x`, the queue `y`, `b`, `c`, and no
screen synced. -/
theorem v_event_get_fatal_poll_counterexample :
    hupEnv.scr_event 0 EC_INTERRUPT 0 = some sighupEvent ∧
    sighupEvent.e_event = .E_SIGHUP ∧
    (∃ gp1, v_event_get hupEnv 4 qabc EVENT.zero 0 EC_MAPCOMMAND =
        .ret 0 (chEvent noKeys CH_MAPPED 120) gp1 ∧
      gp1.scr_log = [(EC_INTERRUPT, 0)] ∧ gp1.synced = [] ∧
      gp1.view.map EVENT.e_c = [121, 98, 99]) ∧
    hupEnv.dq ++ hupEnv.hq = [1, 2, 3] := by
  refine ⟨rfl, rfl, ⟨_, rfl, ?_, ?_, ?_⟩, rfl⟩ <;> decide

/-- C21, amended: whenever the read of `v_event_get` at the label `loop` (the one
place where it takes events from `gp->scr_event` for the queue) is answered with
an `E_ERR`, `E_SIGHUP` or `E_SIGTERM` event, the call returns 1 at once.  Before
it returns, every screen of `gp->dq` and then of `gp->hq` was synced, with
`RCV_EMAIL` except for `E_SIGTERM`; the event array and the window `i_next`,
`i_cnt` are as before.  The last part of the first half is the same for a whole
call that goes to read at once.  When such an event is the answer to the
interrupt poll of a remap expansion, it is only tested for `E_INTERRUPT` and
dropped: the expansion goes on as after the poll, no screen is synced, and an
output without the input as its initial part is pushed for the next `newmap`. -/
theorem v_event_get_fatal_event (env : Env) (flags : ECFlags) (fuel : Nat) (loc : Locals)
    (gp : GS) (e : EVENT)
    (hfatal : e.e_event = .E_ERR ∨ e.e_event = .E_SIGHUP ∨ e.e_event = .E_SIGTERM) :
    (env.scr_event gp.scr_log.length (readFlags flags) loc.timeout = some e →
      ∃ gp1, v_event_get_run env flags (fuel + 1) .loop loc gp = .ret 1 e gp1 ∧
        gp1.synced = gp.synced ++
          (env.dq ++ env.hq).map (fun s => (s, decide (e.e_event ≠ .E_SIGTERM))) ∧
        gp1.i_event = gp.i_event ∧ gp1.i_nelem = gp.i_nelem ∧ gp1.i_next = gp.i_next ∧
        gp1.i_cnt = gp.i_cnt ∧ gp1.view = gp.view ∧ gp1.interrupted = gp.interrupted ∧
        ((gp.i_cnt = 0 ∨ flags.interrupt = true) → flags.timeout = false →
          ¬ (env.g_scrwin = true ∧ env.sscr_input ≠ 0) →
          v_event_get env (fuel + 2) gp loc.argp loc.timeout flags = .ret 1 e gp1)) ∧
    (∀ (qp : SEQ) (out : List Nat) (init_nomap : Bool) (evp : Nat), gp.wf →
      env.o_remap = true → (loc.remap_cnt + 1 = 1 ∨ (loc.remap_cnt + 1) % 10 = 0) →
      env.scr_event gp.scr_log.length EC_INTERRUPT 0 = some e →
      v_event_get_expand env flags loc gp qp out init_nomap evp =
        v_event_get_remap_push env flags loc (logRead gp EC_INTERRUPT 0) qp out init_nomap ∧
      (∀ sy, (v_event_get_expand env flags loc gp qp out init_nomap evp).synced? = some sy →
        sy = gp.synced) ∧
      (init_nomap = false →
        ∃ gp2, v_event_get_expand env flags loc gp qp out init_nomap evp =
            .goto .newmap { loc with remap_cnt := loc.remap_cnt + 1 } gp2 ∧
          gp2.synced = gp.synced ∧ gp2.scr_log = gp.scr_log ++ [(EC_INTERRUPT, 0)] ∧
          gp2.view = out.map (chEvent env.key_val CH_MAPPED) ++ gp.view)) := by
  constructor
  · intro hread
    have hloop : ∀ (n : Nat) (loc1 : Locals), loc1.timeout = loc.timeout →
        v_event_get_run env flags (n + 1) .loop loc1 gp = .ret 1 e
          (v_sync env (logRead gp (readFlags flags) loc.timeout)
            (decide (e.e_event ≠ .E_SIGTERM))) := by
      intro n loc1 ht
      apply v_event_get_run_done
      simp only [v_event_get_step, v_event_get_loop, callScrEvent]
      have hread1 : env.scr_event gp.scr_log.length
          ⟨flags.interrupt, false, false, false, flags.quoted, flags.raw, false⟩ loc1.timeout
          = some e := by rw [ht]; exact hread
      rw [hread1]
      rcases hfatal with h | h | h <;> simp [h, logRead, ht, readFlags]
    refine ⟨_, hloop fuel loc rfl, ?_, rfl, rfl, rfl, rfl, rfl, rfl, ?_⟩
    · simp [v_sync, logRead, List.append_assoc]
    · intro hq ht hs
      unfold v_event_get
      rw [v_event_get_run_goto env flags (fuel + 1) .retry .loop ⟨loc.argp, loc.timeout, false, 0⟩
        ⟨loc.argp, loc.timeout, false, 0⟩ gp gp]
      · exact hloop fuel _ rfl
      · simp only [v_event_get_step, v_event_get_retry, ht, Bool.false_eq_true, and_false,
          if_false, or_false]
        rw [if_pos hq, if_neg hs]
  · intro qp out init_nomap evp hwf hremap hP hpoll
    have hni : ¬ e.e_event = .E_INTERRUPT := by
      rcases hfatal with h | h | h <;> rw [h] <;> decide
    have heq : v_event_get_expand env flags loc gp qp out init_nomap evp =
        v_event_get_remap_push env flags loc (logRead gp EC_INTERRUPT 0) qp out
          init_nomap := by
      rw [v_event_get_expand_eq env flags loc gp qp out init_nomap evp hremap, if_pos hP, hpoll]
      simp only
      rw [if_neg hni]
    have hs := v_event_get_remap_push_synced env flags loc (logRead gp EC_INTERRUPT 0) qp out
      init_nomap (logRead_wf gp EC_INTERRUPT 0 hwf)
    refine ⟨heq, ?_, ?_⟩
    · intro sy h
      rw [heq] at h
      exact hs.1 sy h
    · intro hi
      obtain ⟨gp2, h1, h2, h3, h4⟩ := hs.2 hi
      exact ⟨gp2, heq.trans h1, h2, h3, h4⟩

theorem v_event_get_fatal_event_witness :
    (∃ gp1, v_event_get_run hupEnv EC_MAPCOMMAND 1 .loop ⟨EVENT.zero, 0, false, 0⟩ qabc
        = .ret 1 sighupEvent gp1 ∧
      gp1.synced = [(1, true), (2, true), (3, true)] ∧ gp1.view = qabc.view) ∧
    (∃ gp2, v_event_get_expand hupEnv EC_MAPCOMMAND ⟨EVENT.zero, 0, false, 0⟩ (QREM qabc 1)
        ⟨.SEQ_COMMAND, [97], some [120, 121]⟩ [120, 121] false 0 =
          .goto .newmap ⟨EVENT.zero, 0, false, 1⟩ gp2 ∧
      gp2.synced = [] ∧ gp2.scr_log = [(EC_INTERRUPT, 0)]) :=
  have h := v_event_get_fatal_event hupEnv EC_MAPCOMMAND 0 ⟨EVENT.zero, 0, false, 0⟩ qabc
    sighupEvent (Or.inr (Or.inl rfl))
  have h2 := v_event_get_fatal_event hupEnv EC_MAPCOMMAND 0 ⟨EVENT.zero, 0, false, 0⟩
    (QREM qabc 1) sighupEvent (Or.inr (Or.inl rfl))
  ⟨(h.1 rfl).elim fun gp1 hg => ⟨gp1, hg.1, hg.2.1.trans (by decide), hg.2.2.2.2.2.2.1⟩,
   ((h2.2 ⟨.SEQ_COMMAND, [97], some [120, 121]⟩ [120, 121] false 0
      ⟨by decide, by decide, by decide⟩ rfl (Or.inl rfl) rfl).2.2 rfl).elim
    fun gp2 hg => ⟨gp2, hg.1, hg.2.1, hg.2.2.1⟩⟩

/-! ## The interrupt polls of a chain of expansions -/

theorem v_event_push_copy_frame {gp gp1 : GS} {items : List EVENT} {r : Nat}
    (h : v_event_push_copy gp items = some (r, gp1)) :
    gp1.scr_log = gp.scr_log ∧ gp1.synced = gp.synced ∧ gp1.interrupted = gp.interrupted := by
  unfold v_event_push_copy at h
  split at h
  · cases h
  · simp only [Option.some.injEq, Prod.mk.injEq] at h
    rw [← h.2]
    exact ⟨rfl, rfl, rfl⟩

theorem v_event_push_frame {kv : Nat → e_key_t} {gp gp1 : GS} {p_evp : Option (List EVENT)}
    {p_s : List Nat} {flags : ChFlags} {r : Nat}
    (h : v_event_push kv gp p_evp p_s flags = some (r, gp1)) :
    gp1.scr_log = gp.scr_log ∧ gp1.synced = gp.synced ∧ gp1.interrupted = gp.interrupted := by
  unfold v_event_push at h
  simp only at h
  split at h
  · have := v_event_push_copy_frame h
    split at this <;> exact this
  · split at h
    · cases h
    · have := v_event_push_copy_frame h
      simp only at this
      split at this
      · exact this
      · exact this

theorem pollLog_one (k : Nat) :
    pollLog k 1 = if k = 1 ∨ k % 10 = 0 then [(EC_INTERRUPT, 0)] else [] := by
  unfold pollLog
  rw [List.range'_one]
  by_cases hP : k = 1 ∨ k % 10 = 0
  · have hd : decide (k = 1 ∨ k % 10 = 0) = true := decide_eq_true hP
    rw [if_pos hP]
    simp only [List.filter_cons, hd, if_true, List.filter_nil, List.map_cons, List.map_nil]
  · have hd : decide (k = 1 ∨ k % 10 = 0) = false := decide_eq_false hP
    rw [if_neg hP]
    simp only [List.filter_cons, hd, Bool.false_eq_true, if_false, List.filter_nil,
      List.map_nil]

theorem v_event_get_expand_goto (env : Env) (flags : ECFlags) (loc : Locals) (gp : GS)
    (qp : SEQ) (out : List Nat) (init_nomap : Bool) (evp : Nat) (l : Label) (loc1 : Locals)
    (gp1 : GS) (h : v_event_get_expand env flags loc gp qp out init_nomap evp = .goto l loc1 gp1) :
    env.o_remap = true ∧ l = .newmap ∧ loc1.remap_cnt = loc.remap_cnt + 1 ∧
      gp1.scr_log = gp.scr_log ++ pollLog (loc.remap_cnt + 1) 1 := by
  have hpl := pollLog_one (loc.remap_cnt + 1)
  have hpush : ∀ g, v_event_get_remap_push env flags loc g qp out init_nomap = .goto l loc1 gp1 →
      l = .newmap ∧ loc1.remap_cnt = loc.remap_cnt + 1 ∧ gp1.scr_log = g.scr_log := by
    intro g hg
    unfold v_event_get_remap_push at hg
    split at hg
    · split at hg
      · cases hg
      · split at hg
        · cases hg
        · split at hg
          · cases hg
          · split at hg
            · cases hg
            · cases hg
    · split at hg
      · cases hg
      · rename_i r1 gp2 hp
        split at hg
        · cases hg
        · simp only [Step.goto.injEq] at hg
          obtain ⟨ha, hb, hc⟩ := hg
          subst ha hb hc
          exact ⟨rfl, rfl, (v_event_push_frame hp).1⟩
  cases hr : env.o_remap with
  | false =>
    unfold v_event_get_expand at h
    simp only [hr, Bool.false_eq_true, if_false] at h
    split at h
    · cases h
    · split at h
      · cases h
      · split at h
        · cases h
        · cases h
  | true =>
    rw [v_event_get_expand_eq env flags loc gp qp out init_nomap evp hr] at h
    rw [hpl]
    by_cases hP : loc.remap_cnt + 1 = 1 ∨ (loc.remap_cnt + 1) % 10 = 0
    · rw [if_pos hP] at h ⊢
      cases hev : env.scr_event gp.scr_log.length EC_INTERRUPT 0 with
      | none => rw [hev] at h; cases h
      | some ev =>
        rw [hev] at h
        by_cases hi : ev.e_event = .E_INTERRUPT
        · simp only [hi, if_true] at h; cases h
        · simp only [hi, if_false] at h
          obtain ⟨h1, h2, h3⟩ := hpush _ h
          exact ⟨rfl, h1, h2, h3⟩
    · rw [if_neg hP] at h ⊢
      obtain ⟨h1, h2, h3⟩ := hpush _ h
      exact ⟨rfl, h1, h2, by rw [h3, List.append_nil]⟩

theorem v_event_get_newmap_goto_newmap (env : Env) (flags : ECFlags) (loc loc1 : Locals)
    (gp gp1 : GS) (h : v_event_get_step env flags .newmap loc gp = .goto .newmap loc1 gp1) :
    env.o_remap = true ∧ loc1.remap_cnt = loc.remap_cnt + 1 ∧
      gp1.scr_log = gp.scr_log ++ pollLog (loc.remap_cnt + 1) 1 ∧
      ∃ qp out init_nomap, qp ∈ env.seqq ∧ qp.output = some out ∧
        v_event_get_expand env flags loc (QREM gp qp.input.length) qp out init_nomap gp.i_next =
          .goto .newmap loc1 gp1 := by
  simp only [v_event_get_step] at h
  unfold v_event_get_newmap at h
  simp only at h
  split at h
  · cases h
  · split at h
    · cases h
    · split at h
      · cases h
      · split at h
        · cases h
        · cases h
        · rename_i qp hfind
          split at h
          · cases h
          · split at h
            · cases h
            · rename_i out hout
              obtain ⟨h0, _, h2, h3⟩ := v_event_get_expand_goto _ _ _ _ _ _ _ _ _ _ _ h
              rw [(QREM_frame gp qp.input.length).1] at h3
              have hin := (seq_find_some _ _ _ _ _ hfind).2.2.2
              exact ⟨h0, h2, h3, qp, out, _, hin, hout, h⟩

theorem pollLog_succ (first n : Nat) :
    pollLog first (n + 1) = pollLog first n ++ pollLog (first + n) 1 := by
  unfold pollLog
  rw [List.range'_concat]
  simp only [Nat.one_mul, List.filter_append, List.map_append]
  rfl

theorem expandChain_spec (env : Env) (flags : ECFlags) :
    ∀ (n : Nat) (loc : Locals) (gp : GS) (loc1 : Locals) (gp1 : GS),
      expandChain env flags n loc gp = some (loc1, gp1) →
      loc1.remap_cnt = loc.remap_cnt + n ∧
        gp1.scr_log = gp.scr_log ++ pollLog (loc.remap_cnt + 1) n := by
  intro n
  induction n with
  | zero =>
    intro loc gp loc1 gp1 h
    simp only [expandChain, Option.some.injEq, Prod.mk.injEq] at h
    rw [← h.1, ← h.2]
    exact ⟨rfl, by simp [pollLog]⟩
  | succ n ih =>
    intro loc gp loc1 gp1 h
    unfold expandChain at h
    split at h
    · cases h
    · rename_i loc0 gp0 hc
      obtain ⟨i1, i2⟩ := ih loc gp loc0 gp0 hc
      split at h
      · rename_i loc2 gp2 hstep
        simp only [Option.some.injEq, Prod.mk.injEq] at h
        obtain ⟨ha, hb⟩ := h
        subst ha hb
        obtain ⟨_, s1, s2, _⟩ := v_event_get_newmap_goto_newmap env flags loc0 loc2 gp0 gp2 hstep
        refine ⟨by omega, ?_⟩
        rw [s2, i2, i1, List.append_assoc, pollLog_succ (loc.remap_cnt + 1) n,
          Nat.add_right_comm loc.remap_cnt n 1]
      · cases h

theorem pollLog_length (n : Nat) :
    (pollLog 1 n).length = if n = 0 then 0 else 1 + n / 10 := by
  induction n with
  | zero => rfl
  | succ n ih =>
    rw [pollLog_succ, List.length_append, ih]
    have h1 : (pollLog (1 + n) 1).length = if 1 + n = 1 ∨ (1 + n) % 10 = 0 then 1 else 0 := by
      rw [pollLog_one]
      split <;> rfl
    rw [h1]
    by_cases h0 : n = 0
    · subst h0
      rfl
    · by_cases hP : 1 + n = 1 ∨ (1 + n) % 10 = 0
      · rw [if_neg h0, if_pos hP, if_neg (by omega)]
        omega
      · rw [if_neg h0, if_neg hP, if_neg (by omega)]
        omega

/-- C32, as stated, fails when a binding that maps to nothing sends the call back
to `retry`, where `remap_cnt` is set to 0 again.  With `a -> b`, `b -> ` nothing
and `c -> d`, remap on, the queue `a`, `c`: one call expands `a`, drops `b`,
expands `c` and returns `d`.  Both expansions, the first and the second of the
call, poll `gp->scr_event`; two expansions numbered 1 and 2 would poll once. -/
theorem v_event_get_remap_poll_counterexample :
    (∃ gp1, v_event_get vanishEnv 8 qac EVENT.zero 0 EC_MAPCOMMAND =
        .ret 0 (chEvent noKeys CH_MAPPED 100) gp1 ∧
      gp1.scr_log = [(EC_INTERRUPT, 0), (EC_INTERRUPT, 0)] ∧ gp1.view = []) ∧
    qac.scr_log = [] ∧ pollLog 1 2 = [(EC_INTERRUPT, 0)] := by
  refine ⟨⟨_, rfl, ?_, ?_⟩, rfl, ?_⟩ <;> decide

/-- C32, amended: with `O_REMAP` set, the expansions are numbered by `remap_cnt`,
which every arrival at `retry` sets to 0 and every expansion raises by one: after
`n` expansions in a row from a count of 0 it is `n`, and `gp->scr_event` was
called for the expansions numbered 1, 10, 20, ... of that run and for no other,
`1 + n / 10` times.  An expansion entered with `remap_cnt = n - 1` calls
`gp->scr_event` exactly once, with `EC_INTERRUPT` and timeout 0, when `n = 1` or
`n` is a multiple of 10, and not at all otherwise, whatever it ends with.  When
that call fails or answers with an interrupt event, the call of `v_event_get`
ends: `G_INTERRUPTED` is set, nothing is pushed (the queue is as the removal of
the input left it), the return value is 0 and `argp->e_event` is `E_INTERRUPT`;
this is also proved for the whole call at its first expansion. -/
theorem v_event_get_remap_poll (env : Env) (flags : ECFlags)
    (hremap : env.o_remap = true) :
    (∀ (qp : SEQ) (out : List Nat),
      (∀ (loc : Locals) (gp : GS) (init_nomap : Bool) (evp : Nat), gp.wf →
        (∀ lg, (v_event_get_expand env flags loc gp qp out init_nomap evp).log? = some lg →
          lg = gp.scr_log ++
            (if loc.remap_cnt + 1 = 1 ∨ (loc.remap_cnt + 1) % 10 = 0 then [(EC_INTERRUPT, 0)]
             else [])) ∧
        ((loc.remap_cnt + 1 = 1 ∨ (loc.remap_cnt + 1) % 10 = 0) →
          (env.scr_event gp.scr_log.length EC_INTERRUPT 0 = none ∨
            ∃ ev, env.scr_event gp.scr_log.length EC_INTERRUPT 0 = some ev ∧
              ev.e_event = .E_INTERRUPT) →
          v_event_get_expand env flags loc gp qp out init_nomap evp =
            .done (.ret 0 { loc.argp with e_event := .E_INTERRUPT }
              { logRead gp EC_INTERRUPT 0 with interrupted := true })) ∧
        (∀ l loc1 gp1, v_event_get_expand env flags loc gp qp out init_nomap evp
            = .goto l loc1 gp1 →
          l = .newmap ∧ loc1.remap_cnt = loc.remap_cnt + 1)) ∧
      (∀ (gp : GS) (argp : EVENT) (timeout : Int) (e : EVENT) (k : Nat), gp.wf →
        gp.i_nelem ≤ SIZE_MAX → flags.interrupt = false → flags.timeout = false →
        gp.view.head? = some e → e.e_event = .E_CHARACTER → mapSkipped env flags e = false →
        seq_find env.seqq gp.view (mapType flags) = (some qp, false) → qp.output = some out →
        (flags.mapnodigit = false ∨ isdigit (out.getD 0 0) = true) →
        (env.scr_event gp.scr_log.length EC_INTERRUPT 0 = none ∨
          ∃ ev, env.scr_event gp.scr_log.length EC_INTERRUPT 0 = some ev ∧
            ev.e_event = .E_INTERRUPT) →
        v_event_get env (k + 3) gp argp timeout flags =
          .ret 0 { argp with e_event := .E_INTERRUPT }
            { logRead (QREM gp qp.input.length) EC_INTERRUPT 0 with interrupted := true } ∧
        (QREM gp qp.input.length).view = gp.view.drop qp.input.length)) ∧
    (∀ (loc : Locals) (gp : GS) (l : Label) (loc1 : Locals) (gp1 : GS),
      v_event_get_step env flags .retry loc gp = .goto l loc1 gp1 →
      loc1.remap_cnt = 0 ∧ gp1 = gp) ∧
    (∀ (n : Nat) (loc : Locals) (gp : GS) (loc1 : Locals) (gp1 : GS),
      loc.remap_cnt = 0 → expandChain env flags n loc gp = some (loc1, gp1) →
      loc1.remap_cnt = n ∧ gp1.scr_log = gp.scr_log ++ pollLog 1 n ∧
      (pollLog 1 n).length = if n = 0 then 0 else 1 + n / 10) := by
  refine ⟨fun qp out => v_event_get_remap_poll_step env flags qp out hremap, ?_, ?_⟩
  · intro loc gp l loc1 gp1 h
    simp only [v_event_get_step, v_event_get_retry] at h
    split at h
    · cases h
    · split at h
      · split at h
        · cases h
        · simp only [Step.goto.injEq] at h
          exact ⟨by rw [← h.2.1], h.2.2.symm⟩
      · simp only [Step.goto.injEq] at h
        exact ⟨by rw [← h.2.1], h.2.2.symm⟩
  · intro n loc gp loc1 gp1 h0 h
    obtain ⟨h1, h2⟩ := expandChain_spec env flags n loc gp loc1 gp1 h
    rw [h0] at h1 h2
    exact ⟨by omega, h2, pollLog_length n⟩

set_option maxRecDepth 1000000 in
theorem v_event_get_remap_poll_witness :
    (v_event_get intrEnv (0 + 3) qabc EVENT.zero 0 EC_MAPCOMMAND =
        .ret 0 { EVENT.zero with e_event := .E_INTERRUPT }
          { logRead (QREM qabc 1) EC_INTERRUPT 0 with interrupted := true } ∧
      ({ logRead (QREM qabc 1) EC_INTERRUPT 0 with interrupted := true } : GS).view.map EVENT.e_c
        = [98, 99]) ∧
    (∃ loc1 gp1, expandChain (mapEnv [⟨.SEQ_COMMAND, [97], some [98]⟩,
          ⟨.SEQ_COMMAND, [98], some [97]⟩] true) EC_MAPCOMMAND 10 ⟨EVENT.zero, 0, false, 0⟩ qa =
        some (loc1, gp1) ∧
      loc1.remap_cnt = 10 ∧ gp1.scr_log = [(EC_INTERRUPT, 0), (EC_INTERRUPT, 0)]) ∧
    (v_event_get cycleEnv 12 qa EVENT.zero 0 EC_MAPCOMMAND).log? =
      some [(EC_INTERRUPT, 0), (EC_INTERRUPT, 0)] :=
  have h := ((v_event_get_remap_poll intrEnv EC_MAPCOMMAND rfl).1
    ⟨.SEQ_COMMAND, [97], some [120, 121]⟩ [120, 121]).2 qabc EVENT.zero 0
    (chEvent noKeys CH_NONE 97) 0
    ⟨by decide, by decide, by decide⟩ (by decide) rfl rfl (by decide) rfl (by decide)
    (by decide) rfl (Or.inl rfl) (Or.inr ⟨interruptEvent, rfl, rfl⟩)
  have hs : (expandChain (mapEnv [⟨.SEQ_COMMAND, [97], some [98]⟩,
      ⟨.SEQ_COMMAND, [98], some [97]⟩] true) EC_MAPCOMMAND 10 ⟨EVENT.zero, 0, false, 0⟩
      qa).isSome = true := by decide
  ⟨⟨h.1, by decide⟩,
   (Option.isSome_iff_exists.mp hs).elim fun p hp =>
     have hc := (v_event_get_remap_poll (mapEnv [⟨.SEQ_COMMAND, [97], some [98]⟩,
       ⟨.SEQ_COMMAND, [98], some [97]⟩] true) EC_MAPCOMMAND rfl).2.2 10
       ⟨EVENT.zero, 0, false, 0⟩ qa p.1 p.2 rfl hp
     ⟨p.1, p.2, hp, hc.1, hc.2.1.trans (by decide)⟩,
   by decide⟩

end OpenVi
